import Mathlib

/-!
# BFV-RNS encryption and decryption (`bfvrns-pke.cpp`)

A shallow embedding of `PKEBFVRNS::Encrypt` (both overloads) and
`PKEBFVRNS::Decrypt` from `src/pke/lib/scheme/bfvrns/bfvrns-pke.cpp`, with the
enumerations of `src/pke/include/constants.h`.

The ring-element layer (`DCRTPoly`, `NativePoly`, the number-theoretic
transform, `EncryptZeroCore`, `DecryptCore`, `ScaleAndRound`) is defined
outside these two files.  Where the specification describes a routine it is
modelled from the specification and marked so; where it does not, the routine
is a field of `LatticeLayer` and every theorem quantifies over it.
-/

namespace lbcrypto

/-! ## Enumerations of `constants.h` -/

/-- The enum `MultiplicationTechnique` of `constants.h` (lines 84-89). -/
inductive MultiplicationTechnique where
  | BEHZ
  | HPS
  | HPSPOVERQ
  | HPSPOVERQLEVELED
  deriving DecidableEq

/-! ## Data model -/

/-- Modelled from the spec: the `Format` tag of a ring element (section 3,
"tagged with a `Format` (COEFFICIENT or EVALUATION)"); the enum is declared
outside `bfvrns-pke.cpp`, which uses its two names. -/
inductive Format where
  | EVALUATION
  | COEFFICIENT
  deriving DecidableEq

/-- Modelled from the spec: the error taxonomy of section 7; neither
`bfvrns-pke.cpp` nor `constants.h` declares an error type. -/
inductive Error where
  | ParameterMismatch
  | InvalidFormat
  | ChainExhausted
  deriving DecidableEq

/-- Modelled from the spec: one residue tower of a ring element, the
coefficients reduced modulo one prime of the chain (section 3, "one per prime
modulus in the chain x ring dimension coefficients"). -/
structure Tower where
  modulus : Nat
  values : List Nat
  deriving DecidableEq

/-- Modelled from the spec: the RNS/DCRT ring element of section 3, an ordered
sequence of towers tagged with a `Format`; the class `DCRTPoly` is declared
outside `bfvrns-pke.cpp`. -/
structure DCRTPoly where
  format : Format
  towers : List Tower
  deriving DecidableEq

/-- Modelled from the spec: a single-modulus polynomial, the type of the
plaintext that `Decrypt` writes (`NativePoly *plaintext`). -/
structure NativePoly where
  modulus : Nat
  format : Format
  values : List Nat
  deriving DecidableEq

/-- Modelled from the spec: the element parameters, of which only the modulus
chain is used here. -/
structure ElementParams where
  moduli : List Nat
  deriving DecidableEq

/-- Modelled from the spec: `CryptoParametersBFVRNS`, a read-only record; one
field per getter that `bfvrns-pke.cpp` calls, under the getter's name.  The
`Frac` tables hold the "fractional remainder" of the spec (section 4.2) as
exact rationals ("precomputed at full precision", section 4.3). -/
structure CryptoParametersBFVRNS where
  GetElementParams : ElementParams
  GetPlaintextModulus : Nat
  GetMultiplicationTechnique : MultiplicationTechnique
  GetQDivtModq : List Nat
  GettQHatInvModqDivqModt : List Nat
  GettQHatInvModqDivqModtPrecon : List Nat
  GettQHatInvModqBDivqModt : List Nat
  GettQHatInvModqBDivqModtPrecon : List Nat
  GettQHatInvModqDivqFrac : List ℚ
  GettQHatInvModqBDivqFrac : List ℚ
  GetModuliQ : List Nat
  Gettgamma : Nat
  GettgammaQHatInvModq : List Nat
  GettgammaQHatInvModqPrecon : List Nat
  GetNegInvqModtgamma : List Nat
  GetNegInvqModtgammaPrecon : List Nat

/-- Modelled from the spec: a private key, its crypto parameters and its
ring-element material (section 3). -/
structure PrivateKey where
  GetCryptoParameters : CryptoParametersBFVRNS
  GetPrivateElement : DCRTPoly

/-- Modelled from the spec: a public key, its crypto parameters and its
ring-element material (section 3). -/
structure PublicKey where
  GetCryptoParameters : CryptoParametersBFVRNS
  GetPublicElements : List DCRTPoly

/-- The ciphertext as `Encrypt` fills it: the elements given to `SetElements`
and the depth given to `SetDepth`. -/
structure Ciphertext where
  elements : List DCRTPoly
  depth : Nat
  deriving DecidableEq

/-- Modelled from the spec: `DecryptResult`, which "signals success/length"
(section 4.2).  `DecryptResult.ofLength len` is the constructor
`DecryptResult(len)` that `Decrypt` returns. -/
structure DecryptResult where
  isValid : Bool
  messageLength : Nat
  deriving DecidableEq

/-- Modelled from the spec: the constructor `DecryptResult(len)`, a successful
result carrying the length. -/
def DecryptResult.ofLength (len : Nat) : DecryptResult :=
  { isValid := true, messageLength := len }

/-- The routines of the lattice layer that `bfvrns-pke.cpp` calls, that are
defined outside it and for which the spec gives no formula.
`SwitchFormat q f v` is the number-theoretic transform of one tower (modulus
`q`, values `v`) into format `f`.  `EncryptZeroCorePrivate` and
`EncryptZeroCorePublic` are the two overloads of `EncryptZeroCore`; each call
samples fresh randomness, so the field stands for the outcome of one call, and
the pair it returns is `((*ba)[0], (*ba)[1])`.  `ScaleAndRoundBEHZ` is the
overload of `DCRTPoly::ScaleAndRound` taking
`(moduliQ, t, tgamma, tgammaQHatInvModq, tgammaQHatInvModqPrecon,
negInvqModtgamma, negInvqModtgammaPrecon)`. -/
structure LatticeLayer where
  SwitchFormat : Nat → Format → List Nat → List Nat
  EncryptZeroCorePrivate : PrivateKey → ElementParams → DCRTPoly × DCRTPoly
  EncryptZeroCorePublic : PublicKey → ElementParams → DCRTPoly × DCRTPoly
  DecryptCore : List DCRTPoly → PrivateKey → DCRTPoly
  ScaleAndRoundBEHZ : DCRTPoly → List Nat → Nat → Nat → List Nat → List Nat →
    List Nat → List Nat → NativePoly

/-! ## Ring-element operations, modelled from the spec -/

/-- The modulus chain of a ring element: the moduli of its towers, in order. -/
def DCRTPoly.chain (p : DCRTPoly) : List Nat :=
  p.towers.map Tower.modulus

/-- Modelled from the spec: `DCRTPoly::GetLength`, the ring dimension, read
off the first tower (0 for an element without towers). -/
def DCRTPoly.GetLength (p : DCRTPoly) : Nat :=
  match p.towers with
  | [] => 0
  | tw :: _ => tw.values.length

/-- Modelled from the spec: `NativePoly::GetLength`, the number of
coefficients. -/
def NativePoly.GetLength (p : NativePoly) : Nat :=
  p.values.length

/-- Modelled from the spec: `DCRTPoly::SetFormat` (section 4.1, "convert the
plaintext ring element to EVALUATION format if not already"): an element
already in the requested format is left alone, otherwise every tower goes
through the transform and the tag changes. -/
def DCRTPoly.SetFormat (L : LatticeLayer) (p : DCRTPoly) (format : Format) : DCRTPoly :=
  if p.format = format then p
  else
    { format := format
      towers := p.towers.map fun tw =>
        { modulus := tw.modulus, values := L.SwitchFormat tw.modulus format tw.values } }

/-- One tower multiplied by a constant, residue-wise, reduced modulo the
tower's modulus. -/
def Tower.Times (tw : Tower) (c : Nat) : Tower :=
  { modulus := tw.modulus, values := tw.values.map fun x => x * c % tw.modulus }

/-- Tower `i` is multiplied by entry `i` of the table; a tower for which the
table has no entry is kept as it is (the spec gives one factor per modulus and
says nothing about a shorter table). -/
def timesTowers : List Tower → List Nat → List Tower
  | [], _ => []
  | tw :: tws, [] => tw :: tws
  | tw :: tws, c :: cs => tw.Times c :: timesTowers tws cs

/-- Modelled from the spec: `DCRTPoly::Times(const std::vector<NativeInteger>&)`
(section 4.1, "scale the plaintext by the scheme-specific embedding factor
(e.g. floor(Q/t) mod each q_i)"): residue-wise scaling, same shape and format. -/
def DCRTPoly.Times (p : DCRTPoly) (element : List Nat) : DCRTPoly :=
  { format := p.format, towers := timesTowers p.towers element }

/-- Two towers added residue-wise, reduced modulo the modulus of the left one. -/
def Tower.Plus (a b : Tower) : Tower :=
  { modulus := a.modulus
    values := List.zipWith (fun x y => (x + y) % a.modulus) a.values b.values }

/-- Modelled from the spec: `DCRTPoly::operator+=` (section 3, "all arithmetic
between two ring elements requires identical modulus chain and identical
`Format`; mixing formats without explicit conversion is an error"; section 7
names the two errors; section 8, "any attempt to add two ring elements with
differing `Format` must fail with `InvalidFormat`").  The result is the new
value of the left operand. -/
def DCRTPoly.PlusEq (a b : DCRTPoly) : Except Error DCRTPoly :=
  if a.format ≠ b.format then Except.error Error.InvalidFormat
  else if a.chain ≠ b.chain then Except.error Error.ParameterMismatch
  else Except.ok { format := a.format, towers := List.zipWith Tower.Plus a.towers b.towers }

/-! ## The scale-and-round engine, modelled from the spec -/

/-- Modelled from the spec: the scale-and-round of one coefficient (section
4.3): "per-residue multiply-accumulate using precomputed per-modulus constants
that split the exact rational scaling factor into an integer part and a
fractional part"; "final rounding adds the fractional accumulator and
truncates".  `xs` holds the residues of the coefficient, `intTab` the integer
parts and `fracTab` the fractional parts.  Rounding to nearest (the spec's
`⌊(t/Q)·x⌉ mod t`) is one half added to the fractional accumulator before the
truncation. -/
def scaleAndRoundCoeff (t : Nat) (intTab : List Nat) (fracTab : List ℚ) (xs : List Nat) : Nat :=
  let intSum : Nat := ((List.range xs.length).map fun i => xs.getD i 0 * intTab.getD i 0).sum
  let fracSum : ℚ := ((List.range xs.length).map fun i => (xs.getD i 0 : ℚ) * fracTab.getD i 0).sum
  (intSum + (Int.floor (fracSum + 1 / 2)).toNat) % t

/-- Modelled from the spec: what "correctly precomputed" means for the
reconstruction constants: `invs[i]` is an inverse of `Q / q_i` modulo `q_i`
(the `q̂⁻¹` of section 4.2), one per modulus. -/
def QHatInvCorrect (qs invs : List Nat) : Prop :=
  invs.length = qs.length
    ∧ ∀ i, i < qs.length →
        invs.getD i 0 * (qs.prod / qs.getD i 1) % qs.getD i 1 = 1 % qs.getD i 1

/-- Modelled from the spec: the integer-part table of the HPS-style path
(section 4.2, `floor(t·q̂⁻¹/q)`), reduced modulo `t` as the getter's name
`tQHatInvModqDivqModt` says. -/
def tQHatInvModqDivqModt (t : Nat) (qs invs : List Nat) : List Nat :=
  List.zipWith (fun q v => t * v / q % t) qs invs

/-- Modelled from the spec: the fractional table of the HPS-style path
(section 4.2, "fractional remainder"): the fractional part of `t·q̂⁻¹/q`, at
full precision. -/
def tQHatInvModqDivqFrac (t : Nat) (qs invs : List Nat) : List ℚ :=
  List.zipWith (fun q v => ((t * v % q : Nat) : ℚ) / (q : ℚ)) qs invs

/-- Modelled from the spec: the HPS-style `DCRTPoly::ScaleAndRound` (section
4.2, "uses a precomputed divide-and-round table (floor(t·q̂⁻¹/q), fractional
remainder)"), taking the seven arguments of the call in `Decrypt`.  Every
coefficient goes through `scaleAndRoundCoeff`.  The `Precon` tables are
"precomputed reciprocals enabling fast modular multiplication" (section 4.3)
and do not change a value; the spec does not describe the `B` tables; neither
is read. -/
def DCRTPoly.ScaleAndRound (b : DCRTPoly) (t : Nat)
    (tQHatInvModqDivqModt _tQHatInvModqDivqModtPrecon : List Nat)
    (_tQHatInvModqBDivqModt _tQHatInvModqBDivqModtPrecon : List Nat)
    (tQHatInvModqDivqFrac _tQHatInvModqBDivqFrac : List ℚ) : NativePoly :=
  { modulus := t
    format := Format.COEFFICIENT
    values := (List.range b.GetLength).map fun k =>
      scaleAndRoundCoeff t tQHatInvModqDivqModt tQHatInvModqDivqFrac
        (b.towers.map fun tw => tw.values.getD k 0) }

/-! ## `PKEBFVRNS::Encrypt` and `PKEBFVRNS::Decrypt` -/

/-- `PKEBFVRNS::Encrypt(DCRTPoly ptxt, const PrivateKey<DCRTPoly> privateKey)`,
lines 61-84.  `ptxt` is passed by value.  An error of `operator+=` leaves the
function as the exception would. -/
def PKEBFVRNS.Encrypt_PrivateKey (L : LatticeLayer) (ptxt : DCRTPoly)
    (privateKey : PrivateKey) : Except Error Ciphertext :=
  let cryptoParams := privateKey.GetCryptoParameters
  let elementParams := cryptoParams.GetElementParams
  let ba := L.EncryptZeroCorePrivate privateKey elementParams
  let ptxt := ptxt.SetFormat L Format.EVALUATION
  let QDivtModq := cryptoParams.GetQDivtModq
  match ba.1.PlusEq (ptxt.Times QDivtModq) with
  | Except.error e => Except.error e
  | Except.ok ba0 => Except.ok { elements := [ba0, ba.2], depth := 1 }

/-- `PKEBFVRNS::Encrypt(DCRTPoly ptxt, const PublicKey<DCRTPoly> publicKey)`,
lines 86-109. -/
def PKEBFVRNS.Encrypt_PublicKey (L : LatticeLayer) (ptxt : DCRTPoly)
    (publicKey : PublicKey) : Except Error Ciphertext :=
  let cryptoParams := publicKey.GetCryptoParameters
  let elementParams := cryptoParams.GetElementParams
  let ba := L.EncryptZeroCorePublic publicKey elementParams
  let ptxt := ptxt.SetFormat L Format.EVALUATION
  let QDivtModq := cryptoParams.GetQDivtModq
  match ba.1.PlusEq (ptxt.Times QDivtModq) with
  | Except.error e => Except.error e
  | Except.ok ba0 => Except.ok { elements := [ba0, ba.2], depth := 1 }

/-- The two scaling paths of `Decrypt`. -/
inductive ScalingPath where
  | HPSStyle
  | BEHZStyle
  deriving DecidableEq

/-- The branch condition of `Decrypt`, lines 121-123 and 131. -/
def PKEBFVRNS.DecryptScalingPath (technique : MultiplicationTechnique) : ScalingPath :=
  if technique = MultiplicationTechnique.HPS
      ∨ technique = MultiplicationTechnique.HPSPOVERQ
      ∨ technique = MultiplicationTechnique.HPSPOVERQLEVELED then
    ScalingPath.HPSStyle
  else
    ScalingPath.BEHZStyle

/-- `PKEBFVRNS::Decrypt`, lines 111-141.  The first component is the value
written to `*plaintext`, the second the returned `DecryptResult`. -/
def PKEBFVRNS.Decrypt (L : LatticeLayer) (ciphertext : Ciphertext)
    (privateKey : PrivateKey) : NativePoly × DecryptResult :=
  let cryptoParams := privateKey.GetCryptoParameters
  let cv := ciphertext.elements
  let b := (L.DecryptCore cv privateKey).SetFormat L Format.COEFFICIENT
  let plaintext :=
    match PKEBFVRNS.DecryptScalingPath cryptoParams.GetMultiplicationTechnique with
    | ScalingPath.HPSStyle =>
      b.ScaleAndRound cryptoParams.GetPlaintextModulus
        cryptoParams.GettQHatInvModqDivqModt
        cryptoParams.GettQHatInvModqDivqModtPrecon
        cryptoParams.GettQHatInvModqBDivqModt
        cryptoParams.GettQHatInvModqBDivqModtPrecon
        cryptoParams.GettQHatInvModqDivqFrac
        cryptoParams.GettQHatInvModqBDivqFrac
    | ScalingPath.BEHZStyle =>
      L.ScaleAndRoundBEHZ b
        cryptoParams.GetModuliQ cryptoParams.GetPlaintextModulus
        cryptoParams.Gettgamma cryptoParams.GettgammaQHatInvModq
        cryptoParams.GettgammaQHatInvModqPrecon
        cryptoParams.GetNegInvqModtgamma
        cryptoParams.GetNegInvqModtgammaPrecon
  (plaintext, DecryptResult.ofLength plaintext.GetLength)

/-! ## Concrete parameters used to evaluate the definitions

A chain of two moduli `5` and `7` (so `Q = 35`), plaintext modulus `2`
(`floor(Q/t) = 17`, hence `QDivtModq = [2, 3]`) and ring dimension 1, for
which the number-theoretic transform is the identity. -/

/-- Crypto parameters over the chain `[5, 7]` with plaintext modulus `2`. -/
def exampleParams (technique : MultiplicationTechnique) : CryptoParametersBFVRNS :=
  { GetElementParams := { moduli := [5, 7] }
    GetPlaintextModulus := 2
    GetMultiplicationTechnique := technique
    GetQDivtModq := [2, 3]
    GettQHatInvModqDivqModt := tQHatInvModqDivqModt 2 [5, 7] [3, 3]
    GettQHatInvModqDivqModtPrecon := []
    GettQHatInvModqBDivqModt := []
    GettQHatInvModqBDivqModtPrecon := []
    GettQHatInvModqDivqFrac := tQHatInvModqDivqFrac 2 [5, 7] [3, 3]
    GettQHatInvModqBDivqFrac := []
    GetModuliQ := [5, 7]
    Gettgamma := 6
    GettgammaQHatInvModq := [3, 4]
    GettgammaQHatInvModqPrecon := []
    GetNegInvqModtgamma := [1, 5]
    GetNegInvqModtgammaPrecon := [] }

/-- A private key over `exampleParams`. -/
def examplePrivateKey : PrivateKey :=
  { GetCryptoParameters := exampleParams MultiplicationTechnique.HPS
    GetPrivateElement :=
      { format := Format.EVALUATION, towers := [⟨5, [1]⟩, ⟨7, [1]⟩] } }

/-- A public key over `exampleParams`. -/
def examplePublicKey : PublicKey :=
  { GetCryptoParameters := exampleParams MultiplicationTechnique.HPS
    GetPublicElements :=
      [ { format := Format.EVALUATION, towers := [⟨5, [4]⟩, ⟨7, [5]⟩] },
        { format := Format.EVALUATION, towers := [⟨5, [3]⟩, ⟨7, [4]⟩] } ] }

/-- A lattice layer for ring dimension 1: the transform is the identity, a
call of `EncryptZeroCore` yields the pair with residues `[4, 5]` and `[3, 4]`,
`DecryptCore` returns the first element of the ciphertext. -/
def exampleLayer : LatticeLayer :=
  { SwitchFormat := fun _ _ v => v
    EncryptZeroCorePrivate := fun _ _ =>
      ({ format := Format.EVALUATION, towers := [⟨5, [4]⟩, ⟨7, [5]⟩] },
       { format := Format.EVALUATION, towers := [⟨5, [3]⟩, ⟨7, [4]⟩] })
    EncryptZeroCorePublic := fun _ _ =>
      ({ format := Format.EVALUATION, towers := [⟨5, [4]⟩, ⟨7, [5]⟩] },
       { format := Format.EVALUATION, towers := [⟨5, [3]⟩, ⟨7, [4]⟩] })
    DecryptCore := fun cv _ => cv.headD { format := Format.EVALUATION, towers := [] }
    ScaleAndRoundBEHZ := fun b _ t _ _ _ _ _ =>
      { modulus := t, format := Format.COEFFICIENT, values := List.replicate b.GetLength 0 } }

/-- The plaintext `1` over the chain `[5, 7]`, in COEFFICIENT format. -/
def examplePlaintext : DCRTPoly :=
  { format := Format.COEFFICIENT, towers := [⟨5, [1]⟩, ⟨7, [1]⟩] }

/-- The plaintext `1` over the longer chain `[5, 7, 11]`. -/
def exampleMismatchedPlaintext : DCRTPoly :=
  { format := Format.COEFFICIENT, towers := [⟨5, [1]⟩, ⟨7, [1]⟩, ⟨11, [1]⟩] }

/-- A ring element over the chain `[2, 3]` (so `Q = 6`) whose only coefficient
is `1`: with `t = 3` the quotient `1 * 3 / 6` is the half-integer `1/2`. -/
def exampleTieElement : DCRTPoly :=
  { format := Format.COEFFICIENT, towers := [⟨2, [1]⟩, ⟨3, [1]⟩] }

/-! ## `Encrypt` and `Decrypt` on a store of objects -/

/-- An object that `Encrypt` or `Decrypt` reaches through a pointer, a
reference or a by-value parameter.  The cell of a key holds the key together
with the crypto parameters it refers to (the `QDivtModq` table included). -/
inductive Object where
  | element (p : DCRTPoly)
  | elementVector (v : List DCRTPoly)
  | nativeElement (p : NativePoly)
  | privateKey (k : PrivateKey)
  | publicKey (k : PublicKey)
  | ciphertext (c : Ciphertext)

/-- The store: the object at address `a` is the cell at index `a`.  A new
object goes to the end, and cells are not removed, so the cells of locals
(destroyed at return in the program) stay behind as dead cells. -/
abbrev Store := List Object

/-- A new object, placed at address `s.length`. -/
def Store.alloc (s : Store) (o : Object) : Store :=
  s ++ [o]

/-- The object at address `a` overwritten. -/
def Store.write (s : Store) (a : Nat) (o : Object) : Store :=
  s.set a o

/-- Dereference of a `DCRTPoly` at address `a`. -/
def Store.element? (s : Store) (a : Nat) : Option DCRTPoly :=
  match s[a]? with
  | some (Object.element p) => some p
  | _ => none

/-- Dereference of a `std::vector<DCRTPoly>` at address `a`. -/
def Store.elementVector? (s : Store) (a : Nat) : Option (List DCRTPoly) :=
  match s[a]? with
  | some (Object.elementVector v) => some v
  | _ => none

/-- Dereference of a `NativePoly` at address `a`. -/
def Store.nativeElement? (s : Store) (a : Nat) : Option NativePoly :=
  match s[a]? with
  | some (Object.nativeElement p) => some p
  | _ => none

/-- Dereference of a `PrivateKey<DCRTPoly>` at address `a`. -/
def Store.privateKey? (s : Store) (a : Nat) : Option PrivateKey :=
  match s[a]? with
  | some (Object.privateKey k) => some k
  | _ => none

/-- Dereference of a `PublicKey<DCRTPoly>` at address `a`. -/
def Store.publicKey? (s : Store) (a : Nat) : Option PublicKey :=
  match s[a]? with
  | some (Object.publicKey k) => some k
  | _ => none

/-- Dereference of a `Ciphertext<DCRTPoly>` at address `a`. -/
def Store.ciphertext? (s : Store) (a : Nat) : Option Ciphertext :=
  match s[a]? with
  | some (Object.ciphertext c) => some c
  | _ => none

/-- The routines that `bfvrns-pke.cpp` calls with a pointer to a key, as steps
on the store: they receive the store and addresses, and return the store they
leave behind together with their result, so that nothing in their type keeps
them from writing to the key, the parameters or any other object.
`EncryptZeroCorePrivate` and `EncryptZeroCorePublic` get the address of the key
and return the address of the vector `*ba`; `DecryptCore` gets the addresses of
the ciphertext (whose elements are `cv`) and of the key and returns the
element `b` by value.  `CiphertextImpl` is the object that
`std::make_shared<CiphertextImpl<DCRTPoly>>(key)` constructs.  The member
functions of a ring element (`SetFormat`, `Times`, `+=`, `ScaleAndRound`) act
on their receiver and are taken from `layer`. -/
structure StoreLayer where
  layer : LatticeLayer
  CiphertextImpl : Ciphertext
  EncryptZeroCorePrivate : Store → Nat → ElementParams → Store × Nat
  EncryptZeroCorePublic : Store → Nat → ElementParams → Store × Nat
  DecryptCore : Store → Nat → Nat → Store × DCRTPoly

/-- `PKEBFVRNS::Encrypt(DCRTPoly ptxt, const PrivateKey<DCRTPoly> privateKey)`,
lines 61-84, statement by statement on the store.  `ptxtArg` is the address of
the caller's ring element and `privateKey` the address the key pointer holds.
The parameter `ptxt` is passed by value, so the call copies the caller's
element into a new cell and line 75 writes that cell.  Each read after the
call of `EncryptZeroCore` goes to the store that call leaves behind.  Line 80
moves the two elements out of `*ba`, a vector that is released at the return;
its cell keeps the values here.  The result is `none` when an address does not
hold an object of the type the program expects, otherwise the store at the
return and the address of the returned ciphertext, or the error of `+=`. -/
def PKEBFVRNS.Encrypt_PrivateKey_store (L : StoreLayer) (s : Store)
    (ptxtArg privateKey : Nat) : Option (Store × Except Error Nat) := do
  let arg ← s.element? ptxtArg
  let ptxt := s.length
  let s := s.alloc (Object.element arg)
  let ciphertext := s.length
  let s := s.alloc (Object.ciphertext L.CiphertextImpl)
  let key ← s.privateKey? privateKey
  let elementParams := key.GetCryptoParameters.GetElementParams
  let called := L.EncryptZeroCorePrivate s privateKey elementParams
  let s := called.1
  let ba := called.2
  let p ← s.element? ptxt
  let s := s.write ptxt (Object.element (p.SetFormat L.layer Format.EVALUATION))
  let key ← s.privateKey? privateKey
  let QDivtModq := key.GetCryptoParameters.GetQDivtModq
  let p ← s.element? ptxt
  let v ← s.elementVector? ba
  match v with
  | ba0 :: ba1 :: rest =>
    match ba0.PlusEq (p.Times QDivtModq) with
    | Except.error e => some (s, Except.error e)
    | Except.ok ba0 =>
      let s := s.write ba (Object.elementVector (ba0 :: ba1 :: rest))
      let c ← s.ciphertext? ciphertext
      let s := s.write ciphertext (Object.ciphertext { c with elements := [ba0, ba1] })
      let c ← s.ciphertext? ciphertext
      let s := s.write ciphertext (Object.ciphertext { c with depth := 1 })
      some (s, Except.ok ciphertext)
  | _ => none

/-- `PKEBFVRNS::Encrypt(DCRTPoly ptxt, const PublicKey<DCRTPoly> publicKey)`,
lines 86-109, statement by statement on the store. -/
def PKEBFVRNS.Encrypt_PublicKey_store (L : StoreLayer) (s : Store)
    (ptxtArg publicKey : Nat) : Option (Store × Except Error Nat) := do
  let arg ← s.element? ptxtArg
  let ptxt := s.length
  let s := s.alloc (Object.element arg)
  let ciphertext := s.length
  let s := s.alloc (Object.ciphertext L.CiphertextImpl)
  let key ← s.publicKey? publicKey
  let elementParams := key.GetCryptoParameters.GetElementParams
  let called := L.EncryptZeroCorePublic s publicKey elementParams
  let s := called.1
  let ba := called.2
  let p ← s.element? ptxt
  let s := s.write ptxt (Object.element (p.SetFormat L.layer Format.EVALUATION))
  let key ← s.publicKey? publicKey
  let QDivtModq := key.GetCryptoParameters.GetQDivtModq
  let p ← s.element? ptxt
  let v ← s.elementVector? ba
  match v with
  | ba0 :: ba1 :: rest =>
    match ba0.PlusEq (p.Times QDivtModq) with
    | Except.error e => some (s, Except.error e)
    | Except.ok ba0 =>
      let s := s.write ba (Object.elementVector (ba0 :: ba1 :: rest))
      let c ← s.ciphertext? ciphertext
      let s := s.write ciphertext (Object.ciphertext { c with elements := [ba0, ba1] })
      let c ← s.ciphertext? ciphertext
      let s := s.write ciphertext (Object.ciphertext { c with depth := 1 })
      some (s, Except.ok ciphertext)
  | _ => none

/-- `PKEBFVRNS::Decrypt`, lines 111-141, statement by statement on the store:
`ciphertext`, `privateKey` and `plaintext` are the addresses the three pointers
hold.  `b` is a local element; the one write of the body goes through
`*plaintext` (lines 124 and 132), and line 140 reads the length back from
there.  The result is `none` when an address does not hold an object of the
type the program expects. -/
def PKEBFVRNS.Decrypt_store (L : StoreLayer) (s : Store)
    (ciphertext privateKey plaintext : Nat) : Option (Store × DecryptResult) := do
  let _ ← s.privateKey? privateKey
  let _ ← s.ciphertext? ciphertext
  let called := L.DecryptCore s ciphertext privateKey
  let s := called.1
  let b := called.2.SetFormat L.layer Format.COEFFICIENT
  let key ← s.privateKey? privateKey
  let cryptoParams := key.GetCryptoParameters
  let scaled :=
    match PKEBFVRNS.DecryptScalingPath cryptoParams.GetMultiplicationTechnique with
    | ScalingPath.HPSStyle =>
      b.ScaleAndRound cryptoParams.GetPlaintextModulus
        cryptoParams.GettQHatInvModqDivqModt
        cryptoParams.GettQHatInvModqDivqModtPrecon
        cryptoParams.GettQHatInvModqBDivqModt
        cryptoParams.GettQHatInvModqBDivqModtPrecon
        cryptoParams.GettQHatInvModqDivqFrac
        cryptoParams.GettQHatInvModqBDivqFrac
    | ScalingPath.BEHZStyle =>
      L.layer.ScaleAndRoundBEHZ b
        cryptoParams.GetModuliQ cryptoParams.GetPlaintextModulus
        cryptoParams.Gettgamma cryptoParams.GettgammaQHatInvModq
        cryptoParams.GettgammaQHatInvModqPrecon
        cryptoParams.GetNegInvqModtgamma
        cryptoParams.GetNegInvqModtgammaPrecon
  let _ ← s.nativeElement? plaintext
  let s := s.write plaintext (Object.nativeElement scaled)
  let written ← s.nativeElement? plaintext
  some (s, DecryptResult.ofLength written.GetLength)

/-- Modelled from the spec: the contract of the two overloads of
`EncryptZeroCore`, which are not under `src/`.  Keys and crypto parameters are
"never mutated after generation" (section 3) and each call "operates on its
own ciphertext/ring-element values" (section 5): the call leaves every object
that exists when it is made as it is, and the vector it returns is a new
object holding the pair `((*ba)[0], (*ba)[1])` of the zero encryption. -/
def StoreLayer.EncryptZeroCoreContract (L : StoreLayer) : Prop :=
  (∀ (s : Store) (k : Nat) (key : PrivateKey), s.privateKey? k = some key →
    (∀ a, a < s.length →
      (L.EncryptZeroCorePrivate s k key.GetCryptoParameters.GetElementParams).1[a]? = s[a]?)
    ∧ s.length ≤ (L.EncryptZeroCorePrivate s k key.GetCryptoParameters.GetElementParams).2
    ∧ (L.EncryptZeroCorePrivate s k key.GetCryptoParameters.GetElementParams).1.elementVector?
        (L.EncryptZeroCorePrivate s k key.GetCryptoParameters.GetElementParams).2
      = some [(L.layer.EncryptZeroCorePrivate key key.GetCryptoParameters.GetElementParams).1,
              (L.layer.EncryptZeroCorePrivate key key.GetCryptoParameters.GetElementParams).2])
  ∧ (∀ (s : Store) (k : Nat) (key : PublicKey), s.publicKey? k = some key →
    (∀ a, a < s.length →
      (L.EncryptZeroCorePublic s k key.GetCryptoParameters.GetElementParams).1[a]? = s[a]?)
    ∧ s.length ≤ (L.EncryptZeroCorePublic s k key.GetCryptoParameters.GetElementParams).2
    ∧ (L.EncryptZeroCorePublic s k key.GetCryptoParameters.GetElementParams).1.elementVector?
        (L.EncryptZeroCorePublic s k key.GetCryptoParameters.GetElementParams).2
      = some [(L.layer.EncryptZeroCorePublic key key.GetCryptoParameters.GetElementParams).1,
              (L.layer.EncryptZeroCorePublic key key.GetCryptoParameters.GetElementParams).2])

/-- Modelled from the spec: the contract of `DecryptCore`, which is not under
`src/`.  The core is "a stateless-per-call arithmetic library" (section 5):
the call leaves every object that exists when it is made as it is, and the
element it returns is determined by the elements of the ciphertext and by the
key. -/
def StoreLayer.DecryptCoreContract (L : StoreLayer) : Prop :=
  ∀ (s : Store) (c k : Nat) (ct : Ciphertext) (key : PrivateKey),
    s.ciphertext? c = some ct → s.privateKey? k = some key →
    (∀ a, a < s.length → (L.DecryptCore s c k).1[a]? = s[a]?)
    ∧ (L.DecryptCore s c k).2 = L.layer.DecryptCore ct.elements key

/-- The routines of a lattice layer as steps on the store that write to no
existing object: `EncryptZeroCore` puts its pair into a new vector and
`DecryptCore` only reads. -/
def StoreLayer.ofLatticeLayer (L : LatticeLayer) : StoreLayer :=
  { layer := L
    CiphertextImpl := { elements := [], depth := 0 }
    EncryptZeroCorePrivate := fun s k ep =>
      match s.privateKey? k with
      | some key =>
        (s.alloc (Object.elementVector [(L.EncryptZeroCorePrivate key ep).1,
                                        (L.EncryptZeroCorePrivate key ep).2]), s.length)
      | none => (s, s.length)
    EncryptZeroCorePublic := fun s k ep =>
      match s.publicKey? k with
      | some key =>
        (s.alloc (Object.elementVector [(L.EncryptZeroCorePublic key ep).1,
                                        (L.EncryptZeroCorePublic key ep).2]), s.length)
      | none => (s, s.length)
    DecryptCore := fun s c k =>
      match s.ciphertext? c, s.privateKey? k with
      | some ct, some key => (s, L.DecryptCore ct.elements key)
      | _, _ => (s, { format := Format.EVALUATION, towers := [] }) }

/-- A zero-encryption routine that breaks the contract: instead of a new
vector it hands out the vector at address 0. -/
def exampleAliasingLayer : StoreLayer :=
  { StoreLayer.ofLatticeLayer exampleLayer with
    EncryptZeroCorePrivate := fun s _ _ => (s, 0) }

/-- A store with the plaintext `1` at address 0, the example private key at
address 1, the example public key at address 2, a ciphertext at address 3 and
an output polynomial at address 4. -/
def exampleStore : Store :=
  [Object.element examplePlaintext,
   Object.privateKey examplePrivateKey,
   Object.publicKey examplePublicKey,
   Object.ciphertext { elements := [examplePlaintext], depth := 1 },
   Object.nativeElement { modulus := 2, format := Format.COEFFICIENT, values := [1, 1] }]

/-- A store whose cell 0 is a vector of two elements, with the example private
key at address 1 and the plaintext `1` at address 2. -/
def exampleVectorStore : Store :=
  [Object.elementVector [⟨Format.EVALUATION, [⟨5, [4]⟩, ⟨7, [5]⟩]⟩,
                         ⟨Format.EVALUATION, [⟨5, [3]⟩, ⟨7, [4]⟩]⟩],
   Object.privateKey examplePrivateKey,
   Object.element examplePlaintext]

/-! ## Level and depth bookkeeping -/

/-- The enum `ScalingTechnique` of `constants.h` (lines 61-68). -/
inductive ScalingTechnique where
  | FIXEDMANUAL
  | FIXEDAUTO
  | FLEXIBLEAUTO
  | FLEXIBLEAUTOEXT
  | NORESCALE
  | INVALID_RS_TECHNIQUE
  deriving DecidableEq

/-- The constant `BASE_NUM_LEVELS_TO_DROP` of `constants.h` (lines 102-104). -/
def BASE_NUM_LEVELS_TO_DROP : Nat := 1

/-- Modelled from the spec: the automatic-rescale variants, which section 9
names as "FIXEDAUTO/FLEXIBLEAUTO vs. FIXEDMANUAL". -/
def ScalingTechnique.isAutomatic : ScalingTechnique → Bool
  | ScalingTechnique.FIXEDAUTO => true
  | ScalingTechnique.FLEXIBLEAUTO => true
  | _ => false

/-- Modelled from the spec: what the level/depth tracker keeps per ciphertext
(section 4.4): the depth `d`, which the comment of `main`
(`advanced-real-numbers-128.cpp`, lines 61-65) explains as the power of the
scaling factor `D`, and the length of the still-active modulus chain. -/
structure LevelState where
  depth : Nat
  chainLength : Nat
  deriving DecidableEq

/-- The tracker state of a ciphertext: its depth and the number of towers of
its elements (section 3, "an implicit current modulus (length of the
still-active prime chain)"). -/
def Ciphertext.level (ct : Ciphertext) : LevelState :=
  { depth := ct.depth
    chainLength := match ct.elements with
      | [] => 0
      | e :: _ => e.towers.length }

/-- Modelled from the spec: the terminal condition of section 4.4, "chain
length reaching 1 with `Depth > 1` means no further multiplication is
possible without a bootstrap". -/
def LevelState.terminal (c : LevelState) : Bool :=
  decide (c.chainLength ≤ 1 ∧ 1 < c.depth)

/-- Modelled from the spec: the transition `Multiply` of section 4.4
(`cc->EvalMult` in the examples): "`Depth(result) = Depth(c1) + Depth(c2)`,
chain length unchanged"; on a terminal operand it fails with `ChainExhausted`
(section 7, "multiplication or rescale attempted with no remaining levels").
Operands over chains of different length are brought to the shorter one by the
automatic `LevelReduce` that the comment of `ManualRescaleDemo` describes
(lines 226-236). -/
def LevelTracker.EvalMult (c1 c2 : LevelState) : Except Error LevelState :=
  if c1.terminal ∨ c2.terminal then Except.error Error.ChainExhausted
  else Except.ok { depth := c1.depth + c2.depth
                   chainLength := min c1.chainLength c2.chainLength }

/-- Modelled from the spec: the transition `Add` of section 4.4
(`cc->EvalAdd`), with the two points on which
`advanced-real-numbers-128.cpp` is explicit and which override the spec:
operands of different depth cannot be added (lines 65-67), and operands over
different moduli are adjusted by an automatic `LevelReduce`, in FIXEDMANUAL
and FIXEDAUTO alike (lines 226-236; line 295 adds `c18_depth2` and
`c9_depth2`, which lie over chains of different length). -/
def LevelTracker.EvalAdd (c1 c2 : LevelState) : Option LevelState :=
  if c1.depth = c2.depth then
    some { depth := c1.depth, chainLength := min c1.chainLength c2.chainLength }
  else none

/-- The transition `Sub` (`cc->EvalSub`), with the bookkeeping of `Add`. -/
def LevelTracker.EvalSub (c1 c2 : LevelState) : Option LevelState :=
  LevelTracker.EvalAdd c1 c2

/-- Modelled from the spec: the transition `Rescale` of section 4.4
(`cc->Rescale`): the chain loses `BASE_NUM_LEVELS_TO_DROP` moduli, and with no
level left to drop the call fails with `ChainExhausted` (sections 7 and 8).
In an automatic mode the depth "resets to 1" (section 4.4).  In the other
modes the depth follows the comment of `main`
(`advanced-real-numbers-128.cpp`, lines 63-68), which overrides the spec's
"preserved": rescaling divides by the scaling factor `D` and "takes a
ciphertext of depth 2, and makes it of depth 1", so the depth goes down by
one. -/
def LevelTracker.Rescale (mode : ScalingTechnique) (c : LevelState) : Except Error LevelState :=
  if c.chainLength ≤ BASE_NUM_LEVELS_TO_DROP then Except.error Error.ChainExhausted
  else Except.ok { depth := if mode.isAutomatic then 1 else c.depth - 1
                   chainLength := c.chainLength - BASE_NUM_LEVELS_TO_DROP }

/-- The same transition with the depth rule of section 4.4 taken literally for
the manual mode ("else preserved for manual lazy-relinearization
accounting"). -/
def LevelTracker.RescaleDepthPreserving (mode : ScalingTechnique) (c : LevelState) :
    Except Error LevelState :=
  if c.chainLength ≤ BASE_NUM_LEVELS_TO_DROP then Except.error Error.ChainExhausted
  else Except.ok { depth := if mode.isAutomatic then 1 else c.depth
                   chainLength := c.chainLength - BASE_NUM_LEVELS_TO_DROP }

/-! ## The circuits of `advanced-real-numbers-128.cpp` -/

/-- The homomorphic calls that the two rescale demos make on one encrypted
input: `input` is `cc->Encrypt(keys.publicKey, ptxt)`, the `Const` forms take
a `double` as second argument. -/
inductive Circuit where
  | input
  | EvalMult (a b : Circuit)
  | EvalMultConst (a : Circuit)
  | EvalAdd (a b : Circuit)
  | EvalAddConst (a : Circuit)
  | EvalSub (a b : Circuit)
  | EvalSubConst (a : Circuit)
  | Rescale (a : Circuit)
  deriving DecidableEq

/-- The multiplicative depth of a circuit: every `EvalMult`, ciphertext by
ciphertext or ciphertext by constant, counts one level on top of its deepest
operand; `EvalAdd`, `EvalSub` and `Rescale` count none. -/
def Circuit.multiplicativeDepth : Circuit → Nat
  | Circuit.input => 0
  | Circuit.EvalMult a b => max a.multiplicativeDepth b.multiplicativeDepth + 1
  | Circuit.EvalMultConst a => a.multiplicativeDepth + 1
  | Circuit.EvalAdd a b => max a.multiplicativeDepth b.multiplicativeDepth
  | Circuit.EvalAddConst a => a.multiplicativeDepth
  | Circuit.EvalSub a b => max a.multiplicativeDepth b.multiplicativeDepth
  | Circuit.EvalSubConst a => a.multiplicativeDepth
  | Circuit.Rescale a => a.multiplicativeDepth

/-- The number of explicit `Rescale` calls in a circuit. -/
def Circuit.rescaleCalls : Circuit → Nat
  | Circuit.input => 0
  | Circuit.EvalMult a b => a.rescaleCalls + b.rescaleCalls
  | Circuit.EvalMultConst a => a.rescaleCalls
  | Circuit.EvalAdd a b => a.rescaleCalls + b.rescaleCalls
  | Circuit.EvalAddConst a => a.rescaleCalls
  | Circuit.EvalSub a b => a.rescaleCalls + b.rescaleCalls
  | Circuit.EvalSubConst a => a.rescaleCalls
  | Circuit.Rescale a => a.rescaleCalls + 1

/-- The tracker state of the value of a circuit, from the state `fresh` of the
encrypted input; `none` when a call fails.  A constant operand is encoded at
the depth and level of the ciphertext it is added to, and at depth 1 when it
is multiplied in. -/
def Circuit.level (mode : ScalingTechnique) (fresh : LevelState) : Circuit → Option LevelState
  | Circuit.input => some fresh
  | Circuit.EvalMult a b =>
    match a.level mode fresh, b.level mode fresh with
    | some x, some y => (LevelTracker.EvalMult x y).toOption
    | _, _ => none
  | Circuit.EvalMultConst a =>
    match a.level mode fresh with
    | some x => (LevelTracker.EvalMult x { depth := 1, chainLength := x.chainLength }).toOption
    | none => none
  | Circuit.EvalAdd a b =>
    match a.level mode fresh, b.level mode fresh with
    | some x, some y => LevelTracker.EvalAdd x y
    | _, _ => none
  | Circuit.EvalAddConst a => a.level mode fresh
  | Circuit.EvalSub a b =>
    match a.level mode fresh, b.level mode fresh with
    | some x, some y => LevelTracker.EvalSub x y
    | _, _ => none
  | Circuit.EvalSubConst a => a.level mode fresh
  | Circuit.Rescale a =>
    match a.level mode fresh with
    | some x => (LevelTracker.Rescale mode x).toOption
    | none => none

/-- `parameters.SetMultiplicativeDepth(6)` in `AutomaticRescaleDemo` (line 159). -/
def AutomaticRescaleDemo.multiplicativeDepth : Nat := 6

/-- `c` in `AutomaticRescaleDemo` (line 182). -/
def AutomaticRescaleDemo.c : Circuit := Circuit.input

/-- `c2` in `AutomaticRescaleDemo` (line 192). -/
def AutomaticRescaleDemo.c2 : Circuit :=
  Circuit.EvalMult AutomaticRescaleDemo.c AutomaticRescaleDemo.c

/-- `c4` in `AutomaticRescaleDemo` (line 193). -/
def AutomaticRescaleDemo.c4 : Circuit :=
  Circuit.EvalMult AutomaticRescaleDemo.c2 AutomaticRescaleDemo.c2

/-- `c8` in `AutomaticRescaleDemo` (line 194). -/
def AutomaticRescaleDemo.c8 : Circuit :=
  Circuit.EvalMult AutomaticRescaleDemo.c4 AutomaticRescaleDemo.c4

/-- `c16` in `AutomaticRescaleDemo` (line 195). -/
def AutomaticRescaleDemo.c16 : Circuit :=
  Circuit.EvalMult AutomaticRescaleDemo.c8 AutomaticRescaleDemo.c8

/-- `c9` in `AutomaticRescaleDemo` (line 196). -/
def AutomaticRescaleDemo.c9 : Circuit :=
  Circuit.EvalMult AutomaticRescaleDemo.c8 AutomaticRescaleDemo.c

/-- `c18` in `AutomaticRescaleDemo` (line 197). -/
def AutomaticRescaleDemo.c18 : Circuit :=
  Circuit.EvalMult AutomaticRescaleDemo.c16 AutomaticRescaleDemo.c2

/-- `cRes1` in `AutomaticRescaleDemo` (line 198). -/
def AutomaticRescaleDemo.cRes1 : Circuit :=
  Circuit.EvalAddConst (Circuit.EvalAdd AutomaticRescaleDemo.c18 AutomaticRescaleDemo.c9)

/-- `cRes2` in `AutomaticRescaleDemo` (line 199). -/
def AutomaticRescaleDemo.cRes2 : Circuit :=
  Circuit.EvalSubConst (Circuit.EvalAdd AutomaticRescaleDemo.c18 AutomaticRescaleDemo.c9)

/-- `cRes3` in `AutomaticRescaleDemo` (line 200). -/
def AutomaticRescaleDemo.cRes3 : Circuit :=
  Circuit.EvalMultConst (Circuit.EvalAdd AutomaticRescaleDemo.c18 AutomaticRescaleDemo.c9)

/-- The state of the fresh ciphertext in `ManualRescaleDemo`: depth 1 and, for
`SetMultiplicativeDepth(5)` (line 245), a chain of 6 moduli. -/
def ManualRescaleDemo.fresh : LevelState := { depth := 1, chainLength := 6 }

/-- `c` in `ManualRescaleDemo` (line 267). -/
def ManualRescaleDemo.c : Circuit := Circuit.input

/-- `c2_depth2` in `ManualRescaleDemo` (line 279). -/
def ManualRescaleDemo.c2_depth2 : Circuit :=
  Circuit.EvalMult ManualRescaleDemo.c ManualRescaleDemo.c

/-- `c2_depth1` in `ManualRescaleDemo` (line 280). -/
def ManualRescaleDemo.c2_depth1 : Circuit :=
  Circuit.Rescale ManualRescaleDemo.c2_depth2

/-- `c4_depth2` in `ManualRescaleDemo` (line 282). -/
def ManualRescaleDemo.c4_depth2 : Circuit :=
  Circuit.EvalMult ManualRescaleDemo.c2_depth1 ManualRescaleDemo.c2_depth1

/-- `c4_depth1` in `ManualRescaleDemo` (line 283). -/
def ManualRescaleDemo.c4_depth1 : Circuit :=
  Circuit.Rescale ManualRescaleDemo.c4_depth2

/-- `c8_depth2` in `ManualRescaleDemo` (line 285). -/
def ManualRescaleDemo.c8_depth2 : Circuit :=
  Circuit.EvalMult ManualRescaleDemo.c4_depth1 ManualRescaleDemo.c4_depth1

/-- `c8_depth1` in `ManualRescaleDemo` (line 286). -/
def ManualRescaleDemo.c8_depth1 : Circuit :=
  Circuit.Rescale ManualRescaleDemo.c8_depth2

/-- `c16_depth2` in `ManualRescaleDemo` (line 288). -/
def ManualRescaleDemo.c16_depth2 : Circuit :=
  Circuit.EvalMult ManualRescaleDemo.c8_depth1 ManualRescaleDemo.c8_depth1

/-- `c16_depth1` in `ManualRescaleDemo` (line 289). -/
def ManualRescaleDemo.c16_depth1 : Circuit :=
  Circuit.Rescale ManualRescaleDemo.c16_depth2

/-- `c9_depth2` in `ManualRescaleDemo` (line 291). -/
def ManualRescaleDemo.c9_depth2 : Circuit :=
  Circuit.EvalMult ManualRescaleDemo.c8_depth1 ManualRescaleDemo.c

/-- `c18_depth2` in `ManualRescaleDemo` (line 293). -/
def ManualRescaleDemo.c18_depth2 : Circuit :=
  Circuit.EvalMult ManualRescaleDemo.c16_depth1 ManualRescaleDemo.c2_depth1

/-- `cRes_depth2` in `ManualRescaleDemo` (line 295). -/
def ManualRescaleDemo.cRes_depth2 : Circuit :=
  Circuit.EvalAddConst
    (Circuit.EvalAdd ManualRescaleDemo.c18_depth2 ManualRescaleDemo.c9_depth2)

/-- `cRes_depth1` in `ManualRescaleDemo` (line 296). -/
def ManualRescaleDemo.cRes_depth1 : Circuit :=
  Circuit.Rescale ManualRescaleDemo.cRes_depth2

/-- `parameters.SetMultiplicativeDepth(5)` in `ManualRescaleDemo` (line 245). -/
def ManualRescaleDemo.multiplicativeDepth : Nat := 5

/-- The operands of the `Rescale` calls of a circuit, the outermost first; a
call that feeds several later calls is listed once for each of them. -/
def Circuit.rescaleOperands : Circuit → List Circuit
  | Circuit.input => []
  | Circuit.EvalMult a b => a.rescaleOperands ++ b.rescaleOperands
  | Circuit.EvalMultConst a => a.rescaleOperands
  | Circuit.EvalAdd a b => a.rescaleOperands ++ b.rescaleOperands
  | Circuit.EvalAddConst a => a.rescaleOperands
  | Circuit.EvalSub a b => a.rescaleOperands ++ b.rescaleOperands
  | Circuit.EvalSubConst a => a.rescaleOperands
  | Circuit.Rescale a => a :: a.rescaleOperands

/-- The largest number of `Rescale` calls on a path from the result of a
circuit back to the encrypted input. -/
def Circuit.rescalesOnPath : Circuit → Nat
  | Circuit.input => 0
  | Circuit.EvalMult a b => max a.rescalesOnPath b.rescalesOnPath
  | Circuit.EvalMultConst a => a.rescalesOnPath
  | Circuit.EvalAdd a b => max a.rescalesOnPath b.rescalesOnPath
  | Circuit.EvalAddConst a => a.rescalesOnPath
  | Circuit.EvalSub a b => max a.rescalesOnPath b.rescalesOnPath
  | Circuit.EvalSubConst a => a.rescalesOnPath
  | Circuit.Rescale a => a.rescalesOnPath + 1

/-- The chain length of the tracker state of a circuit, 0 when a call fails. -/
def Circuit.chainLength (mode : ScalingTechnique) (fresh : LevelState) (a : Circuit) : Nat :=
  match a.level mode fresh with
  | some s => s.chainLength
  | none => 0

/-! ## Zero encryptions and the transform -/

/-- The lattice layer in which a call of `EncryptZeroCore`, under either key,
yields the pair `z`. -/
def LatticeLayer.withZeroEncryption (L : LatticeLayer) (z : DCRTPoly × DCRTPoly) :
    LatticeLayer :=
  { SwitchFormat := L.SwitchFormat
    EncryptZeroCorePrivate := fun _ _ => z
    EncryptZeroCorePublic := fun _ _ => z
    DecryptCore := L.DecryptCore
    ScaleAndRoundBEHZ := L.ScaleAndRoundBEHZ }

/-- Modelled from the spec: the conversion between the two formats is a
number-theoretic transform (section 2), which is additive modulo the tower's
modulus on value lists of equal length. -/
def LatticeLayer.TransformAdditive (L : LatticeLayer) : Prop :=
  ∀ (q : Nat) (f : Format) (xs ys : List Nat), xs.length = ys.length →
    L.SwitchFormat q f (List.zipWith (fun x y => (x + y) % q) xs ys)
      = List.zipWith (fun x y => (x + y) % q) (L.SwitchFormat q f xs) (L.SwitchFormat q f ys)

/-- Two ring elements have the same ring dimension tower by tower. -/
def DCRTPoly.SameDimension (p1 p2 : DCRTPoly) : Prop :=
  List.Forall₂ (fun t1 t2 : Tower => t1.values.length = t2.values.length) p1.towers p2.towers

/-- The component-wise sum of two lists of ring elements, each pair added
with `operator+=`. -/
def sumElements : List DCRTPoly → List DCRTPoly → Except Error (List DCRTPoly)
  | a :: as, b :: bs =>
    match a.PlusEq b with
    | Except.error e => Except.error e
    | Except.ok c =>
      match sumElements as bs with
      | Except.error e => Except.error e
      | Except.ok cs => Except.ok (c :: cs)
  | _, _ => Except.ok []

/-! ## `PKESchemeFeature` and `ckks-bootstrap.cpp` -/

/-- The enum `PKESchemeFeature` of `constants.h` (lines 40-48). -/
inductive PKESchemeFeature where
  | PKE
  | KEYSWITCH
  | PRE
  | LEVELEDSHE
  | ADVANCEDSHE
  | MULTIPARTY
  | FHE
  deriving DecidableEq

/-- The values of the enumerators of `PKESchemeFeature` (lines 41-47). -/
def PKESchemeFeature.toNat : PKESchemeFeature → Nat
  | PKESchemeFeature.PKE => 0x01
  | PKESchemeFeature.KEYSWITCH => 0x02
  | PKESchemeFeature.PRE => 0x04
  | PKESchemeFeature.LEVELEDSHE => 0x08
  | PKESchemeFeature.ADVANCEDSHE => 0x10
  | PKESchemeFeature.MULTIPARTY => 0x20
  | PKESchemeFeature.FHE => 0x40

/-- The seven enumerators, in the order of the declaration. -/
def PKESchemeFeature.all : List PKESchemeFeature :=
  [PKESchemeFeature.PKE, PKESchemeFeature.KEYSWITCH, PKESchemeFeature.PRE,
   PKESchemeFeature.LEVELEDSHE, PKESchemeFeature.ADVANCEDSHE, PKESchemeFeature.MULTIPARTY,
   PKESchemeFeature.FHE]

/-- The bitwise OR of the values of a list of features. -/
def PKESchemeFeature.mask : List PKESchemeFeature → Nat
  | [] => 0
  | f :: fs => f.toNat ||| PKESchemeFeature.mask fs

/-- The secret-key distribution `MODE` that `ckks-bootstrap.cpp` passes around,
with the two values its `main` names (lines 53-55); the enum is declared
outside the files embedded here. -/
inductive MODE where
  | SPARSE
  | OPTIMIZED
  deriving DecidableEq

/-- What a run of the bootstrapping example hands to the library: the
arguments of the parameter setters, the enabled features in the order of the
calls, the arguments of `EvalBootstrapSetup`, `EvalBootstrapKeyGen` and
`MakeCKKSPackedPlaintext`. -/
structure BootstrapConfiguration where
  dim1 : List Nat
  levelBudget : List Nat
  rescaleTech : ScalingTechnique
  dcrtBits : Nat
  firstMod : Nat
  approxModDepth : Nat
  depth : Nat
  ringDim : Nat
  mode : MODE
  numLargeDigits : Nat
  enabled : List PKESchemeFeature
  slots : Nat
  sparseFlag : Int
  plaintextLevel : Nat
  deriving DecidableEq

/-- `BootstrapExample`, lines 72-271 of `ckks-bootstrap.cpp`, without its
console output and timing.  `NATIVEINT` is the macro of the `#if` at line 87;
`uint32_t` and `usint` arithmetic is taken modulo `2 ^ 32`. -/
def BootstrapExample (NATIVEINT : Nat) (mode : MODE) (n slots levelsRemaining : Nat) :
    BootstrapConfiguration :=
  let dim1 : List Nat := [0, 0]
  let levelBudget : List Nat := [4, 4]
  let rescaleTech :=
    if NATIVEINT = 128 then ScalingTechnique.FIXEDMANUAL else ScalingTechnique.FLEXIBLEAUTO
  let dcrtBits := if NATIVEINT = 128 then 78 else 59
  let firstMod := if NATIVEINT = 128 then 89 else 60
  let approxModDepth : Nat := 9
  let r : Nat := 6
  let approxModDepth :=
    if mode = MODE.OPTIMIZED then
      if rescaleTech = ScalingTechnique.FIXEDMANUAL then
        (approxModDepth + (r + 2 ^ 32 - 1) % 2 ^ 32) % 2 ^ 32
      else (approxModDepth + r) % 2 ^ 32
    else approxModDepth
  let depth :=
    (((levelsRemaining + approxModDepth) % 2 ^ 32 + levelBudget.getD 0 0) % 2 ^ 32
      + levelBudget.getD 1 0) % 2 ^ 32
  let sparseFlag : Int := if slots < n / 2 then 1 else 0
  { dim1 := dim1
    levelBudget := levelBudget
    rescaleTech := rescaleTech
    dcrtBits := dcrtBits
    firstMod := firstMod
    approxModDepth := approxModDepth
    depth := depth
    ringDim := n
    mode := mode
    numLargeDigits := 3
    enabled := [PKESchemeFeature.PKE, PKESchemeFeature.KEYSWITCH, PKESchemeFeature.LEVELEDSHE,
                PKESchemeFeature.ADVANCEDSHE, PKESchemeFeature.FHE]
    slots := slots
    sparseFlag := sparseFlag
    plaintextLevel := (depth + 2 ^ 32 - 1) % 2 ^ 32 }

/-- `BootstrapExampleClean`, lines 274-386 of `ckks-bootstrap.cpp`. -/
def BootstrapExampleClean (NATIVEINT : Nat) (mode : MODE) (n slots levelsRemaining : Nat) :
    BootstrapConfiguration :=
  let dim1 : List Nat := [0, 0]
  let levelBudget : List Nat := [4, 4]
  let rescaleTech :=
    if NATIVEINT = 128 then ScalingTechnique.FIXEDMANUAL else ScalingTechnique.FLEXIBLEAUTO
  let dcrtBits := if NATIVEINT = 128 then 78 else 59
  let firstMod := if NATIVEINT = 128 then 89 else 60
  let approxModDepth : Nat := 9
  let r : Nat := 6
  let approxModDepth :=
    if mode = MODE.OPTIMIZED then
      if rescaleTech = ScalingTechnique.FIXEDMANUAL then
        (approxModDepth + (r + 2 ^ 32 - 1) % 2 ^ 32) % 2 ^ 32
      else (approxModDepth + r) % 2 ^ 32
    else approxModDepth
  let depth :=
    (((levelsRemaining + approxModDepth) % 2 ^ 32 + levelBudget.getD 0 0) % 2 ^ 32
      + levelBudget.getD 1 0) % 2 ^ 32
  let sparseFlag : Int := if slots < n / 2 then 1 else 0
  { dim1 := dim1
    levelBudget := levelBudget
    rescaleTech := rescaleTech
    dcrtBits := dcrtBits
    firstMod := firstMod
    approxModDepth := approxModDepth
    depth := depth
    ringDim := n
    mode := mode
    numLargeDigits := 3
    enabled := [PKESchemeFeature.PKE, PKESchemeFeature.KEYSWITCH, PKESchemeFeature.LEVELEDSHE,
                PKESchemeFeature.ADVANCEDSHE, PKESchemeFeature.FHE]
    slots := slots
    sparseFlag := sparseFlag
    plaintextLevel := (depth + 2 ^ 32 - 1) % 2 ^ 32 }

/-! ## Lemmas on the ring-element operations -/

theorem DCRTPoly.SetFormat_format (L : LatticeLayer) (p : DCRTPoly) (f : Format) :
    (p.SetFormat L f).format = f := by
  unfold DCRTPoly.SetFormat
  split
  · assumption
  · rfl

theorem DCRTPoly.SetFormat_chain (L : LatticeLayer) (p : DCRTPoly) (f : Format) :
    (p.SetFormat L f).chain = p.chain := by
  unfold DCRTPoly.SetFormat
  split
  · rfl
  · simp [DCRTPoly.chain, Function.comp_def]

theorem timesTowers_modulus (tws : List Tower) (cs : List Nat) :
    (timesTowers tws cs).map Tower.modulus = tws.map Tower.modulus := by
  induction tws generalizing cs with
  | nil => simp [timesTowers]
  | cons tw tws ih =>
    cases cs with
    | nil => simp [timesTowers]
    | cons c cs => simp [timesTowers, Tower.Times, ih]

theorem DCRTPoly.Times_chain (p : DCRTPoly) (cs : List Nat) :
    (p.Times cs).chain = p.chain := by
  simp [DCRTPoly.Times, DCRTPoly.chain, timesTowers_modulus]

theorem DCRTPoly.Times_format (p : DCRTPoly) (cs : List Nat) :
    (p.Times cs).format = p.format := rfl

/-- With one factor per tower, computed from the tower's modulus, `timesTowers`
scales every tower. -/
theorem timesTowers_map (f : Nat → Nat) (tws : List Tower) :
    timesTowers tws ((tws.map Tower.modulus).map f)
      = tws.map fun tw => tw.Times (f tw.modulus) := by
  induction tws with
  | nil => simp [timesTowers]
  | cons tw tws ih => simp only [List.map_cons, timesTowers, ih]

/-- Over equal chains the sum with a scaled element reduces every residue
modulo the modulus of the left tower. -/
theorem zipWith_Plus_Times (f : Nat → Nat) (zs ps : List Tower)
    (h : zs.map Tower.modulus = ps.map Tower.modulus) :
    List.zipWith Tower.Plus zs (ps.map fun tw => tw.Times (f tw.modulus))
      = List.zipWith (fun z p =>
          ({ modulus := z.modulus
             values := List.zipWith
               (fun a b => (a + b * f z.modulus % z.modulus) % z.modulus) z.values p.values }
            : Tower)) zs ps := by
  induction zs generalizing ps with
  | nil => simp
  | cons z zs ih =>
    cases ps with
    | nil => simp
    | cons p ps =>
      simp only [List.map_cons, List.cons.injEq] at h
      simp only [List.map_cons, List.zipWith_cons_cons, ih ps h.2]
      congr 1
      simp [Tower.Plus, Tower.Times, h.1, List.zipWith_map_right]

/-- The addition succeeds exactly on operands of equal format and equal chain. -/
theorem DCRTPoly.PlusEq_ok (a b : DCRTPoly) (hf : a.format = b.format)
    (hc : a.chain = b.chain) :
    a.PlusEq b
      = Except.ok { format := a.format, towers := List.zipWith Tower.Plus a.towers b.towers } := by
  simp [DCRTPoly.PlusEq, hf, hc]

/-- The sum `z0 + EVAL(p) * QDivtModq` under the hypotheses of a well-formed
call: the table holds `floor(Q/t) mod q_i`, the zero encryption is in
EVALUATION format over the chain, and so is the plaintext's chain. -/
theorem PlusEq_scaled_plaintext (L : LatticeLayer) (ptxt z0 : DCRTPoly)
    (params : CryptoParametersBFVRNS)
    (hQ : params.GetQDivtModq = params.GetElementParams.moduli.map fun q =>
      params.GetElementParams.moduli.prod / params.GetPlaintextModulus % q)
    (hzf : z0.format = Format.EVALUATION)
    (hzc : z0.chain = params.GetElementParams.moduli)
    (hp : ptxt.chain = params.GetElementParams.moduli) :
    z0.PlusEq ((ptxt.SetFormat L Format.EVALUATION).Times params.GetQDivtModq)
      = Except.ok
          { format := Format.EVALUATION
            towers := List.zipWith (fun z p =>
              ({ modulus := z.modulus
                 values := List.zipWith (fun a b =>
                   (a + b * (params.GetElementParams.moduli.prod / params.GetPlaintextModulus
                     % z.modulus) % z.modulus) % z.modulus) z.values p.values } : Tower))
              z0.towers (ptxt.SetFormat L Format.EVALUATION).towers } := by
  have hpc : (ptxt.SetFormat L Format.EVALUATION).chain = params.GetElementParams.moduli := by
    rw [DCRTPoly.SetFormat_chain, hp]
  rw [DCRTPoly.PlusEq_ok _ _
    (by rw [DCRTPoly.Times_format, DCRTPoly.SetFormat_format, hzf])
    (by rw [DCRTPoly.Times_chain, hpc, hzc])]
  have ht : ((ptxt.SetFormat L Format.EVALUATION).Times params.GetQDivtModq).towers
      = (ptxt.SetFormat L Format.EVALUATION).towers.map fun tw =>
          tw.Times (params.GetElementParams.moduli.prod / params.GetPlaintextModulus
            % tw.modulus) := by
    show timesTowers _ _ = _
    rw [hQ, ← hpc]
    exact timesTowers_map _ _
  rw [ht, zipWith_Plus_Times _ _ _ (by
    have h1 : z0.chain = (ptxt.SetFormat L Format.EVALUATION).chain := by rw [hzc, hpc]
    exact h1), hzf]

/-! ## The scale-and-round engine is exact -/

theorem list_sum_range_nat (n : Nat) (f : Nat → Nat) :
    ((List.range n).map f).sum = ∑ i in Finset.range n, f i := by
  simp [Finset.sum, Finset.range, Multiset.range]

theorem list_sum_range_rat (n : Nat) (f : Nat → ℚ) :
    ((List.range n).map f).sum = ∑ i in Finset.range n, f i := rfl

theorem getD_dvd_prod (qs : List Nat) (i : Nat) (hi : i < qs.length) :
    qs.getD i 1 ∣ qs.prod := by
  rw [List.getD_eq_getElem _ _ hi]
  exact List.dvd_prod (List.getElem_mem _)

theorem getD_coprime (qs : List Nat) (hq : qs.Pairwise Nat.Coprime) (i j : Nat)
    (hi : i < qs.length) (hj : j < qs.length) (hne : i ≠ j) :
    Nat.Coprime (qs.getD i 1) (qs.getD j 1) := by
  rw [List.getD_eq_getElem _ _ hi, List.getD_eq_getElem _ _ hj]
  rw [List.pairwise_iff_getElem] at hq
  rcases Nat.lt_or_gt_of_ne hne with h | h
  · exact hq i j hi hj h
  · exact (hq j i hj hi h).symm

/-- Chinese remaindering: the weighted sum of the residues is congruent to `x`
modulo `Q`. -/
theorem crt_sum_modEq (qs invs : List Nat) (x : Nat)
    (hq : qs.Pairwise Nat.Coprime) (hinv : QHatInvCorrect qs invs) :
    (∑ i in Finset.range qs.length,
        x % qs.getD i 1 * (invs.getD i 0 * (qs.prod / qs.getD i 1))) ≡ x [MOD qs.prod] := by
  rw [Nat.modEq_list_prod_iff hq]
  intro j
  have hj : (j : Nat) < qs.length := j.2
  have hget : qs.get j = qs.getD j 1 := by
    rw [List.getD_eq_getElem _ _ hj]; rfl
  rw [hget, ← ZMod.natCast_eq_natCast_iff, Nat.cast_sum]
  rw [Finset.sum_eq_single (j : Nat)]
  · have h1 := hinv.2 j hj
    rw [← ZMod.natCast_eq_natCast_iff'] at h1
    rw [Nat.cast_mul, h1, ZMod.natCast_mod]
    simp
  · intro i hi hne
    have hi' : i < qs.length := Finset.mem_range.mp hi
    have hd : qs.getD j 1 ∣ qs.prod / qs.getD i 1 := by
      have hc := getD_coprime qs hq j i hj hi' (Ne.symm hne)
      apply hc.dvd_of_dvd_mul_left
      rw [Nat.mul_div_cancel' (getD_dvd_prod qs i hi')]
      exact getD_dvd_prod qs j hj
    have : ((qs.prod / qs.getD i 1 : Nat) : ZMod (qs.getD j 1)) = 0 :=
      (ZMod.natCast_zmod_eq_zero_iff_dvd _ _).mpr hd
    rw [Nat.cast_mul, Nat.cast_mul, this]
    simp
  · intro h
    exact absurd (Finset.mem_range.mpr hj) h

theorem getD_residues (qs : List Nat) (x i : Nat) (hi : i < qs.length) :
    (qs.map fun q => x % q).getD i 0 = x % qs.getD i 1 := by
  rw [List.getD_eq_getElem _ _ (by simpa using hi), List.getD_eq_getElem _ _ hi,
    List.getElem_map]

theorem getD_DivqModt (t : Nat) (qs invs : List Nat) (i : Nat) (hi : i < qs.length)
    (hl : invs.length = qs.length) :
    (tQHatInvModqDivqModt t qs invs).getD i 0
      = t * invs.getD i 0 / qs.getD i 1 % t := by
  unfold tQHatInvModqDivqModt
  rw [List.getD_eq_getElem _ _ (by simp [hl, hi]), List.getD_eq_getElem _ _ hi,
    List.getD_eq_getElem _ _ (by omega), List.getElem_zipWith]

theorem getD_DivqFrac (t : Nat) (qs invs : List Nat) (i : Nat) (hi : i < qs.length)
    (hl : invs.length = qs.length) :
    (tQHatInvModqDivqFrac t qs invs).getD i 0
      = ((t * invs.getD i 0 % qs.getD i 1 : Nat) : ℚ) / (qs.getD i 1 : ℚ) := by
  unfold tQHatInvModqDivqFrac
  rw [List.getD_eq_getElem _ _ (by simp [hl, hi]), List.getD_eq_getElem _ _ hi,
    List.getD_eq_getElem _ _ (by omega), List.getElem_zipWith]

theorem getD_pos (qs : List Nat) (hpos : ∀ q ∈ qs, 0 < q) (i : Nat) (hi : i < qs.length) :
    0 < qs.getD i 1 := by
  rw [List.getD_eq_getElem _ _ hi]
  exact hpos _ (List.getElem_mem _)

/-- One residue: the integer share and the fractional share of `x_i * t * v / q`. -/
theorem accumulator_term (xi t v q Qh : Nat) (hq : 0 < q) (hQh : 0 < Qh) :
    ((xi * (t * v / q) : Nat) : ℚ) + (xi : ℚ) * (((t * v % q : Nat) : ℚ) / (q : ℚ))
      = (t : ℚ) * ((xi * (v * Qh) : Nat) : ℚ) / ((q * Qh : Nat) : ℚ) := by
  have hq0 : (q : ℚ) ≠ 0 := by exact_mod_cast hq.ne'
  have hQ0 : (Qh : ℚ) ≠ 0 := by exact_mod_cast hQh.ne'
  have h := Nat.div_add_mod (t * v) q
  have h' : (q : ℚ) * ((t * v / q : Nat) : ℚ) + ((t * v % q : Nat) : ℚ) = (t : ℚ) * (v : ℚ) := by
    exact_mod_cast h
  push_cast
  generalize ((t * v / q : Nat) : ℚ) = d at h' ⊢
  generalize ((t * v % q : Nat) : ℚ) = r at h' ⊢
  field_simp
  linear_combination (xi : ℚ) * (q : ℚ) * (Qh : ℚ) * h'

/-- The fractional accumulator plus one half, in terms of the exact quotient. -/
theorem frac_plus_half (F : ℚ) (I S Q x t u : Nat) (hQ : 0 < Q)
    (hacc : (I : ℚ) + F = (t : ℚ) * (S : ℚ) / (Q : ℚ)) (hS : S = x + Q * u) :
    F + 1 / 2
      = (((2 * x * t + Q : Nat) : ℤ) : ℚ) / ((2 * Q : Nat) : ℚ)
        + (((((t * u : Nat) : ℤ) - (I : ℤ) : ℤ)) : ℚ) := by
  have hQ0 : (Q : ℚ) ≠ 0 := by exact_mod_cast hQ.ne'
  have h3 : F = (t : ℚ) * (S : ℚ) / (Q : ℚ) - I := by linarith
  rw [h3, hS]
  push_cast
  field_simp
  ring

/-- The integer and the fractional accumulator add up to `t * S / Q`. -/
theorem accumulators_eq (qs invs : List Nat) (t x : Nat) (hpos : ∀ q ∈ qs, 0 < q) :
    ((∑ i in Finset.range qs.length,
        x % qs.getD i 1 * (t * invs.getD i 0 / qs.getD i 1) : Nat) : ℚ)
      + ∑ i in Finset.range qs.length,
          ((x % qs.getD i 1 : Nat) : ℚ)
            * (((t * invs.getD i 0 % qs.getD i 1 : Nat) : ℚ) / (qs.getD i 1 : ℚ))
      = (t : ℚ) * ((∑ i in Finset.range qs.length,
          x % qs.getD i 1 * (invs.getD i 0 * (qs.prod / qs.getD i 1)) : Nat) : ℚ)
          / (qs.prod : ℚ) := by
  rw [Nat.cast_sum, Nat.cast_sum, ← Finset.sum_add_distrib, Finset.mul_sum, Finset.sum_div]
  apply Finset.sum_congr rfl
  intro i hi
  have hi' : i < qs.length := Finset.mem_range.mp hi
  have hqpos : 0 < qs.getD i 1 := getD_pos qs hpos i hi'
  have hP : 0 < qs.prod := List.prod_pos (by simpa using hpos)
  have hQh : 0 < qs.prod / qs.getD i 1 :=
    Nat.div_pos (Nat.le_of_dvd hP (getD_dvd_prod qs i hi')) hqpos
  have h := accumulator_term (x % qs.getD i 1) t (invs.getD i 0) (qs.getD i 1)
    (qs.prod / qs.getD i 1) hqpos hQh
  rw [Nat.mul_div_cancel' (getD_dvd_prod qs i hi')] at h
  rw [h]

/-- With correctly precomputed tables the fractional-accumulation engine
returns `round(x * t / Q) mod t`, the rounding being `floor(x * t / Q + 1/2)`,
for the integer `x < Q` given by its residues. -/
theorem scaleAndRoundCoeff_exact (qs invs : List Nat) (t x : Nat)
    (hq : qs.Pairwise Nat.Coprime) (hpos : ∀ q ∈ qs, 0 < q)
    (hinv : QHatInvCorrect qs invs) (hx : x < qs.prod) :
    scaleAndRoundCoeff t (tQHatInvModqDivqModt t qs invs) (tQHatInvModqDivqFrac t qs invs)
        (qs.map fun q => x % q)
      = (2 * x * t + qs.prod) / (2 * qs.prod) % t := by
  have hP : 0 < qs.prod := List.prod_pos (by simpa using hpos)
  unfold scaleAndRoundCoeff
  simp only [List.length_map]
  rw [list_sum_range_nat, list_sum_range_rat]
  have e1 : ∑ i in Finset.range qs.length,
        (qs.map fun q => x % q).getD i 0 * (tQHatInvModqDivqModt t qs invs).getD i 0
      = ∑ i in Finset.range qs.length,
        x % qs.getD i 1 * (t * invs.getD i 0 / qs.getD i 1 % t) := by
    apply Finset.sum_congr rfl
    intro i hi
    rw [getD_residues _ _ _ (Finset.mem_range.mp hi),
      getD_DivqModt _ _ _ _ (Finset.mem_range.mp hi) hinv.1]
  have e2 : ∑ i in Finset.range qs.length,
        (((qs.map fun q => x % q).getD i 0 : Nat) : ℚ) * (tQHatInvModqDivqFrac t qs invs).getD i 0
      = ∑ i in Finset.range qs.length,
          ((x % qs.getD i 1 : Nat) : ℚ)
            * (((t * invs.getD i 0 % qs.getD i 1 : Nat) : ℚ) / (qs.getD i 1 : ℚ)) := by
    apply Finset.sum_congr rfl
    intro i hi
    rw [getD_residues _ _ _ (Finset.mem_range.mp hi),
      getD_DivqFrac _ _ _ _ (Finset.mem_range.mp hi) hinv.1]
  rw [e1, e2]
  set I' := ∑ i in Finset.range qs.length,
        x % qs.getD i 1 * (t * invs.getD i 0 / qs.getD i 1 % t) with hI'
  set I := ∑ i in Finset.range qs.length,
        x % qs.getD i 1 * (t * invs.getD i 0 / qs.getD i 1) with hI
  set F := ∑ i in Finset.range qs.length,
          ((x % qs.getD i 1 : Nat) : ℚ)
            * (((t * invs.getD i 0 % qs.getD i 1 : Nat) : ℚ) / (qs.getD i 1 : ℚ)) with hF
  set S := ∑ i in Finset.range qs.length,
          x % qs.getD i 1 * (invs.getD i 0 * (qs.prod / qs.getD i 1)) with hS
  have hacc : (I : ℚ) + F = (t : ℚ) * (S : ℚ) / (qs.prod : ℚ) :=
    accumulators_eq qs invs t x hpos
  have hcrt : S ≡ x [MOD qs.prod] := crt_sum_modEq qs invs x hq hinv
  have hSx : S = x + qs.prod * (S / qs.prod) := by
    have h1 : S % qs.prod = x := by
      rw [hcrt, Nat.mod_eq_of_lt hx]
    have h2 := Nat.mod_add_div S qs.prod
    omega
  have hII : I' % t = I % t := by
    rw [hI', hI, Finset.sum_nat_mod, Finset.sum_nat_mod _ _ (fun i => _ * (_ / _))]
    congr 1
    apply Finset.sum_congr rfl
    intro i _
    rw [Nat.mul_mod, Nat.mod_mod, ← Nat.mul_mod]
  have hF0 : 0 ≤ F := by
    apply Finset.sum_nonneg
    intro i _
    positivity
  have hfl0 : 0 ≤ Int.floor (F + 1 / 2) := Int.floor_nonneg.mpr (by linarith)
  have hFeq := frac_plus_half F I S qs.prod x t (S / qs.prod) hP hacc hSx
  have hfl : Int.floor (F + 1 / 2)
      = ((2 * x * t + qs.prod) / (2 * qs.prod) : Nat) + ((t * (S / qs.prod) : Nat) : ℤ) - I := by
    rw [hFeq, Int.floor_add_int, Rat.floor_intCast_div_natCast]
    push_cast
    ring
  have hnat : I + (Int.floor (F + 1 / 2)).toNat
      = (2 * x * t + qs.prod) / (2 * qs.prod) + t * (S / qs.prod) := by
    have h5 : (((Int.floor (F + 1 / 2)).toNat : Nat) : ℤ) = Int.floor (F + 1 / 2) :=
      Int.toNat_of_nonneg hfl0
    have h6 : ((I + (Int.floor (F + 1 / 2)).toNat : Nat) : ℤ)
        = (((2 * x * t + qs.prod) / (2 * qs.prod) + t * (S / qs.prod) : Nat) : ℤ) := by
      push_cast
      rw [h5, hfl]
      push_cast
      ring
    exact_mod_cast h6
  calc (I' + (Int.floor (F + 1 / 2)).toNat) % t
      = (I + (Int.floor (F + 1 / 2)).toNat) % t := by
        rw [Nat.add_mod, hII, ← Nat.add_mod]
    _ = (2 * x * t + qs.prod) / (2 * qs.prod) % t := by
        rw [hnat, Nat.add_mul_mod_self_left]

/-! ## The claims -/

/-- C1: every ciphertext that `PKEBFVRNS::Encrypt` returns, under a private
key or under a public key, holds exactly two ring elements and has depth 1;
and `Encrypt` does return one whenever the addition of the scaled plaintext is
well-formed (the zero encryption is in EVALUATION format over the plaintext's
modulus chain). -/
theorem PKEBFVRNS.Encrypt_two_elements_depth_one (L : LatticeLayer) (ptxt : DCRTPoly)
    (privateKey : PrivateKey) (publicKey : PublicKey) :
    (∀ ct, PKEBFVRNS.Encrypt_PrivateKey L ptxt privateKey = Except.ok ct →
        ct.elements.length = 2 ∧ ct.depth = 1)
    ∧ (∀ ct, PKEBFVRNS.Encrypt_PublicKey L ptxt publicKey = Except.ok ct →
        ct.elements.length = 2 ∧ ct.depth = 1)
    ∧ ((L.EncryptZeroCorePrivate privateKey
          privateKey.GetCryptoParameters.GetElementParams).1.format = Format.EVALUATION →
       (L.EncryptZeroCorePrivate privateKey
          privateKey.GetCryptoParameters.GetElementParams).1.chain = ptxt.chain →
       ∃ ct, PKEBFVRNS.Encrypt_PrivateKey L ptxt privateKey = Except.ok ct
          ∧ ct.elements.length = 2 ∧ ct.depth = 1)
    ∧ ((L.EncryptZeroCorePublic publicKey
          publicKey.GetCryptoParameters.GetElementParams).1.format = Format.EVALUATION →
       (L.EncryptZeroCorePublic publicKey
          publicKey.GetCryptoParameters.GetElementParams).1.chain = ptxt.chain →
       ∃ ct, PKEBFVRNS.Encrypt_PublicKey L ptxt publicKey = Except.ok ct
          ∧ ct.elements.length = 2 ∧ ct.depth = 1) := by
  refine ⟨?_, ?_, ?_, ?_⟩
  · intro ct h
    simp only [PKEBFVRNS.Encrypt_PrivateKey] at h
    split at h
    · cases h
    · cases h
      exact ⟨rfl, rfl⟩
  · intro ct h
    simp only [PKEBFVRNS.Encrypt_PublicKey] at h
    split at h
    · cases h
    · cases h
      exact ⟨rfl, rfl⟩
  · intro hf hc
    simp only [PKEBFVRNS.Encrypt_PrivateKey]
    rw [DCRTPoly.PlusEq_ok _ _
      (by rw [DCRTPoly.Times_format, DCRTPoly.SetFormat_format, hf])
      (by rw [DCRTPoly.Times_chain, DCRTPoly.SetFormat_chain, hc])]
    exact ⟨_, rfl, rfl, rfl⟩
  · intro hf hc
    simp only [PKEBFVRNS.Encrypt_PublicKey]
    rw [DCRTPoly.PlusEq_ok _ _
      (by rw [DCRTPoly.Times_format, DCRTPoly.SetFormat_format, hf])
      (by rw [DCRTPoly.Times_chain, DCRTPoly.SetFormat_chain, hc])]
    exact ⟨_, rfl, rfl, rfl⟩

/-- C1, evaluated: both overloads return a two-element ciphertext of depth 1
on the plaintext `1` over the chain `[5, 7]`. -/
theorem PKEBFVRNS.Encrypt_two_elements_depth_one_witness :
    (∃ ct, PKEBFVRNS.Encrypt_PrivateKey exampleLayer examplePlaintext examplePrivateKey
        = Except.ok ct ∧ ct.elements.length = 2 ∧ ct.depth = 1)
    ∧ (∃ ct, PKEBFVRNS.Encrypt_PublicKey exampleLayer examplePlaintext examplePublicKey
        = Except.ok ct ∧ ct.elements.length = 2 ∧ ct.depth = 1) :=
  ⟨(PKEBFVRNS.Encrypt_two_elements_depth_one exampleLayer examplePlaintext
      examplePrivateKey examplePublicKey).2.2.1 rfl rfl,
   (PKEBFVRNS.Encrypt_two_elements_depth_one exampleLayer examplePlaintext
      examplePrivateKey examplePublicKey).2.2.2 rfl rfl⟩

/-- C2: for every plaintext `p` and every zero-encryption pair `(z0, z1)` that
`EncryptZeroCore` produced (in EVALUATION format over the key's chain, the
plaintext over the same chain, `QDivtModq[i] = floor(Q/t) mod q_i`), both
overloads of `PKEBFVRNS::Encrypt` return the ciphertext whose one component is
`z0 + EVAL(p) * QDivtModq`, every residue of tower `i` being
`(z + p * (floor(Q/t) mod q_i) mod q_i) mod q_i`, and whose other component is
`z1` unchanged. -/
theorem PKEBFVRNS.Encrypt_scaled_plaintext_component (L : LatticeLayer) (ptxt : DCRTPoly)
    (privateKey : PrivateKey) (publicKey : PublicKey) :
    (∀ z0 z1 : DCRTPoly,
      L.EncryptZeroCorePrivate privateKey privateKey.GetCryptoParameters.GetElementParams
        = (z0, z1) →
      privateKey.GetCryptoParameters.GetQDivtModq
        = privateKey.GetCryptoParameters.GetElementParams.moduli.map (fun q =>
            privateKey.GetCryptoParameters.GetElementParams.moduli.prod
              / privateKey.GetCryptoParameters.GetPlaintextModulus % q) →
      z0.format = Format.EVALUATION →
      z0.chain = privateKey.GetCryptoParameters.GetElementParams.moduli →
      ptxt.chain = privateKey.GetCryptoParameters.GetElementParams.moduli →
      ∃ c0, z0.PlusEq ((ptxt.SetFormat L Format.EVALUATION).Times
                privateKey.GetCryptoParameters.GetQDivtModq) = Except.ok c0
        ∧ c0.towers = List.zipWith (fun z p =>
            ({ modulus := z.modulus
               values := List.zipWith (fun a b =>
                 (a + b * (privateKey.GetCryptoParameters.GetElementParams.moduli.prod
                   / privateKey.GetCryptoParameters.GetPlaintextModulus
                   % z.modulus) % z.modulus) % z.modulus) z.values p.values } : Tower))
            z0.towers (ptxt.SetFormat L Format.EVALUATION).towers
        ∧ PKEBFVRNS.Encrypt_PrivateKey L ptxt privateKey
            = Except.ok { elements := [c0, z1], depth := 1 })
    ∧ (∀ z0 z1 : DCRTPoly,
      L.EncryptZeroCorePublic publicKey publicKey.GetCryptoParameters.GetElementParams
        = (z0, z1) →
      publicKey.GetCryptoParameters.GetQDivtModq
        = publicKey.GetCryptoParameters.GetElementParams.moduli.map (fun q =>
            publicKey.GetCryptoParameters.GetElementParams.moduli.prod
              / publicKey.GetCryptoParameters.GetPlaintextModulus % q) →
      z0.format = Format.EVALUATION →
      z0.chain = publicKey.GetCryptoParameters.GetElementParams.moduli →
      ptxt.chain = publicKey.GetCryptoParameters.GetElementParams.moduli →
      ∃ c0, z0.PlusEq ((ptxt.SetFormat L Format.EVALUATION).Times
                publicKey.GetCryptoParameters.GetQDivtModq) = Except.ok c0
        ∧ c0.towers = List.zipWith (fun z p =>
            ({ modulus := z.modulus
               values := List.zipWith (fun a b =>
                 (a + b * (publicKey.GetCryptoParameters.GetElementParams.moduli.prod
                   / publicKey.GetCryptoParameters.GetPlaintextModulus
                   % z.modulus) % z.modulus) % z.modulus) z.values p.values } : Tower))
            z0.towers (ptxt.SetFormat L Format.EVALUATION).towers
        ∧ PKEBFVRNS.Encrypt_PublicKey L ptxt publicKey
            = Except.ok { elements := [c0, z1], depth := 1 }) := by
  constructor
  · intro z0 z1 hz hQ hzf hzc hp
    have h := PlusEq_scaled_plaintext L ptxt z0 privateKey.GetCryptoParameters hQ hzf hzc hp
    refine ⟨_, h, rfl, ?_⟩
    simp only [PKEBFVRNS.Encrypt_PrivateKey, hz, h]
  · intro z0 z1 hz hQ hzf hzc hp
    have h := PlusEq_scaled_plaintext L ptxt z0 publicKey.GetCryptoParameters hQ hzf hzc hp
    refine ⟨_, h, rfl, ?_⟩
    simp only [PKEBFVRNS.Encrypt_PublicKey, hz, h]

/-- C2, evaluated on the plaintext `1` over the chain `[5, 7]`: with
`z0 = [4, 5]` and `QDivtModq = [2, 3]` the first component has the residues
`[(4 + 1 * 2) % 5, (5 + 1 * 3) % 7] = [1, 1]`, the second is `z1 = [3, 4]`. -/
theorem PKEBFVRNS.Encrypt_scaled_plaintext_component_witness :
    (∃ c0, c0.towers = [⟨5, [1]⟩, ⟨7, [1]⟩]
      ∧ PKEBFVRNS.Encrypt_PrivateKey exampleLayer examplePlaintext examplePrivateKey
          = Except.ok { elements := [c0, ⟨Format.EVALUATION, [⟨5, [3]⟩, ⟨7, [4]⟩]⟩], depth := 1 })
    ∧ (∃ c0, c0.towers = [⟨5, [1]⟩, ⟨7, [1]⟩]
      ∧ PKEBFVRNS.Encrypt_PublicKey exampleLayer examplePlaintext examplePublicKey
          = Except.ok { elements := [c0, ⟨Format.EVALUATION, [⟨5, [3]⟩, ⟨7, [4]⟩]⟩], depth := 1 }) := by
  obtain ⟨c0, _, h2, h3⟩ := (PKEBFVRNS.Encrypt_scaled_plaintext_component exampleLayer
    examplePlaintext examplePrivateKey examplePublicKey).1 _ _ rfl rfl rfl rfl rfl
  obtain ⟨d0, _, k2, k3⟩ := (PKEBFVRNS.Encrypt_scaled_plaintext_component exampleLayer
    examplePlaintext examplePrivateKey examplePublicKey).2 _ _ rfl rfl rfl rfl rfl
  exact ⟨⟨c0, h2, h3⟩, ⟨d0, k2, k3⟩⟩

/-- C5: the plaintext that `PKEBFVRNS::Decrypt` writes is `ScaleAndRound`
(of the path that the technique selects) applied to the COEFFICIENT-format
conversion of `DecryptCore(cv, privateKey)`, with the tables of the key's
crypto parameters; the converted element is in COEFFICIENT format, and nothing
else enters the value. -/
theorem PKEBFVRNS.Decrypt_plaintext_eq (L : LatticeLayer) (ciphertext : Ciphertext)
    (privateKey : PrivateKey) :
    (DCRTPoly.SetFormat L (L.DecryptCore ciphertext.elements privateKey)
        Format.COEFFICIENT).format = Format.COEFFICIENT
    ∧ (PKEBFVRNS.Decrypt L ciphertext privateKey).1
      = match PKEBFVRNS.DecryptScalingPath
            privateKey.GetCryptoParameters.GetMultiplicationTechnique with
        | ScalingPath.HPSStyle =>
          DCRTPoly.ScaleAndRound
            (DCRTPoly.SetFormat L (L.DecryptCore ciphertext.elements privateKey)
              Format.COEFFICIENT)
            privateKey.GetCryptoParameters.GetPlaintextModulus
            privateKey.GetCryptoParameters.GettQHatInvModqDivqModt
            privateKey.GetCryptoParameters.GettQHatInvModqDivqModtPrecon
            privateKey.GetCryptoParameters.GettQHatInvModqBDivqModt
            privateKey.GetCryptoParameters.GettQHatInvModqBDivqModtPrecon
            privateKey.GetCryptoParameters.GettQHatInvModqDivqFrac
            privateKey.GetCryptoParameters.GettQHatInvModqBDivqFrac
        | ScalingPath.BEHZStyle =>
          L.ScaleAndRoundBEHZ
            (DCRTPoly.SetFormat L (L.DecryptCore ciphertext.elements privateKey)
              Format.COEFFICIENT)
            privateKey.GetCryptoParameters.GetModuliQ
            privateKey.GetCryptoParameters.GetPlaintextModulus
            privateKey.GetCryptoParameters.Gettgamma
            privateKey.GetCryptoParameters.GettgammaQHatInvModq
            privateKey.GetCryptoParameters.GettgammaQHatInvModqPrecon
            privateKey.GetCryptoParameters.GetNegInvqModtgamma
            privateKey.GetCryptoParameters.GetNegInvqModtgammaPrecon := by
  refine ⟨DCRTPoly.SetFormat_format L _ _, ?_⟩
  simp only [PKEBFVRNS.Decrypt]

/-- C6: for every value of `MultiplicationTechnique`, `Decrypt` takes the
HPS-style path if and only if the technique is HPS, HPSPOVERQ or
HPSPOVERQLEVELED, and the BEHZ-style path if and only if it is BEHZ; the
plaintext is the BEHZ-style `ScaleAndRound` for BEHZ and the HPS-style
`ScaleAndRound` for every other technique. -/
theorem PKEBFVRNS.Decrypt_scaling_path (L : LatticeLayer) (ciphertext : Ciphertext)
    (privateKey : PrivateKey) (technique : MultiplicationTechnique) :
    (PKEBFVRNS.DecryptScalingPath technique = ScalingPath.HPSStyle
        ↔ technique = MultiplicationTechnique.HPS
          ∨ technique = MultiplicationTechnique.HPSPOVERQ
          ∨ technique = MultiplicationTechnique.HPSPOVERQLEVELED)
    ∧ (PKEBFVRNS.DecryptScalingPath technique = ScalingPath.BEHZStyle
        ↔ technique = MultiplicationTechnique.BEHZ)
    ∧ (PKEBFVRNS.Decrypt L ciphertext privateKey).1
        = if privateKey.GetCryptoParameters.GetMultiplicationTechnique
              = MultiplicationTechnique.BEHZ then
            L.ScaleAndRoundBEHZ
              (DCRTPoly.SetFormat L (L.DecryptCore ciphertext.elements privateKey)
                Format.COEFFICIENT)
              privateKey.GetCryptoParameters.GetModuliQ
              privateKey.GetCryptoParameters.GetPlaintextModulus
              privateKey.GetCryptoParameters.Gettgamma
              privateKey.GetCryptoParameters.GettgammaQHatInvModq
              privateKey.GetCryptoParameters.GettgammaQHatInvModqPrecon
              privateKey.GetCryptoParameters.GetNegInvqModtgamma
              privateKey.GetCryptoParameters.GetNegInvqModtgammaPrecon
          else
            DCRTPoly.ScaleAndRound
              (DCRTPoly.SetFormat L (L.DecryptCore ciphertext.elements privateKey)
                Format.COEFFICIENT)
              privateKey.GetCryptoParameters.GetPlaintextModulus
              privateKey.GetCryptoParameters.GettQHatInvModqDivqModt
              privateKey.GetCryptoParameters.GettQHatInvModqDivqModtPrecon
              privateKey.GetCryptoParameters.GettQHatInvModqBDivqModt
              privateKey.GetCryptoParameters.GettQHatInvModqBDivqModtPrecon
              privateKey.GetCryptoParameters.GettQHatInvModqDivqFrac
              privateKey.GetCryptoParameters.GettQHatInvModqBDivqFrac := by
  refine ⟨?_, ?_, ?_⟩
  · cases technique <;> simp [PKEBFVRNS.DecryptScalingPath]
  · cases technique <;> simp [PKEBFVRNS.DecryptScalingPath]
  · simp only [PKEBFVRNS.Decrypt]
    cases privateKey.GetCryptoParameters.GetMultiplicationTechnique <;>
      simp [PKEBFVRNS.DecryptScalingPath]

/-- C9: the `DecryptResult` that `PKEBFVRNS::Decrypt` returns reports success,
and its length is the number of coefficients of the plaintext written to the
output. -/
theorem PKEBFVRNS.Decrypt_result_length (L : LatticeLayer) (ciphertext : Ciphertext)
    (privateKey : PrivateKey) :
    (PKEBFVRNS.Decrypt L ciphertext privateKey).2.isValid = true
    ∧ (PKEBFVRNS.Decrypt L ciphertext privateKey).2.messageLength
        = (PKEBFVRNS.Decrypt L ciphertext privateKey).1.values.length := by
  simp only [PKEBFVRNS.Decrypt, DecryptResult.ofLength, NativePoly.GetLength, and_self]

/-- C8 as stated fails: on the plaintext `1` over the chain `[5, 7]`, `Encrypt`
returns the elements `[[1, 1], [3, 4]]`; the first is not the zero-encryption
element `(*ba)[0] = [4, 5]` left as a mask, and the second is `(*ba)[1]` and
not `(*ba)[1]` plus the scaled plaintext (which would be `[0, 0]`). -/
theorem PKEBFVRNS.Encrypt_mask_body_order_counterexample :
    PKEBFVRNS.Encrypt_PrivateKey exampleLayer examplePlaintext examplePrivateKey
      = Except.ok
          { elements := [⟨Format.EVALUATION, [⟨5, [1]⟩, ⟨7, [1]⟩]⟩,
                         ⟨Format.EVALUATION, [⟨5, [3]⟩, ⟨7, [4]⟩]⟩]
            depth := 1 }
    ∧ (exampleLayer.EncryptZeroCorePrivate examplePrivateKey
        examplePrivateKey.GetCryptoParameters.GetElementParams).2.PlusEq
          ((examplePlaintext.SetFormat exampleLayer Format.EVALUATION).Times
            examplePrivateKey.GetCryptoParameters.GetQDivtModq)
        = Except.ok ⟨Format.EVALUATION, [⟨5, [0]⟩, ⟨7, [0]⟩]⟩
    ∧ ¬ ∃ ct c1,
        PKEBFVRNS.Encrypt_PrivateKey exampleLayer examplePlaintext examplePrivateKey
          = Except.ok ct
        ∧ (exampleLayer.EncryptZeroCorePrivate examplePrivateKey
            examplePrivateKey.GetCryptoParameters.GetElementParams).2.PlusEq
              ((examplePlaintext.SetFormat exampleLayer Format.EVALUATION).Times
                examplePrivateKey.GetCryptoParameters.GetQDivtModq) = Except.ok c1
        ∧ ct.elements
            = [(exampleLayer.EncryptZeroCorePrivate examplePrivateKey
                  examplePrivateKey.GetCryptoParameters.GetElementParams).1, c1] := by
  refine ⟨rfl, rfl, ?_⟩
  rintro ⟨ct, c1, h1, h2, h3⟩
  have e1 : PKEBFVRNS.Encrypt_PrivateKey exampleLayer examplePlaintext examplePrivateKey
      = Except.ok
          { elements := [⟨Format.EVALUATION, [⟨5, [1]⟩, ⟨7, [1]⟩]⟩,
                         ⟨Format.EVALUATION, [⟨5, [3]⟩, ⟨7, [4]⟩]⟩]
            depth := 1 } := rfl
  rw [e1] at h1
  cases h1
  have h4 := (List.cons.inj h3).1
  exact absurd h4 (by decide)

/-- C8, amended: the ciphertext that `PKEBFVRNS::Encrypt` returns is ordered
(body, mask): its first element is `(*ba)[0]` with the scaled plaintext added
into it, its second element is `(*ba)[1]` unchanged; and `Encrypt` returns
whenever the addition is well-formed. -/
theorem PKEBFVRNS.Encrypt_body_first_mask_second (L : LatticeLayer) (ptxt : DCRTPoly)
    (privateKey : PrivateKey) (publicKey : PublicKey) :
    (∀ ct, PKEBFVRNS.Encrypt_PrivateKey L ptxt privateKey = Except.ok ct →
      ∃ c0, (L.EncryptZeroCorePrivate privateKey
                privateKey.GetCryptoParameters.GetElementParams).1.PlusEq
              ((ptxt.SetFormat L Format.EVALUATION).Times
                privateKey.GetCryptoParameters.GetQDivtModq) = Except.ok c0
        ∧ ct.elements = [c0, (L.EncryptZeroCorePrivate privateKey
                privateKey.GetCryptoParameters.GetElementParams).2])
    ∧ (∀ ct, PKEBFVRNS.Encrypt_PublicKey L ptxt publicKey = Except.ok ct →
      ∃ c0, (L.EncryptZeroCorePublic publicKey
                publicKey.GetCryptoParameters.GetElementParams).1.PlusEq
              ((ptxt.SetFormat L Format.EVALUATION).Times
                publicKey.GetCryptoParameters.GetQDivtModq) = Except.ok c0
        ∧ ct.elements = [c0, (L.EncryptZeroCorePublic publicKey
                publicKey.GetCryptoParameters.GetElementParams).2])
    ∧ ((L.EncryptZeroCorePrivate privateKey
          privateKey.GetCryptoParameters.GetElementParams).1.format = Format.EVALUATION →
       (L.EncryptZeroCorePrivate privateKey
          privateKey.GetCryptoParameters.GetElementParams).1.chain = ptxt.chain →
       ∃ ct, PKEBFVRNS.Encrypt_PrivateKey L ptxt privateKey = Except.ok ct)
    ∧ ((L.EncryptZeroCorePublic publicKey
          publicKey.GetCryptoParameters.GetElementParams).1.format = Format.EVALUATION →
       (L.EncryptZeroCorePublic publicKey
          publicKey.GetCryptoParameters.GetElementParams).1.chain = ptxt.chain →
       ∃ ct, PKEBFVRNS.Encrypt_PublicKey L ptxt publicKey = Except.ok ct) := by
  refine ⟨?_, ?_, ?_, ?_⟩
  · intro ct h
    simp only [PKEBFVRNS.Encrypt_PrivateKey] at h
    split at h
    · cases h
    · rename_i c0 hc0
      cases h
      exact ⟨c0, hc0, rfl⟩
  · intro ct h
    simp only [PKEBFVRNS.Encrypt_PublicKey] at h
    split at h
    · cases h
    · rename_i c0 hc0
      cases h
      exact ⟨c0, hc0, rfl⟩
  · intro hf hc
    simp only [PKEBFVRNS.Encrypt_PrivateKey]
    rw [DCRTPoly.PlusEq_ok _ _
      (by rw [DCRTPoly.Times_format, DCRTPoly.SetFormat_format, hf])
      (by rw [DCRTPoly.Times_chain, DCRTPoly.SetFormat_chain, hc])]
    exact ⟨_, rfl⟩
  · intro hf hc
    simp only [PKEBFVRNS.Encrypt_PublicKey]
    rw [DCRTPoly.PlusEq_ok _ _
      (by rw [DCRTPoly.Times_format, DCRTPoly.SetFormat_format, hf])
      (by rw [DCRTPoly.Times_chain, DCRTPoly.SetFormat_chain, hc])]
    exact ⟨_, rfl⟩

/-- C8 amended, evaluated: on the plaintext `1` over the chain `[5, 7]` the
first element of the ciphertext is the sum `[1, 1]` and the second is
`(*ba)[1] = [3, 4]`. -/
theorem PKEBFVRNS.Encrypt_body_first_mask_second_witness :
    ∃ ct, PKEBFVRNS.Encrypt_PrivateKey exampleLayer examplePlaintext examplePrivateKey
        = Except.ok ct
      ∧ ∃ c0, (exampleLayer.EncryptZeroCorePrivate examplePrivateKey
                examplePrivateKey.GetCryptoParameters.GetElementParams).1.PlusEq
              ((examplePlaintext.SetFormat exampleLayer Format.EVALUATION).Times
                examplePrivateKey.GetCryptoParameters.GetQDivtModq) = Except.ok c0
        ∧ ct.elements = [c0, ⟨Format.EVALUATION, [⟨5, [3]⟩, ⟨7, [4]⟩]⟩] := by
  obtain ⟨ct, h⟩ := (PKEBFVRNS.Encrypt_body_first_mask_second exampleLayer examplePlaintext
    examplePrivateKey examplePublicKey).2.2.1 rfl rfl
  exact ⟨ct, h, (PKEBFVRNS.Encrypt_body_first_mask_second exampleLayer examplePlaintext
    examplePrivateKey examplePublicKey).1 ct h⟩

/-- C10: when the zero encryption is in EVALUATION format over the modulus
chain of the key's crypto parameters and the plaintext's modulus chain differs
from that chain, both overloads of `PKEBFVRNS::Encrypt` fail with
`ParameterMismatch` (raised by the ring addition) and return no ciphertext. -/
theorem PKEBFVRNS.Encrypt_ParameterMismatch (L : LatticeLayer) (ptxt : DCRTPoly)
    (privateKey : PrivateKey) (publicKey : PublicKey) :
    ((L.EncryptZeroCorePrivate privateKey
          privateKey.GetCryptoParameters.GetElementParams).1.format = Format.EVALUATION →
      (L.EncryptZeroCorePrivate privateKey
          privateKey.GetCryptoParameters.GetElementParams).1.chain
        = privateKey.GetCryptoParameters.GetElementParams.moduli →
      ptxt.chain ≠ privateKey.GetCryptoParameters.GetElementParams.moduli →
      PKEBFVRNS.Encrypt_PrivateKey L ptxt privateKey = Except.error Error.ParameterMismatch)
    ∧ ((L.EncryptZeroCorePublic publicKey
          publicKey.GetCryptoParameters.GetElementParams).1.format = Format.EVALUATION →
      (L.EncryptZeroCorePublic publicKey
          publicKey.GetCryptoParameters.GetElementParams).1.chain
        = publicKey.GetCryptoParameters.GetElementParams.moduli →
      ptxt.chain ≠ publicKey.GetCryptoParameters.GetElementParams.moduli →
      PKEBFVRNS.Encrypt_PublicKey L ptxt publicKey = Except.error Error.ParameterMismatch) := by
  constructor
  · intro hf hc hne
    have h : (L.EncryptZeroCorePrivate privateKey
        privateKey.GetCryptoParameters.GetElementParams).1.PlusEq
          ((ptxt.SetFormat L Format.EVALUATION).Times
            privateKey.GetCryptoParameters.GetQDivtModq)
        = Except.error Error.ParameterMismatch := by
      simp only [DCRTPoly.PlusEq, DCRTPoly.Times_format, DCRTPoly.SetFormat_format,
        DCRTPoly.Times_chain, DCRTPoly.SetFormat_chain, hf, hc, ne_eq, not_true_eq_false,
        if_false, Ne.symm hne, not_false_eq_true, if_true]
    simp only [PKEBFVRNS.Encrypt_PrivateKey, h]
  · intro hf hc hne
    have h : (L.EncryptZeroCorePublic publicKey
        publicKey.GetCryptoParameters.GetElementParams).1.PlusEq
          ((ptxt.SetFormat L Format.EVALUATION).Times
            publicKey.GetCryptoParameters.GetQDivtModq)
        = Except.error Error.ParameterMismatch := by
      simp only [DCRTPoly.PlusEq, DCRTPoly.Times_format, DCRTPoly.SetFormat_format,
        DCRTPoly.Times_chain, DCRTPoly.SetFormat_chain, hf, hc, ne_eq, not_true_eq_false,
        if_false, Ne.symm hne, not_false_eq_true, if_true]
    simp only [PKEBFVRNS.Encrypt_PublicKey, h]

/-- C10, evaluated: the plaintext over the chain `[5, 7, 11]` under keys over
the chain `[5, 7]` makes both overloads fail with `ParameterMismatch`. -/
theorem PKEBFVRNS.Encrypt_ParameterMismatch_witness :
    PKEBFVRNS.Encrypt_PrivateKey exampleLayer exampleMismatchedPlaintext examplePrivateKey
      = Except.error Error.ParameterMismatch
    ∧ PKEBFVRNS.Encrypt_PublicKey exampleLayer exampleMismatchedPlaintext examplePublicKey
      = Except.error Error.ParameterMismatch :=
  ⟨(PKEBFVRNS.Encrypt_ParameterMismatch exampleLayer exampleMismatchedPlaintext
      examplePrivateKey examplePublicKey).1 rfl rfl (by decide),
   (PKEBFVRNS.Encrypt_ParameterMismatch exampleLayer exampleMismatchedPlaintext
      examplePrivateKey examplePublicKey).2 rfl rfl (by decide)⟩

/-- A half-integer quotient needs an even `Q`: over a chain with an odd
product no input lies on a half-integer boundary. -/
theorem tie_requires_even_modulus (qs : List Nat) (t x m : Nat)
    (htie : 2 * x * t = (2 * m + 1) * qs.prod) : qs.prod % 2 = 0 := by
  have h1 : (2 * x * t) % 2 = 0 := by
    rw [Nat.mul_assoc]; exact Nat.mul_mod_right 2 _
  rw [htie, Nat.mul_mod] at h1
  have h2 : (2 * m + 1) % 2 = 1 := by omega
  rw [h2, Nat.one_mul, Nat.mod_mod] at h1
  exact h1

/-- C7: rounding is to nearest with the tie going away from zero.  For a
coefficient `k` of `b` that holds the residues of `x < Q` over the chain `qs`,
with correctly precomputed tables, if `x * t / Q` is exactly the half-integer
`m + 1/2` then the HPS-style `ScaleAndRound` (integer accumulator plus the
truncation of the fractional accumulator plus one half) yields `(m + 1) mod t`. -/
theorem DCRTPoly.ScaleAndRound_tie_away_from_zero (qs invs : List Nat) (t x m k : Nat)
    (b : DCRTPoly) (Precon B BPrecon : List Nat) (BFrac : List ℚ)
    (hq : qs.Pairwise Nat.Coprime) (hpos : ∀ q ∈ qs, 0 < q)
    (hinv : QHatInvCorrect qs invs)
    (hk : k < b.GetLength)
    (hb : (b.towers.map fun tw => (tw.modulus, tw.values.getD k 0))
            = qs.map fun q => (q, x % q))
    (hx : x < qs.prod)
    (htie : 2 * x * t = (2 * m + 1) * qs.prod) :
    (b.ScaleAndRound t (tQHatInvModqDivqModt t qs invs) Precon B BPrecon
        (tQHatInvModqDivqFrac t qs invs) BFrac).values[k]? = some ((m + 1) % t) := by
  have hP : 0 < qs.prod := List.prod_pos (by simpa using hpos)
  have hres : (b.towers.map fun tw => tw.values.getD k 0) = qs.map fun q => x % q := by
    have h := congrArg (List.map Prod.snd) hb
    simpa [List.map_map, Function.comp_def] using h
  have hround : (2 * x * t + qs.prod) / (2 * qs.prod) = m + 1 := by
    rw [htie]
    have : (2 * m + 1) * qs.prod + qs.prod = (m + 1) * (2 * qs.prod) := by ring
    rw [this, Nat.mul_div_cancel _ (by omega)]
  simp only [DCRTPoly.ScaleAndRound, List.getElem?_map, List.getElem?_range hk,
    Option.map_some', hres, scaleAndRoundCoeff_exact qs invs t x hq hpos hinv hx, hround]

/-- C7, evaluated: over the chain `[2, 3]` with `t = 3` the coefficient `1`
has `1 * 3 / 6 = 1/2`, and the result is the upper neighbour `1`. -/
theorem DCRTPoly.ScaleAndRound_tie_away_from_zero_witness :
    2 * 1 * 3 = (2 * 0 + 1) * [2, 3].prod
    ∧ (exampleTieElement.ScaleAndRound 3 (tQHatInvModqDivqModt 3 [2, 3] [1, 2]) [] [] []
        (tQHatInvModqDivqFrac 3 [2, 3] [1, 2]) []).values[0]? = some 1 :=
  ⟨by decide,
   DCRTPoly.ScaleAndRound_tie_away_from_zero [2, 3] [1, 2] 3 1 0 0 exampleTieElement
     [] [] [] [] (by decide) (by decide) ⟨rfl, by decide⟩ (by decide) rfl (by decide)
     (by decide)⟩

/-! ## Frame of `Encrypt` and `Decrypt` -/

theorem Store.length_alloc (s : Store) (o : Object) : (s.alloc o).length = s.length + 1 := by
  simp [Store.alloc]

theorem Store.getElem?_alloc_lt (s : Store) (o : Object) (a : Nat) (h : a < s.length) :
    (s.alloc o)[a]? = s[a]? := by
  simp [Store.alloc, List.getElem?_append_left h]

theorem Store.getElem?_alloc_length (s : Store) (o : Object) :
    (s.alloc o)[s.length]? = some o := by
  simp [Store.alloc]

theorem Store.length_write (s : Store) (a : Nat) (o : Object) :
    (s.write a o).length = s.length := by
  simp [Store.write]

theorem Store.getElem?_write_ne (s : Store) (a b : Nat) (o : Object) (h : a ≠ b) :
    (s.write a o)[b]? = s[b]? := by
  simp [Store.write, List.getElem?_set_ne h]

theorem Store.getElem?_write_eq (s : Store) (a : Nat) (o : Object) (h : a < s.length) :
    (s.write a o)[a]? = some o := by
  simp [Store.write, h]

theorem Store.lt_length_of_getElem? (s : Store) (a : Nat) (o : Object) (h : s[a]? = some o) :
    a < s.length := by
  rcases Nat.lt_or_ge a s.length with h1 | h1
  · exact h1
  · rw [List.getElem?_eq_none h1] at h
    cases h

theorem Store.getElem?_of_element? (s : Store) (a : Nat) (p : DCRTPoly)
    (h : s.element? a = some p) : s[a]? = some (Object.element p) := by
  unfold Store.element? at h
  split at h
  · cases h; assumption
  · cases h

theorem Store.getElem?_of_privateKey? (s : Store) (a : Nat) (k : PrivateKey)
    (h : s.privateKey? a = some k) : s[a]? = some (Object.privateKey k) := by
  unfold Store.privateKey? at h
  split at h
  · cases h; assumption
  · cases h

theorem Store.getElem?_of_publicKey? (s : Store) (a : Nat) (k : PublicKey)
    (h : s.publicKey? a = some k) : s[a]? = some (Object.publicKey k) := by
  unfold Store.publicKey? at h
  split at h
  · cases h; assumption
  · cases h

theorem Store.getElem?_of_ciphertext? (s : Store) (a : Nat) (c : Ciphertext)
    (h : s.ciphertext? a = some c) : s[a]? = some (Object.ciphertext c) := by
  unfold Store.ciphertext? at h
  split at h
  · cases h; assumption
  · cases h

theorem Store.getElem?_of_nativeElement? (s : Store) (a : Nat) (p : NativePoly)
    (h : s.nativeElement? a = some p) : s[a]? = some (Object.nativeElement p) := by
  unfold Store.nativeElement? at h
  split at h
  · cases h; assumption
  · cases h

theorem Store.getElem?_of_elementVector? (s : Store) (a : Nat) (v : List DCRTPoly)
    (h : s.elementVector? a = some v) : s[a]? = some (Object.elementVector v) := by
  unfold Store.elementVector? at h
  split at h
  · cases h; assumption
  · cases h

theorem PKEBFVRNS.Encrypt_PrivateKey_store_spec (L : StoreLayer) (s : Store)
    (ptxtArg k : Nat) (arg : DCRTPoly) (key : PrivateKey)
    (hL : L.EncryptZeroCoreContract)
    (harg : s.element? ptxtArg = some arg) (hkey : s.privateKey? k = some key) :
    ∃ s' r, PKEBFVRNS.Encrypt_PrivateKey_store L s ptxtArg k = some (s', r)
      ∧ (∀ a, a < s.length → s'[a]? = s[a]?)
      ∧ s'.element? s.length = some (arg.SetFormat L.layer Format.EVALUATION)
      ∧ (∀ c, r = Except.ok c → s.length ≤ c)
      ∧ r.map s'.ciphertext? = (PKEBFVRNS.Encrypt_PrivateKey L.layer arg key).map some := by
  have hk := Store.getElem?_of_privateKey? s k key hkey
  have hklt := Store.lt_length_of_getElem? s k _ hk
  -- the store at the call of `EncryptZeroCore`
  have hs2len : ((s.alloc (Object.element arg)).alloc (Object.ciphertext L.CiphertextImpl)).length
      = s.length + 2 := by
    simp [Store.length_alloc]
  have hs2 : ∀ a, a < s.length →
      ((s.alloc (Object.element arg)).alloc (Object.ciphertext L.CiphertextImpl))[a]? = s[a]? := by
    intro a ha
    rw [Store.getElem?_alloc_lt _ _ _ (by rw [Store.length_alloc]; omega),
      Store.getElem?_alloc_lt _ _ _ ha]
  have hs2p : ((s.alloc (Object.element arg)).alloc (Object.ciphertext L.CiphertextImpl))[s.length]?
      = some (Object.element arg) := by
    rw [Store.getElem?_alloc_lt _ _ _ (by rw [Store.length_alloc]; omega),
      Store.getElem?_alloc_length]
  have hs2c : ((s.alloc (Object.element arg)).alloc
      (Object.ciphertext L.CiphertextImpl))[s.length + 1]?
      = some (Object.ciphertext L.CiphertextImpl) := by
    have h := Store.getElem?_alloc_length (s.alloc (Object.element arg))
      (Object.ciphertext L.CiphertextImpl)
    rw [Store.length_alloc] at h
    exact h
  have hkey2 : Store.privateKey?
      ((s.alloc (Object.element arg)).alloc (Object.ciphertext L.CiphertextImpl)) k = some key := by
    simp only [Store.privateKey?, hs2 k hklt, hk]
  obtain ⟨hframe, hfresh, hvec⟩ := hL.1 _ k key hkey2
  rw [hs2len] at hfresh
  simp only [PKEBFVRNS.Encrypt_PrivateKey_store, harg, Store.length_alloc, hkey2,
    Option.bind_eq_bind, Option.some_bind, bind]
  generalize L.EncryptZeroCorePrivate
    ((s.alloc (Object.element arg)).alloc (Object.ciphertext L.CiphertextImpl)) k
    key.GetCryptoParameters.GetElementParams = called at hframe hfresh hvec ⊢
  obtain ⟨s3, ba⟩ := called
  simp only at hframe hfresh hvec ⊢
  have h3 : ∀ a, a < s.length → s3[a]? = s[a]? := by
    intro a ha
    rw [hframe a (by rw [hs2len]; omega), hs2 a ha]
  have h3p : s3[s.length]? = some (Object.element arg) := by
    rw [hframe _ (by rw [hs2len]; omega), hs2p]
  have h3c : s3[s.length + 1]? = some (Object.ciphertext L.CiphertextImpl) := by
    rw [hframe _ (by rw [hs2len]; omega), hs2c]
  have h3v := Store.getElem?_of_elementVector? s3 ba _ hvec
  have h3plt := Store.lt_length_of_getElem? s3 _ _ h3p
  have h3clt := Store.lt_length_of_getElem? s3 _ _ h3c
  have h3vlt := Store.lt_length_of_getElem? s3 _ _ h3v
  have e3 : s3.element? s.length = some arg := by
    simp only [Store.element?, h3p]
  simp only [e3, Option.some_bind]
  -- after `ptxt.SetFormat(Format::EVALUATION)`
  have h4 : ∀ a, a ≠ s.length →
      (s3.write s.length (Object.element (arg.SetFormat L.layer Format.EVALUATION)))[a]? = s3[a]? :=
    fun a ha => Store.getElem?_write_ne _ _ _ _ (Ne.symm ha)
  have h4p : (s3.write s.length (Object.element (arg.SetFormat L.layer Format.EVALUATION)))[s.length]?
      = some (Object.element (arg.SetFormat L.layer Format.EVALUATION)) :=
    Store.getElem?_write_eq _ _ _ h3plt
  have e4k : Store.privateKey?
      (s3.write s.length (Object.element (arg.SetFormat L.layer Format.EVALUATION))) k
      = some key := by
    simp only [Store.privateKey?, h4 k (by omega), h3 k hklt, hk]
  have e4p : Store.element?
      (s3.write s.length (Object.element (arg.SetFormat L.layer Format.EVALUATION))) s.length
      = some (arg.SetFormat L.layer Format.EVALUATION) := by
    simp only [Store.element?, h4p]
  have e4v : Store.elementVector?
      (s3.write s.length (Object.element (arg.SetFormat L.layer Format.EVALUATION))) ba
      = some [(L.layer.EncryptZeroCorePrivate key key.GetCryptoParameters.GetElementParams).1,
              (L.layer.EncryptZeroCorePrivate key key.GetCryptoParameters.GetElementParams).2] := by
    simp only [Store.elementVector?, h4 ba (by omega), h3v]
  simp only [e4k, e4p, e4v, Option.some_bind, PKEBFVRNS.Encrypt_PrivateKey]
  generalize hres : DCRTPoly.PlusEq
    (L.layer.EncryptZeroCorePrivate key key.GetCryptoParameters.GetElementParams).1
    ((arg.SetFormat L.layer Format.EVALUATION).Times key.GetCryptoParameters.GetQDivtModq) = res
  cases res with
  | error e =>
    refine ⟨_, _, rfl, ?_, e4p, ?_, rfl⟩
    · intro a ha
      rw [h4 a (by omega), h3 a ha]
    · intro c hc
      cases hc
  | ok ba0 =>
    simp only
    have h4len := Store.length_write s3 s.length
      (Object.element (arg.SetFormat L.layer Format.EVALUATION))
    generalize s3.write s.length (Object.element (arg.SetFormat L.layer Format.EVALUATION)) = s4
      at h4 h4p h4len e4p ⊢
    -- after `(*ba)[0] += ...`
    have h5 : ∀ a, ba ≠ a → (s4.write ba (Object.elementVector
        [ba0, (L.layer.EncryptZeroCorePrivate key key.GetCryptoParameters.GetElementParams).2]))[a]?
        = s4[a]? :=
      fun a ha => Store.getElem?_write_ne s4 ba a _ ha
    have h5len := Store.length_write s4 ba (Object.elementVector
      [ba0, (L.layer.EncryptZeroCorePrivate key key.GetCryptoParameters.GetElementParams).2])
    generalize s4.write ba (Object.elementVector
      [ba0, (L.layer.EncryptZeroCorePrivate key key.GetCryptoParameters.GetElementParams).2]) = s5
      at h5 h5len ⊢
    have h5' : ∀ a, a ≤ s.length + 1 → s5[a]? = s4[a]? := fun a ha => h5 a (by omega)
    have e5c : s5.ciphertext? (s.length + 1) = some L.CiphertextImpl := by
      simp only [Store.ciphertext?, h5' _ (Nat.le_refl _), h4 _ (Nat.succ_ne_self _), h3c]
    simp only [e5c, Option.some_bind]
    -- after `SetElements`
    have h6 : ∀ a, s.length + 1 ≠ a → (s5.write (s.length + 1) (Object.ciphertext
        { elements := [ba0,
            (L.layer.EncryptZeroCorePrivate key key.GetCryptoParameters.GetElementParams).2]
          depth := L.CiphertextImpl.depth }))[a]? = s5[a]? :=
      fun a ha => Store.getElem?_write_ne s5 _ a _ ha
    have h6c := Store.getElem?_write_eq s5 (s.length + 1)
      (Object.ciphertext
        { elements := [ba0,
            (L.layer.EncryptZeroCorePrivate key key.GetCryptoParameters.GetElementParams).2]
          depth := L.CiphertextImpl.depth }) (by omega)
    have h6len := Store.length_write s5 (s.length + 1) (Object.ciphertext
        { elements := [ba0,
            (L.layer.EncryptZeroCorePrivate key key.GetCryptoParameters.GetElementParams).2]
          depth := L.CiphertextImpl.depth })
    generalize s5.write (s.length + 1) (Object.ciphertext
        { elements := [ba0,
            (L.layer.EncryptZeroCorePrivate key key.GetCryptoParameters.GetElementParams).2]
          depth := L.CiphertextImpl.depth }) = s6 at h6 h6c h6len ⊢
    have e6c : s6.ciphertext? (s.length + 1) = some
        { elements := [ba0,
            (L.layer.EncryptZeroCorePrivate key key.GetCryptoParameters.GetElementParams).2]
          depth := L.CiphertextImpl.depth } := by
      simp only [Store.ciphertext?, h6c]
    simp only [e6c, Option.some_bind]
    -- after `SetDepth(1)`
    have h7 : ∀ a, s.length + 1 ≠ a → (s6.write (s.length + 1) (Object.ciphertext
        { elements := [ba0,
            (L.layer.EncryptZeroCorePrivate key key.GetCryptoParameters.GetElementParams).2]
          depth := 1 }))[a]? = s6[a]? :=
      fun a ha => Store.getElem?_write_ne s6 _ a _ ha
    have h7c := Store.getElem?_write_eq s6 (s.length + 1)
      (Object.ciphertext
        { elements := [ba0,
            (L.layer.EncryptZeroCorePrivate key key.GetCryptoParameters.GetElementParams).2]
          depth := 1 }) (by omega)
    refine ⟨_, _, rfl, ?_, ?_, ?_, ?_⟩
    · intro a ha
      rw [h7 a (by omega), h6 a (by omega), h5' a (by omega), h4 a (by omega), h3 a ha]
    · simp only [Store.element?, h7 _ (Nat.succ_ne_self _), h6 _ (Nat.succ_ne_self _),
        h5' _ (Nat.le_succ _), h4p]
    · intro c hc
      cases hc
      exact Nat.le_succ _
    · simp only [Except.map, Store.ciphertext?, h7c]

theorem PKEBFVRNS.Encrypt_PublicKey_store_spec (L : StoreLayer) (s : Store)
    (ptxtArg k : Nat) (arg : DCRTPoly) (key : PublicKey)
    (hL : L.EncryptZeroCoreContract)
    (harg : s.element? ptxtArg = some arg) (hkey : s.publicKey? k = some key) :
    ∃ s' r, PKEBFVRNS.Encrypt_PublicKey_store L s ptxtArg k = some (s', r)
      ∧ (∀ a, a < s.length → s'[a]? = s[a]?)
      ∧ s'.element? s.length = some (arg.SetFormat L.layer Format.EVALUATION)
      ∧ (∀ c, r = Except.ok c → s.length ≤ c)
      ∧ r.map s'.ciphertext? = (PKEBFVRNS.Encrypt_PublicKey L.layer arg key).map some := by
  have hk := Store.getElem?_of_publicKey? s k key hkey
  have hklt := Store.lt_length_of_getElem? s k _ hk
  -- the store at the call of `EncryptZeroCore`
  have hs2len : ((s.alloc (Object.element arg)).alloc (Object.ciphertext L.CiphertextImpl)).length
      = s.length + 2 := by
    simp [Store.length_alloc]
  have hs2 : ∀ a, a < s.length →
      ((s.alloc (Object.element arg)).alloc (Object.ciphertext L.CiphertextImpl))[a]? = s[a]? := by
    intro a ha
    rw [Store.getElem?_alloc_lt _ _ _ (by rw [Store.length_alloc]; omega),
      Store.getElem?_alloc_lt _ _ _ ha]
  have hs2p : ((s.alloc (Object.element arg)).alloc (Object.ciphertext L.CiphertextImpl))[s.length]?
      = some (Object.element arg) := by
    rw [Store.getElem?_alloc_lt _ _ _ (by rw [Store.length_alloc]; omega),
      Store.getElem?_alloc_length]
  have hs2c : ((s.alloc (Object.element arg)).alloc
      (Object.ciphertext L.CiphertextImpl))[s.length + 1]?
      = some (Object.ciphertext L.CiphertextImpl) := by
    have h := Store.getElem?_alloc_length (s.alloc (Object.element arg))
      (Object.ciphertext L.CiphertextImpl)
    rw [Store.length_alloc] at h
    exact h
  have hkey2 : Store.publicKey?
      ((s.alloc (Object.element arg)).alloc (Object.ciphertext L.CiphertextImpl)) k = some key := by
    simp only [Store.publicKey?, hs2 k hklt, hk]
  obtain ⟨hframe, hfresh, hvec⟩ := hL.2 _ k key hkey2
  rw [hs2len] at hfresh
  simp only [PKEBFVRNS.Encrypt_PublicKey_store, harg, Store.length_alloc, hkey2,
    Option.bind_eq_bind, Option.some_bind, bind]
  generalize L.EncryptZeroCorePublic
    ((s.alloc (Object.element arg)).alloc (Object.ciphertext L.CiphertextImpl)) k
    key.GetCryptoParameters.GetElementParams = called at hframe hfresh hvec ⊢
  obtain ⟨s3, ba⟩ := called
  simp only at hframe hfresh hvec ⊢
  have h3 : ∀ a, a < s.length → s3[a]? = s[a]? := by
    intro a ha
    rw [hframe a (by rw [hs2len]; omega), hs2 a ha]
  have h3p : s3[s.length]? = some (Object.element arg) := by
    rw [hframe _ (by rw [hs2len]; omega), hs2p]
  have h3c : s3[s.length + 1]? = some (Object.ciphertext L.CiphertextImpl) := by
    rw [hframe _ (by rw [hs2len]; omega), hs2c]
  have h3v := Store.getElem?_of_elementVector? s3 ba _ hvec
  have h3plt := Store.lt_length_of_getElem? s3 _ _ h3p
  have h3clt := Store.lt_length_of_getElem? s3 _ _ h3c
  have h3vlt := Store.lt_length_of_getElem? s3 _ _ h3v
  have e3 : s3.element? s.length = some arg := by
    simp only [Store.element?, h3p]
  simp only [e3, Option.some_bind]
  -- after `ptxt.SetFormat(Format::EVALUATION)`
  have h4 : ∀ a, a ≠ s.length →
      (s3.write s.length (Object.element (arg.SetFormat L.layer Format.EVALUATION)))[a]? = s3[a]? :=
    fun a ha => Store.getElem?_write_ne _ _ _ _ (Ne.symm ha)
  have h4p : (s3.write s.length (Object.element (arg.SetFormat L.layer Format.EVALUATION)))[s.length]?
      = some (Object.element (arg.SetFormat L.layer Format.EVALUATION)) :=
    Store.getElem?_write_eq _ _ _ h3plt
  have e4k : Store.publicKey?
      (s3.write s.length (Object.element (arg.SetFormat L.layer Format.EVALUATION))) k
      = some key := by
    simp only [Store.publicKey?, h4 k (by omega), h3 k hklt, hk]
  have e4p : Store.element?
      (s3.write s.length (Object.element (arg.SetFormat L.layer Format.EVALUATION))) s.length
      = some (arg.SetFormat L.layer Format.EVALUATION) := by
    simp only [Store.element?, h4p]
  have e4v : Store.elementVector?
      (s3.write s.length (Object.element (arg.SetFormat L.layer Format.EVALUATION))) ba
      = some [(L.layer.EncryptZeroCorePublic key key.GetCryptoParameters.GetElementParams).1,
              (L.layer.EncryptZeroCorePublic key key.GetCryptoParameters.GetElementParams).2] := by
    simp only [Store.elementVector?, h4 ba (by omega), h3v]
  simp only [e4k, e4p, e4v, Option.some_bind, PKEBFVRNS.Encrypt_PublicKey]
  generalize hres : DCRTPoly.PlusEq
    (L.layer.EncryptZeroCorePublic key key.GetCryptoParameters.GetElementParams).1
    ((arg.SetFormat L.layer Format.EVALUATION).Times key.GetCryptoParameters.GetQDivtModq) = res
  cases res with
  | error e =>
    refine ⟨_, _, rfl, ?_, e4p, ?_, rfl⟩
    · intro a ha
      rw [h4 a (by omega), h3 a ha]
    · intro c hc
      cases hc
  | ok ba0 =>
    simp only
    have h4len := Store.length_write s3 s.length
      (Object.element (arg.SetFormat L.layer Format.EVALUATION))
    generalize s3.write s.length (Object.element (arg.SetFormat L.layer Format.EVALUATION)) = s4
      at h4 h4p h4len e4p ⊢
    -- after `(*ba)[0] += ...`
    have h5 : ∀ a, ba ≠ a → (s4.write ba (Object.elementVector
        [ba0, (L.layer.EncryptZeroCorePublic key key.GetCryptoParameters.GetElementParams).2]))[a]?
        = s4[a]? :=
      fun a ha => Store.getElem?_write_ne s4 ba a _ ha
    have h5len := Store.length_write s4 ba (Object.elementVector
      [ba0, (L.layer.EncryptZeroCorePublic key key.GetCryptoParameters.GetElementParams).2])
    generalize s4.write ba (Object.elementVector
      [ba0, (L.layer.EncryptZeroCorePublic key key.GetCryptoParameters.GetElementParams).2]) = s5
      at h5 h5len ⊢
    have h5' : ∀ a, a ≤ s.length + 1 → s5[a]? = s4[a]? := fun a ha => h5 a (by omega)
    have e5c : s5.ciphertext? (s.length + 1) = some L.CiphertextImpl := by
      simp only [Store.ciphertext?, h5' _ (Nat.le_refl _), h4 _ (Nat.succ_ne_self _), h3c]
    simp only [e5c, Option.some_bind]
    -- after `SetElements`
    have h6 : ∀ a, s.length + 1 ≠ a → (s5.write (s.length + 1) (Object.ciphertext
        { elements := [ba0,
            (L.layer.EncryptZeroCorePublic key key.GetCryptoParameters.GetElementParams).2]
          depth := L.CiphertextImpl.depth }))[a]? = s5[a]? :=
      fun a ha => Store.getElem?_write_ne s5 _ a _ ha
    have h6c := Store.getElem?_write_eq s5 (s.length + 1)
      (Object.ciphertext
        { elements := [ba0,
            (L.layer.EncryptZeroCorePublic key key.GetCryptoParameters.GetElementParams).2]
          depth := L.CiphertextImpl.depth }) (by omega)
    have h6len := Store.length_write s5 (s.length + 1) (Object.ciphertext
        { elements := [ba0,
            (L.layer.EncryptZeroCorePublic key key.GetCryptoParameters.GetElementParams).2]
          depth := L.CiphertextImpl.depth })
    generalize s5.write (s.length + 1) (Object.ciphertext
        { elements := [ba0,
            (L.layer.EncryptZeroCorePublic key key.GetCryptoParameters.GetElementParams).2]
          depth := L.CiphertextImpl.depth }) = s6 at h6 h6c h6len ⊢
    have e6c : s6.ciphertext? (s.length + 1) = some
        { elements := [ba0,
            (L.layer.EncryptZeroCorePublic key key.GetCryptoParameters.GetElementParams).2]
          depth := L.CiphertextImpl.depth } := by
      simp only [Store.ciphertext?, h6c]
    simp only [e6c, Option.some_bind]
    -- after `SetDepth(1)`
    have h7 : ∀ a, s.length + 1 ≠ a → (s6.write (s.length + 1) (Object.ciphertext
        { elements := [ba0,
            (L.layer.EncryptZeroCorePublic key key.GetCryptoParameters.GetElementParams).2]
          depth := 1 }))[a]? = s6[a]? :=
      fun a ha => Store.getElem?_write_ne s6 _ a _ ha
    have h7c := Store.getElem?_write_eq s6 (s.length + 1)
      (Object.ciphertext
        { elements := [ba0,
            (L.layer.EncryptZeroCorePublic key key.GetCryptoParameters.GetElementParams).2]
          depth := 1 }) (by omega)
    refine ⟨_, _, rfl, ?_, ?_, ?_, ?_⟩
    · intro a ha
      rw [h7 a (by omega), h6 a (by omega), h5' a (by omega), h4 a (by omega), h3 a ha]
    · simp only [Store.element?, h7 _ (Nat.succ_ne_self _), h6 _ (Nat.succ_ne_self _),
        h5' _ (Nat.le_succ _), h4p]
    · intro c hc
      cases hc
      exact Nat.le_succ _
    · simp only [Except.map, Store.ciphertext?, h7c]

theorem PKEBFVRNS.Decrypt_store_spec (L : StoreLayer) (s : Store) (c k p : Nat)
    (ct : Ciphertext) (key : PrivateKey) (old : NativePoly)
    (hL : L.DecryptCoreContract)
    (hc : s.ciphertext? c = some ct) (hk : s.privateKey? k = some key)
    (hp : s.nativeElement? p = some old) :
    ∃ s', PKEBFVRNS.Decrypt_store L s c k p
        = some (s', (PKEBFVRNS.Decrypt L.layer ct key).2)
      ∧ (∀ a, a < s.length → a ≠ p → s'[a]? = s[a]?)
      ∧ s'.ciphertext? c = some ct
      ∧ s'.privateKey? k = some key
      ∧ s'.nativeElement? p = some (PKEBFVRNS.Decrypt L.layer ct key).1 := by
  have hc0 := Store.getElem?_of_ciphertext? s c ct hc
  have hk0 := Store.getElem?_of_privateKey? s k key hk
  have hp0 := Store.getElem?_of_nativeElement? s p old hp
  have hclt := Store.lt_length_of_getElem? s c _ hc0
  have hklt := Store.lt_length_of_getElem? s k _ hk0
  have hplt := Store.lt_length_of_getElem? s p _ hp0
  have hcp : p ≠ c := by
    intro h
    rw [h, hc0] at hp0
    cases hp0
  have hkp : p ≠ k := by
    intro h
    rw [h, hk0] at hp0
    cases hp0
  obtain ⟨hframe, hval⟩ := hL s c k ct key hc hk
  simp only [PKEBFVRNS.Decrypt_store, hc, hk, Option.bind_eq_bind, Option.some_bind, bind]
  generalize L.DecryptCore s c k = called at hframe hval ⊢
  obtain ⟨s1, b⟩ := called
  simp only at hframe hval ⊢
  subst hval
  have e1k : s1.privateKey? k = some key := by
    simp only [Store.privateKey?, hframe k hklt, hk0]
  have e1p : s1.nativeElement? p = some old := by
    simp only [Store.nativeElement?, hframe p hplt, hp0]
  have h1plt : p < s1.length :=
    Store.lt_length_of_getElem? s1 p _ (Store.getElem?_of_nativeElement? s1 p old e1p)
  simp only [e1k, e1p, Option.some_bind]
  have h2 : ∀ a, p ≠ a → (s1.write p (Object.nativeElement
      (PKEBFVRNS.Decrypt L.layer ct key).1))[a]? = s1[a]? :=
    fun a ha => Store.getElem?_write_ne s1 p a _ ha
  have h2p : (s1.write p (Object.nativeElement (PKEBFVRNS.Decrypt L.layer ct key).1))[p]?
      = some (Object.nativeElement (PKEBFVRNS.Decrypt L.layer ct key).1) :=
    Store.getElem?_write_eq s1 p _ h1plt
  have e2p : Store.nativeElement?
      (s1.write p (Object.nativeElement (PKEBFVRNS.Decrypt L.layer ct key).1)) p
      = some (PKEBFVRNS.Decrypt L.layer ct key).1 := by
    simp only [Store.nativeElement?, h2p]
  refine ⟨s1.write p (Object.nativeElement (PKEBFVRNS.Decrypt L.layer ct key).1), ?_, ?_, ?_, ?_,
    e2p⟩
  · show Option.bind (Store.nativeElement?
        (s1.write p (Object.nativeElement (PKEBFVRNS.Decrypt L.layer ct key).1)) p) _ = _
    rw [e2p]
    rfl
  · intro a ha hap
    rw [h2 a (Ne.symm hap), hframe a ha]
  · simp only [Store.ciphertext?, h2 c hcp, hframe c hclt, hc0]
  · simp only [Store.privateKey?, h2 k hkp, hframe k hklt, hk0]

theorem StoreLayer.ofLatticeLayer_EncryptZeroCoreContract (L : LatticeLayer) :
    (StoreLayer.ofLatticeLayer L).EncryptZeroCoreContract := by
  constructor
  · intro s k key hk
    simp only [StoreLayer.ofLatticeLayer, hk]
    refine ⟨fun a ha => Store.getElem?_alloc_lt s _ a ha, Nat.le_refl _, ?_⟩
    simp only [Store.elementVector?, Store.getElem?_alloc_length]
  · intro s k key hk
    simp only [StoreLayer.ofLatticeLayer, hk]
    refine ⟨fun a ha => Store.getElem?_alloc_lt s _ a ha, Nat.le_refl _, ?_⟩
    simp only [Store.elementVector?, Store.getElem?_alloc_length]

theorem StoreLayer.ofLatticeLayer_DecryptCoreContract (L : LatticeLayer) :
    (StoreLayer.ofLatticeLayer L).DecryptCoreContract := by
  intro s c k ct key hc hk
  simp [StoreLayer.ofLatticeLayer, hc, hk]

/-- The contract of `EncryptZeroCore` cannot be dropped: with a routine that
hands out the existing vector at address 0, the addition of line 78 lands in
that vector, and the object at address 0 is not what it was before the call. -/
theorem PKEBFVRNS.Encrypt_PrivateKey_store_aliasing :
    exampleVectorStore.elementVector? 0
      = some [⟨Format.EVALUATION, [⟨5, [4]⟩, ⟨7, [5]⟩]⟩,
              ⟨Format.EVALUATION, [⟨5, [3]⟩, ⟨7, [4]⟩]⟩]
    ∧ (PKEBFVRNS.Encrypt_PrivateKey_store exampleAliasingLayer exampleVectorStore 2 1).map
        (fun out => out.1.elementVector? 0)
      = some (some [⟨Format.EVALUATION, [⟨5, [1]⟩, ⟨7, [1]⟩]⟩,
                    ⟨Format.EVALUATION, [⟨5, [3]⟩, ⟨7, [4]⟩]⟩]) :=
  ⟨rfl, rfl⟩

/-- C11: `PKEBFVRNS::Encrypt`, run on a store in which `EncryptZeroCore` keeps
to its contract, returns, and at the return every object that existed before
the call is what it was: the key with its crypto parameters and `QDivtModq`
table, and the caller's plaintext ring element.  The conversion to EVALUATION
format is in the by-value copy, a cell that did not exist before the call; the
returned ciphertext is in a new cell as well and holds what `Encrypt` computes
from the caller's element and the key (on failure the same error is
returned).  This holds for both overloads. -/
theorem PKEBFVRNS.Encrypt_store_frame (L : StoreLayer) (s : Store) (ptxtArg k : Nat)
    (arg : DCRTPoly) (hL : L.EncryptZeroCoreContract)
    (harg : s.element? ptxtArg = some arg) :
    (∀ key, s.privateKey? k = some key →
      ∃ s' r, PKEBFVRNS.Encrypt_PrivateKey_store L s ptxtArg k = some (s', r)
        ∧ (∀ a, a < s.length → s'[a]? = s[a]?)
        ∧ s'.privateKey? k = some key
        ∧ s'.element? ptxtArg = some arg
        ∧ s'.element? s.length = some (arg.SetFormat L.layer Format.EVALUATION)
        ∧ (∀ c, r = Except.ok c → s.length ≤ c)
        ∧ r.map s'.ciphertext? = (PKEBFVRNS.Encrypt_PrivateKey L.layer arg key).map some)
    ∧ (∀ key, s.publicKey? k = some key →
      ∃ s' r, PKEBFVRNS.Encrypt_PublicKey_store L s ptxtArg k = some (s', r)
        ∧ (∀ a, a < s.length → s'[a]? = s[a]?)
        ∧ s'.publicKey? k = some key
        ∧ s'.element? ptxtArg = some arg
        ∧ s'.element? s.length = some (arg.SetFormat L.layer Format.EVALUATION)
        ∧ (∀ c, r = Except.ok c → s.length ≤ c)
        ∧ r.map s'.ciphertext? = (PKEBFVRNS.Encrypt_PublicKey L.layer arg key).map some) := by
  have ha0 := Store.getElem?_of_element? s ptxtArg arg harg
  have halt := Store.lt_length_of_getElem? s ptxtArg _ ha0
  constructor
  · intro key hkey
    have hk0 := Store.getElem?_of_privateKey? s k key hkey
    have hklt := Store.lt_length_of_getElem? s k _ hk0
    obtain ⟨s', r, hcall, hframe, hcopy, hnew, hres⟩ :=
      PKEBFVRNS.Encrypt_PrivateKey_store_spec L s ptxtArg k arg key hL harg hkey
    refine ⟨s', r, hcall, hframe, ?_, ?_, hcopy, hnew, hres⟩
    · simp only [Store.privateKey?, hframe k hklt, hk0]
    · simp only [Store.element?, hframe ptxtArg halt, ha0]
  · intro key hkey
    have hk0 := Store.getElem?_of_publicKey? s k key hkey
    have hklt := Store.lt_length_of_getElem? s k _ hk0
    obtain ⟨s', r, hcall, hframe, hcopy, hnew, hres⟩ :=
      PKEBFVRNS.Encrypt_PublicKey_store_spec L s ptxtArg k arg key hL harg hkey
    refine ⟨s', r, hcall, hframe, ?_, ?_, hcopy, hnew, hres⟩
    · simp only [Store.publicKey?, hframe k hklt, hk0]
    · simp only [Store.element?, hframe ptxtArg halt, ha0]

/-- C11, evaluated: on the example store (plaintext `1` in COEFFICIENT format
at address 0, private key at 1, public key at 2, five objects in all) both
overloads return, the five objects are what they were, and the EVALUATION copy
of the plaintext is the new object at address 5. -/
theorem PKEBFVRNS.Encrypt_store_frame_witness :
    (∃ s' r, PKEBFVRNS.Encrypt_PrivateKey_store (StoreLayer.ofLatticeLayer exampleLayer)
          exampleStore 0 1 = some (s', r)
        ∧ (∀ a, a < 5 → s'[a]? = exampleStore[a]?)
        ∧ s'.privateKey? 1 = some examplePrivateKey
        ∧ s'.element? 0 = some examplePlaintext
        ∧ s'.element? 5 = some (examplePlaintext.SetFormat exampleLayer Format.EVALUATION)
        ∧ (∀ c, r = Except.ok c → 5 ≤ c)
        ∧ r.map s'.ciphertext?
          = (PKEBFVRNS.Encrypt_PrivateKey exampleLayer examplePlaintext examplePrivateKey).map some)
    ∧ (∃ s' r, PKEBFVRNS.Encrypt_PublicKey_store (StoreLayer.ofLatticeLayer exampleLayer)
          exampleStore 0 2 = some (s', r)
        ∧ (∀ a, a < 5 → s'[a]? = exampleStore[a]?)
        ∧ s'.publicKey? 2 = some examplePublicKey
        ∧ s'.element? 0 = some examplePlaintext
        ∧ s'.element? 5 = some (examplePlaintext.SetFormat exampleLayer Format.EVALUATION)
        ∧ (∀ c, r = Except.ok c → 5 ≤ c)
        ∧ r.map s'.ciphertext?
          = (PKEBFVRNS.Encrypt_PublicKey exampleLayer examplePlaintext examplePublicKey).map some) :=
  ⟨(PKEBFVRNS.Encrypt_store_frame (StoreLayer.ofLatticeLayer exampleLayer) exampleStore 0 1
      examplePlaintext (StoreLayer.ofLatticeLayer_EncryptZeroCoreContract exampleLayer) rfl).1
      examplePrivateKey rfl,
   (PKEBFVRNS.Encrypt_store_frame (StoreLayer.ofLatticeLayer exampleLayer) exampleStore 0 2
      examplePlaintext (StoreLayer.ofLatticeLayer_EncryptZeroCoreContract exampleLayer) rfl).2
      examplePublicKey rfl⟩

/-- C19: `PKEBFVRNS::Decrypt`, run on a store in which `DecryptCore` keeps to
its contract, returns, and at the return the ciphertext, the private key with
its crypto parameters and every other object that existed before the call,
the output `*plaintext` apart, is what it was.  The plaintext it writes and
the `DecryptResult` it returns are those computed from the ciphertext and the
key alone, whatever else the store holds; and a second call on the store the
first one leaves behind, with the same ciphertext and key and any output
polynomial, writes the same plaintext and returns the same `DecryptResult`. -/
theorem PKEBFVRNS.Decrypt_store_frame (L : StoreLayer) (s : Store) (c k p : Nat)
    (ct : Ciphertext) (key : PrivateKey) (old : NativePoly)
    (hL : L.DecryptCoreContract)
    (hc : s.ciphertext? c = some ct) (hk : s.privateKey? k = some key)
    (hp : s.nativeElement? p = some old) :
    ∃ s', PKEBFVRNS.Decrypt_store L s c k p
        = some (s', (PKEBFVRNS.Decrypt L.layer ct key).2)
      ∧ (∀ a, a < s.length → a ≠ p → s'[a]? = s[a]?)
      ∧ s'.ciphertext? c = some ct
      ∧ s'.privateKey? k = some key
      ∧ s'.nativeElement? p = some (PKEBFVRNS.Decrypt L.layer ct key).1
      ∧ ∀ p2 old2, s'.nativeElement? p2 = some old2 →
          ∃ s'', PKEBFVRNS.Decrypt_store L s' c k p2
              = some (s'', (PKEBFVRNS.Decrypt L.layer ct key).2)
            ∧ s''.ciphertext? c = some ct
            ∧ s''.privateKey? k = some key
            ∧ s''.nativeElement? p2 = some (PKEBFVRNS.Decrypt L.layer ct key).1 := by
  obtain ⟨s', hcall, hframe, hc', hk', hp'⟩ :=
    PKEBFVRNS.Decrypt_store_spec L s c k p ct key old hL hc hk hp
  refine ⟨s', hcall, hframe, hc', hk', hp', ?_⟩
  intro p2 old2 hp2
  obtain ⟨s'', hcall2, _, hc'', hk'', hp''⟩ :=
    PKEBFVRNS.Decrypt_store_spec L s' c k p2 ct key old2 hL hc' hk' hp2
  exact ⟨s'', hcall2, hc'', hk'', hp''⟩

/-- C19, evaluated: on the example store (private key at address 1, a
ciphertext at 3, an output polynomial holding `[1, 1]` at 4) `Decrypt`
returns, leaves the ciphertext and the key as they were, and a second call
into the same output polynomial returns the same result. -/
theorem PKEBFVRNS.Decrypt_store_frame_witness :
    ∃ s', PKEBFVRNS.Decrypt_store (StoreLayer.ofLatticeLayer exampleLayer) exampleStore 3 1 4
        = some (s', (PKEBFVRNS.Decrypt exampleLayer
            { elements := [examplePlaintext], depth := 1 } examplePrivateKey).2)
      ∧ s'.ciphertext? 3 = some { elements := [examplePlaintext], depth := 1 }
      ∧ s'.privateKey? 1 = some examplePrivateKey
      ∧ ∃ s'', PKEBFVRNS.Decrypt_store (StoreLayer.ofLatticeLayer exampleLayer) s' 3 1 4
          = some (s'', (PKEBFVRNS.Decrypt exampleLayer
              { elements := [examplePlaintext], depth := 1 } examplePrivateKey).2)
        ∧ s''.nativeElement? 4 = s'.nativeElement? 4 :=
  match PKEBFVRNS.Decrypt_store_frame (StoreLayer.ofLatticeLayer exampleLayer) exampleStore 3 1 4
      { elements := [examplePlaintext], depth := 1 } examplePrivateKey
      { modulus := 2, format := Format.COEFFICIENT, values := [1, 1] }
      (StoreLayer.ofLatticeLayer_DecryptCoreContract exampleLayer) rfl rfl rfl with
  | ⟨s', hcall, _, hc, hk, hp, hagain⟩ =>
    match hagain 4 _ hp with
    | ⟨s'', hcall2, _, _, hp2⟩ => ⟨s', hcall, hc, hk, s'', hcall2, hp2.trans hp.symm⟩

/-! ## Level and depth bookkeeping: lemmas -/

theorem PKEBFVRNS.Encrypt_PublicKey_depth (L : LatticeLayer) (ptxt : DCRTPoly)
    (publicKey : PublicKey) (ct : Ciphertext)
    (h : PKEBFVRNS.Encrypt_PublicKey L ptxt publicKey = Except.ok ct) : ct.depth = 1 := by
  simp only [PKEBFVRNS.Encrypt_PublicKey] at h
  split at h
  · cases h
  · cases h
    rfl

/-- A ciphertext of depth at most 1 is never terminal. -/
theorem LevelState.not_terminal_of_depth_le_one (c : LevelState) (h : c.depth ≤ 1) :
    c.terminal = false := by
  simp only [LevelState.terminal, decide_eq_false_iff_not, not_and, not_lt]
  intro _
  exact h

/-- What `EvalMult` returns when it returns. -/
theorem LevelTracker.EvalMult_ok (c1 c2 r : LevelState)
    (h : LevelTracker.EvalMult c1 c2 = Except.ok r) :
    r = { depth := c1.depth + c2.depth, chainLength := min c1.chainLength c2.chainLength } := by
  unfold LevelTracker.EvalMult at h
  split at h
  · cases h
  · cases h
    rfl

/-- `EvalMult` returns on operands that are not terminal. -/
theorem LevelTracker.EvalMult_of_not_terminal (c1 c2 : LevelState)
    (h1 : c1.terminal = false) (h2 : c2.terminal = false) :
    LevelTracker.EvalMult c1 c2
      = Except.ok { depth := c1.depth + c2.depth
                    chainLength := min c1.chainLength c2.chainLength } := by
  simp [LevelTracker.EvalMult, h1, h2]

/-- `Rescale` returns on a chain of more than one modulus. -/
theorem LevelTracker.Rescale_of_lt (mode : ScalingTechnique) (c : LevelState)
    (h : 1 < c.chainLength) :
    LevelTracker.Rescale mode c
      = Except.ok { depth := if mode.isAutomatic then 1 else c.depth - 1
                    chainLength := c.chainLength - 1 } := by
  unfold LevelTracker.Rescale BASE_NUM_LEVELS_TO_DROP
  rw [if_neg (by omega)]

/-- C12: depth additivity.  Whenever `Multiply(c1, c2)` returns, its depth is
`Depth(c1) + Depth(c2)` and its chain is the common chain of the operands
(the shorter one if they differ); it returns unless an operand is terminal,
and two fresh ciphertexts of depth 1, such as `Encrypt` returns, multiply to a
ciphertext of depth 2. -/
theorem LevelTracker.EvalMult_depth_additive (c1 c2 : LevelState) :
    (∀ r, LevelTracker.EvalMult c1 c2 = Except.ok r →
        r.depth = c1.depth + c2.depth
        ∧ r.chainLength = min c1.chainLength c2.chainLength
        ∧ (c1.chainLength = c2.chainLength → r.chainLength = c1.chainLength))
    ∧ (c1.terminal = false → c2.terminal = false →
        ∃ r, LevelTracker.EvalMult c1 c2 = Except.ok r
          ∧ r.depth = c1.depth + c2.depth
          ∧ (c1.chainLength = c2.chainLength → r.chainLength = c1.chainLength))
    ∧ (c1.depth = 1 → c2.depth = 1 →
        ∃ r, LevelTracker.EvalMult c1 c2 = Except.ok r ∧ r.depth = 2)
    ∧ (∀ (L : LatticeLayer) (p1 p2 : DCRTPoly) (k1 k2 : PublicKey) (ct1 ct2 : Ciphertext),
        PKEBFVRNS.Encrypt_PublicKey L p1 k1 = Except.ok ct1 →
        PKEBFVRNS.Encrypt_PublicKey L p2 k2 = Except.ok ct2 →
        ∃ r, LevelTracker.EvalMult ct1.level ct2.level = Except.ok r ∧ r.depth = 2) := by
  refine ⟨?_, ?_, ?_, ?_⟩
  · intro r h
    rw [LevelTracker.EvalMult_ok c1 c2 r h]
    refine ⟨rfl, rfl, ?_⟩
    intro he
    simp [he]
  · intro h1 h2
    refine ⟨_, LevelTracker.EvalMult_of_not_terminal c1 c2 h1 h2, rfl, ?_⟩
    intro he
    simp [he]
  · intro h1 h2
    refine ⟨_, LevelTracker.EvalMult_of_not_terminal c1 c2
      (c1.not_terminal_of_depth_le_one (by omega))
      (c2.not_terminal_of_depth_le_one (by omega)), ?_⟩
    simp [h1, h2]
  · intro L p1 p2 k1 k2 ct1 ct2 e1 e2
    have d1 : ct1.level.depth = 1 := PKEBFVRNS.Encrypt_PublicKey_depth L p1 k1 ct1 e1
    have d2 : ct2.level.depth = 1 := PKEBFVRNS.Encrypt_PublicKey_depth L p2 k2 ct2 e2
    refine ⟨_, LevelTracker.EvalMult_of_not_terminal _ _
      (LevelState.not_terminal_of_depth_le_one _ (by omega))
      (LevelState.not_terminal_of_depth_le_one _ (by omega)), ?_⟩
    simp [d1, d2]

/-- C12, evaluated: two ciphertexts of depth 1 over 6 moduli multiply to depth
2 over 6 moduli (`c2_depth2` of `ManualRescaleDemo`). -/
theorem LevelTracker.EvalMult_depth_additive_witness :
    ∃ r, LevelTracker.EvalMult ⟨1, 6⟩ ⟨1, 6⟩ = Except.ok r
      ∧ r.depth = 1 + 1 ∧ (6 = 6 → r.chainLength = 6) :=
  (LevelTracker.EvalMult_depth_additive ⟨1, 6⟩ ⟨1, 6⟩).2.1 rfl rfl

/-- C13: rescale monotonicity.  `BASE_NUM_LEVELS_TO_DROP` is 1; on a chain of
more than one modulus `Rescale` returns a ciphertext whose chain is shorter by
exactly that one level, and on a chain of length 1 it fails with
`ChainExhausted`. -/
theorem LevelTracker.Rescale_chain_length (mode : ScalingTechnique) (c : LevelState) :
    BASE_NUM_LEVELS_TO_DROP = 1
    ∧ (1 < c.chainLength →
        ∃ r, LevelTracker.Rescale mode c = Except.ok r
          ∧ r.chainLength = c.chainLength - 1
          ∧ r.chainLength + BASE_NUM_LEVELS_TO_DROP = c.chainLength)
    ∧ (c.chainLength = 1 → LevelTracker.Rescale mode c = Except.error Error.ChainExhausted) := by
  refine ⟨rfl, ?_, ?_⟩
  · intro h
    refine ⟨_, LevelTracker.Rescale_of_lt mode c h, rfl, ?_⟩
    show c.chainLength - 1 + 1 = c.chainLength
    omega
  · intro h
    unfold LevelTracker.Rescale BASE_NUM_LEVELS_TO_DROP
    rw [if_pos (by omega)]

/-- C13, evaluated: from 6 moduli `Rescale` leaves 5, and on the last modulus
it fails. -/
theorem LevelTracker.Rescale_chain_length_witness :
    (∃ r, LevelTracker.Rescale ScalingTechnique.FIXEDMANUAL ⟨2, 6⟩ = Except.ok r
      ∧ r.chainLength = 6 - 1 ∧ r.chainLength + BASE_NUM_LEVELS_TO_DROP = 6)
    ∧ LevelTracker.Rescale ScalingTechnique.FIXEDMANUAL ⟨1, 1⟩
        = Except.error Error.ChainExhausted :=
  ⟨(LevelTracker.Rescale_chain_length ScalingTechnique.FIXEDMANUAL ⟨2, 6⟩).2.1 (by decide),
   (LevelTracker.Rescale_chain_length ScalingTechnique.FIXEDMANUAL ⟨1, 1⟩).2.2 rfl⟩

/-- C14 as stated fails in FIXEDMANUAL: `Rescale` of `c2_depth2` (depth 2 over
6 moduli) in `ManualRescaleDemo` returns `c2_depth1` of depth 1, where a
preserved depth would be 2. -/
theorem LevelTracker.Rescale_preserves_depth_counterexample :
    ManualRescaleDemo.c2_depth2.level ScalingTechnique.FIXEDMANUAL ManualRescaleDemo.fresh
      = some ⟨2, 6⟩
    ∧ LevelTracker.Rescale ScalingTechnique.FIXEDMANUAL ⟨2, 6⟩ = Except.ok ⟨1, 5⟩
    ∧ LevelTracker.RescaleDepthPreserving ScalingTechnique.FIXEDMANUAL ⟨2, 6⟩
        = Except.ok ⟨2, 5⟩
    ∧ ¬ ∀ (c r : LevelState),
        LevelTracker.Rescale ScalingTechnique.FIXEDMANUAL c = Except.ok r → r.depth = c.depth := by
  refine ⟨rfl, rfl, rfl, ?_⟩
  intro h
  have h1 := h ⟨2, 6⟩ ⟨1, 5⟩ rfl
  exact absurd h1 (by decide)

/-- C14, amended: on a chain of more than one modulus `Rescale(c)` returns a
ciphertext of depth 1 when the mode is FIXEDAUTO or FLEXIBLEAUTO, and of depth
`Depth(c) - 1` when the mode is FIXEDMANUAL. -/
theorem LevelTracker.Rescale_depth (mode : ScalingTechnique) (c : LevelState)
    (h : 1 < c.chainLength) :
    ∃ r, LevelTracker.Rescale mode c = Except.ok r
      ∧ (mode = ScalingTechnique.FIXEDAUTO ∨ mode = ScalingTechnique.FLEXIBLEAUTO →
          r.depth = 1)
      ∧ (mode = ScalingTechnique.FIXEDMANUAL → r.depth = c.depth - 1) := by
  refine ⟨_, LevelTracker.Rescale_of_lt mode c h, ?_, ?_⟩
  · rintro (hm | hm) <;> simp [hm, ScalingTechnique.isAutomatic]
  · intro hm
    simp [hm, ScalingTechnique.isAutomatic]

/-- C14 amended, evaluated on a ciphertext of depth 2 over 6 moduli: depth 1
under FIXEDAUTO and depth `2 - 1` under FIXEDMANUAL. -/
theorem LevelTracker.Rescale_depth_witness :
    (∃ r, LevelTracker.Rescale ScalingTechnique.FIXEDAUTO ⟨2, 6⟩ = Except.ok r
      ∧ r.depth = 1)
    ∧ (∃ r, LevelTracker.Rescale ScalingTechnique.FIXEDMANUAL ⟨2, 6⟩ = Except.ok r
      ∧ r.depth = 2 - 1) := by
  obtain ⟨r, h1, h2, _⟩ := LevelTracker.Rescale_depth ScalingTechnique.FIXEDAUTO ⟨2, 6⟩
    (by decide)
  obtain ⟨r', k1, _, k3⟩ := LevelTracker.Rescale_depth ScalingTechnique.FIXEDMANUAL ⟨2, 6⟩
    (by decide)
  exact ⟨⟨r, h1, h2 (Or.inl rfl)⟩, ⟨r', k1, k3 rfl⟩⟩

/-- C15: in FIXEDMANUAL mode `Rescale` takes a ciphertext of depth 2 (on a
chain of more than one modulus) to a ciphertext of depth 1, every `Rescale`
lowers the depth by one, and in `ManualRescaleDemo` every variable named
`_depth2` has depth 2 and every variable named `_depth1` has depth 1. -/
theorem LevelTracker.Rescale_FIXEDMANUAL_depth (c : LevelState) :
    (c.depth = 2 → 1 < c.chainLength →
        ∃ r, LevelTracker.Rescale ScalingTechnique.FIXEDMANUAL c = Except.ok r ∧ r.depth = 1)
    ∧ (1 ≤ c.depth → 1 < c.chainLength →
        ∃ r, LevelTracker.Rescale ScalingTechnique.FIXEDMANUAL c = Except.ok r
          ∧ r.depth + 1 = c.depth)
    ∧ [ManualRescaleDemo.c2_depth2, ManualRescaleDemo.c4_depth2, ManualRescaleDemo.c8_depth2,
        ManualRescaleDemo.c16_depth2, ManualRescaleDemo.c9_depth2,
        ManualRescaleDemo.c18_depth2, ManualRescaleDemo.cRes_depth2].map
          (fun v => (v.level ScalingTechnique.FIXEDMANUAL ManualRescaleDemo.fresh).map
            LevelState.depth)
        = [some 2, some 2, some 2, some 2, some 2, some 2, some 2]
    ∧ [ManualRescaleDemo.c2_depth1, ManualRescaleDemo.c4_depth1, ManualRescaleDemo.c8_depth1,
        ManualRescaleDemo.c16_depth1, ManualRescaleDemo.cRes_depth1].map
          (fun v => (v.level ScalingTechnique.FIXEDMANUAL ManualRescaleDemo.fresh).map
            LevelState.depth)
        = [some 1, some 1, some 1, some 1, some 1] := by
  refine ⟨?_, ?_, rfl, rfl⟩
  · intro hd hl
    refine ⟨_, LevelTracker.Rescale_of_lt _ c hl, ?_⟩
    simp [hd, ScalingTechnique.isAutomatic]
  · intro hd hl
    refine ⟨_, LevelTracker.Rescale_of_lt _ c hl, ?_⟩
    simp only [ScalingTechnique.isAutomatic, Bool.false_eq_true, if_false]
    omega

/-- C15, evaluated on `c2_depth2` (depth 2 over 6 moduli). -/
theorem LevelTracker.Rescale_FIXEDMANUAL_depth_witness :
    ∃ r, LevelTracker.Rescale ScalingTechnique.FIXEDMANUAL ⟨2, 6⟩ = Except.ok r ∧ r.depth = 1 :=
  (LevelTracker.Rescale_FIXEDMANUAL_depth ⟨2, 6⟩).1 rfl (by decide)

/-- C17: the addition of two ring elements whose `Format` tags differ fails
with `InvalidFormat`; it returns no sum, so neither operand is converted on
the way. -/
theorem DCRTPoly.PlusEq_InvalidFormat (a b : DCRTPoly) (h : a.format ≠ b.format) :
    a.PlusEq b = Except.error Error.InvalidFormat
    ∧ b.PlusEq a = Except.error Error.InvalidFormat := by
  constructor
  · simp [DCRTPoly.PlusEq, h]
  · simp [DCRTPoly.PlusEq, Ne.symm h]

/-- C17, evaluated: an EVALUATION-format element and the COEFFICIENT-format
plaintext `1`, both over the chain `[5, 7]`, cannot be added in either order. -/
theorem DCRTPoly.PlusEq_InvalidFormat_witness :
    DCRTPoly.PlusEq ⟨Format.EVALUATION, [⟨5, [4]⟩, ⟨7, [5]⟩]⟩ examplePlaintext
      = Except.error Error.InvalidFormat
    ∧ DCRTPoly.PlusEq examplePlaintext ⟨Format.EVALUATION, [⟨5, [4]⟩, ⟨7, [5]⟩]⟩
      = Except.error Error.InvalidFormat :=
  DCRTPoly.PlusEq_InvalidFormat ⟨Format.EVALUATION, [⟨5, [4]⟩, ⟨7, [5]⟩]⟩ examplePlaintext
    (by decide)

/-- C20: in `AutomaticRescaleDemo`, counting every `EvalMult` as one level and
`EvalAdd`/`EvalSub` as none, `cRes1` and `cRes2` have multiplicative depth 5
and `cRes3` has multiplicative depth 6; none exceeds the configured
`SetMultiplicativeDepth(6)`, and none contains a call of `Rescale`. -/
theorem AutomaticRescaleDemo.fits_multiplicative_depth :
    AutomaticRescaleDemo.cRes1.multiplicativeDepth = 5
    ∧ AutomaticRescaleDemo.cRes2.multiplicativeDepth = 5
    ∧ AutomaticRescaleDemo.cRes3.multiplicativeDepth = 6
    ∧ AutomaticRescaleDemo.cRes1.multiplicativeDepth ≤ AutomaticRescaleDemo.multiplicativeDepth
    ∧ AutomaticRescaleDemo.cRes2.multiplicativeDepth ≤ AutomaticRescaleDemo.multiplicativeDepth
    ∧ AutomaticRescaleDemo.cRes3.multiplicativeDepth ≤ AutomaticRescaleDemo.multiplicativeDepth
    ∧ AutomaticRescaleDemo.cRes1.rescaleCalls = 0
    ∧ AutomaticRescaleDemo.cRes2.rescaleCalls = 0
    ∧ AutomaticRescaleDemo.cRes3.rescaleCalls = 0 := by
  decide

/-! ## `ManualRescaleDemo`, the formats inside `Encrypt`, the two overloads -/

/-- C21: in `ManualRescaleDemo`, from a fresh ciphertext of depth 1 over 6
moduli (multiplicative depth 5), with a binary operation yielding the shorter
of its operands' chains: every `Rescale` call has an operand over more than
one modulus and returns (the operands lie over 2, 3, 4, 5 and 6 moduli), so
`ChainExhausted` does not occur; there are 5 `Rescale` calls and 5 of them lie
on the longest path to the result; and `cRes_depth1` has chain length 1 and
depth 1. -/
theorem ManualRescaleDemo.rescales_never_exhaust :
    ManualRescaleDemo.fresh.chainLength = ManualRescaleDemo.multiplicativeDepth + 1
    ∧ ManualRescaleDemo.cRes_depth1.rescaleOperands.all (fun a =>
        match a.level ScalingTechnique.FIXEDMANUAL ManualRescaleDemo.fresh with
        | some x =>
          decide (1 < x.chainLength)
            && (LevelTracker.Rescale ScalingTechnique.FIXEDMANUAL x).toOption.isSome
        | none => false) = true
    ∧ ManualRescaleDemo.cRes_depth1.rescaleOperands.dedup.map
          (Circuit.chainLength ScalingTechnique.FIXEDMANUAL ManualRescaleDemo.fresh)
        = [2, 3, 4, 5, 6]
    ∧ ManualRescaleDemo.cRes_depth1.rescaleOperands.dedup.length = 5
    ∧ ManualRescaleDemo.cRes_depth1.rescalesOnPath = 5
    ∧ ManualRescaleDemo.cRes_depth1.level ScalingTechnique.FIXEDMANUAL ManualRescaleDemo.fresh
        = some { depth := 1, chainLength := 1 } := by
  refine ⟨rfl, ?_, ?_, ?_, ?_, ?_⟩ <;> decide

/-- C22: inside `PKEBFVRNS::Encrypt` the plaintext is in EVALUATION format when
it is multiplied by `QDivtModq` and added, whatever its format at the call;
hence, when `EncryptZeroCore` returns an EVALUATION-format first element,
neither the addition nor `Encrypt` fails with `InvalidFormat`, under a private
key or under a public key. -/
theorem PKEBFVRNS.Encrypt_formats_agree (L : LatticeLayer) (ptxt : DCRTPoly)
    (privateKey : PrivateKey) (publicKey : PublicKey) :
    (ptxt.SetFormat L Format.EVALUATION).format = Format.EVALUATION
    ∧ ((ptxt.SetFormat L Format.EVALUATION).Times
          privateKey.GetCryptoParameters.GetQDivtModq).format = Format.EVALUATION
    ∧ ((ptxt.SetFormat L Format.EVALUATION).Times
          publicKey.GetCryptoParameters.GetQDivtModq).format = Format.EVALUATION
    ∧ ((L.EncryptZeroCorePrivate privateKey
          privateKey.GetCryptoParameters.GetElementParams).1.format = Format.EVALUATION →
        (L.EncryptZeroCorePrivate privateKey
            privateKey.GetCryptoParameters.GetElementParams).1.PlusEq
          ((ptxt.SetFormat L Format.EVALUATION).Times
            privateKey.GetCryptoParameters.GetQDivtModq)
          ≠ Except.error Error.InvalidFormat
        ∧ PKEBFVRNS.Encrypt_PrivateKey L ptxt privateKey ≠ Except.error Error.InvalidFormat)
    ∧ ((L.EncryptZeroCorePublic publicKey
          publicKey.GetCryptoParameters.GetElementParams).1.format = Format.EVALUATION →
        (L.EncryptZeroCorePublic publicKey
            publicKey.GetCryptoParameters.GetElementParams).1.PlusEq
          ((ptxt.SetFormat L Format.EVALUATION).Times
            publicKey.GetCryptoParameters.GetQDivtModq)
          ≠ Except.error Error.InvalidFormat
        ∧ PKEBFVRNS.Encrypt_PublicKey L ptxt publicKey ≠ Except.error Error.InvalidFormat) := by
  have key : ∀ (z0 : DCRTPoly) (cs : List Nat), z0.format = Format.EVALUATION →
      z0.PlusEq ((ptxt.SetFormat L Format.EVALUATION).Times cs)
        ≠ Except.error Error.InvalidFormat := by
    intro z0 cs hz
    unfold DCRTPoly.PlusEq
    rw [if_neg (by
      rw [DCRTPoly.Times_format, DCRTPoly.SetFormat_format, hz]
      exact fun h => h rfl)]
    split
    · intro h; cases h
    · intro h; cases h
  refine ⟨DCRTPoly.SetFormat_format L _ _, ?_, ?_, ?_, ?_⟩
  · rw [DCRTPoly.Times_format, DCRTPoly.SetFormat_format]
  · rw [DCRTPoly.Times_format, DCRTPoly.SetFormat_format]
  · intro hz
    refine ⟨key _ _ hz, ?_⟩
    have hk := key _ privateKey.GetCryptoParameters.GetQDivtModq hz
    simp only [PKEBFVRNS.Encrypt_PrivateKey]
    split
    · rename_i e he
      intro h
      cases h
      exact hk he
    · intro h; cases h
  · intro hz
    refine ⟨key _ _ hz, ?_⟩
    have hk := key _ publicKey.GetCryptoParameters.GetQDivtModq hz
    simp only [PKEBFVRNS.Encrypt_PublicKey]
    split
    · rename_i e he
      intro h
      cases h
      exact hk he
    · intro h; cases h

/-- C22, evaluated: on the COEFFICIENT-format plaintext `1` over the chain
`[5, 7]` neither overload fails with `InvalidFormat`. -/
theorem PKEBFVRNS.Encrypt_formats_agree_witness :
    examplePlaintext.format = Format.COEFFICIENT
    ∧ PKEBFVRNS.Encrypt_PrivateKey exampleLayer examplePlaintext examplePrivateKey
        ≠ Except.error Error.InvalidFormat
    ∧ PKEBFVRNS.Encrypt_PublicKey exampleLayer examplePlaintext examplePublicKey
        ≠ Except.error Error.InvalidFormat :=
  ⟨rfl,
   ((PKEBFVRNS.Encrypt_formats_agree exampleLayer examplePlaintext examplePrivateKey
      examplePublicKey).2.2.2.1 rfl).2,
   ((PKEBFVRNS.Encrypt_formats_agree exampleLayer examplePlaintext examplePrivateKey
      examplePublicKey).2.2.2.2 rfl).2⟩

/-- C23: the two overloads of `PKEBFVRNS::Encrypt` differ only in the call of
`EncryptZeroCore`: for keys with the same crypto parameters, the same
plaintext and the same zero-encryption pair, they return the same result, a
ciphertext with the same elements and the same depth or the same error. -/
theorem PKEBFVRNS.Encrypt_overloads_agree (L : LatticeLayer) (ptxt : DCRTPoly)
    (privateKey : PrivateKey) (publicKey : PublicKey)
    (hparams : privateKey.GetCryptoParameters = publicKey.GetCryptoParameters)
    (hzero : L.EncryptZeroCorePrivate privateKey privateKey.GetCryptoParameters.GetElementParams
      = L.EncryptZeroCorePublic publicKey publicKey.GetCryptoParameters.GetElementParams) :
    PKEBFVRNS.Encrypt_PrivateKey L ptxt privateKey = PKEBFVRNS.Encrypt_PublicKey L ptxt publicKey
    ∧ ∀ ct1 ct2, PKEBFVRNS.Encrypt_PrivateKey L ptxt privateKey = Except.ok ct1 →
        PKEBFVRNS.Encrypt_PublicKey L ptxt publicKey = Except.ok ct2 →
        ct1.elements = ct2.elements ∧ ct1.depth = ct2.depth := by
  have h : PKEBFVRNS.Encrypt_PrivateKey L ptxt privateKey
      = PKEBFVRNS.Encrypt_PublicKey L ptxt publicKey := by
    have hz := hzero
    rw [hparams] at hz
    simp only [PKEBFVRNS.Encrypt_PrivateKey, PKEBFVRNS.Encrypt_PublicKey, hparams, hz]
  refine ⟨h, ?_⟩
  intro ct1 ct2 h1 h2
  rw [h, h2] at h1
  cases h1
  exact ⟨rfl, rfl⟩

/-- C23, evaluated: the example keys share their parameters and the example
layer gives both the same zero encryption; both overloads return the same
ciphertext on the plaintext `1`. -/
theorem PKEBFVRNS.Encrypt_overloads_agree_witness :
    PKEBFVRNS.Encrypt_PrivateKey exampleLayer examplePlaintext examplePrivateKey
      = PKEBFVRNS.Encrypt_PublicKey exampleLayer examplePlaintext examplePublicKey :=
  (PKEBFVRNS.Encrypt_overloads_agree exampleLayer examplePlaintext examplePrivateKey
    examplePublicKey rfl rfl).1

/-! ## `ckks-bootstrap.cpp` and `PKESchemeFeature` -/

/-- C25: `BootstrapExample` and `BootstrapExampleClean` hand the same values to
the library for every input.  The multiplicative depth is
`levelsRemaining + approxModDepth + levelBudget[0] + levelBudget[1]` in 32-bit
unsigned arithmetic, with `levelBudget = {4, 4}` and `approxModDepth = 9`,
raised by `r - 1 = 5` under FIXEDMANUAL (`NATIVEINT == 128`) and by `r = 6`
otherwise, only when the mode is OPTIMIZED; it is the plain sum whenever that
fits 32 bits, and 27 for the call in `main`.  The sparse flag is 1 when
`slots < n / 2` and 0 otherwise. -/
theorem BootstrapExample_eq_Clean (NATIVEINT : Nat) (mode : MODE)
    (n slots levelsRemaining : Nat) :
    BootstrapExample NATIVEINT mode n slots levelsRemaining
      = BootstrapExampleClean NATIVEINT mode n slots levelsRemaining
    ∧ ((BootstrapExample NATIVEINT mode n slots levelsRemaining).rescaleTech
          = ScalingTechnique.FIXEDMANUAL ↔ NATIVEINT = 128)
    ∧ (BootstrapExample NATIVEINT mode n slots levelsRemaining).approxModDepth
        = 9 + (if mode = MODE.OPTIMIZED then (if NATIVEINT = 128 then 5 else 6) else 0)
    ∧ (BootstrapExample NATIVEINT mode n slots levelsRemaining).depth
        = (levelsRemaining
            + (9 + (if mode = MODE.OPTIMIZED then (if NATIVEINT = 128 then 5 else 6) else 0))
            + 4 + 4) % 2 ^ 32
    ∧ (levelsRemaining + 23 < 2 ^ 32 →
        (BootstrapExample NATIVEINT mode n slots levelsRemaining).depth
          = levelsRemaining
            + (9 + (if mode = MODE.OPTIMIZED then (if NATIVEINT = 128 then 5 else 6) else 0))
            + 4 + 4
        ∧ (BootstrapExampleClean NATIVEINT mode n slots levelsRemaining).depth
          = levelsRemaining
            + (9 + (if mode = MODE.OPTIMIZED then (if NATIVEINT = 128 then 5 else 6) else 0))
            + 4 + 4)
    ∧ (BootstrapExample NATIVEINT MODE.SPARSE (2 ^ 12) (2 ^ 11) 10).depth = 27
    ∧ (BootstrapExample NATIVEINT mode n slots levelsRemaining).sparseFlag
        = (if slots < n / 2 then 1 else 0)
    ∧ (BootstrapExampleClean NATIVEINT mode n slots levelsRemaining).sparseFlag
        = (if slots < n / 2 then 1 else 0) := by
  have hd : (BootstrapExample NATIVEINT mode n slots levelsRemaining).depth
      = (levelsRemaining
          + (9 + (if mode = MODE.OPTIMIZED then (if NATIVEINT = 128 then 5 else 6) else 0))
          + 4 + 4) % 2 ^ 32 := by
    simp only [BootstrapExample, List.getD_cons_zero, List.getD_cons_succ]
    by_cases hm : mode = MODE.OPTIMIZED <;> by_cases hn : NATIVEINT = 128 <;>
      simp [hm, hn]
  refine ⟨rfl, ?_, ?_, hd, ?_, ?_, rfl, rfl⟩
  · simp only [BootstrapExample]
    by_cases hn : NATIVEINT = 128 <;> simp [hn]
  · simp only [BootstrapExample]
    by_cases hm : mode = MODE.OPTIMIZED <;> by_cases hn : NATIVEINT = 128 <;> simp [hm, hn]
  · intro hfit
    have hc : (BootstrapExampleClean NATIVEINT mode n slots levelsRemaining).depth
        = (BootstrapExample NATIVEINT mode n slots levelsRemaining).depth := rfl
    rw [hc, hd]
    have hb : (if mode = MODE.OPTIMIZED then (if NATIVEINT = 128 then 5 else 6) else 0) ≤ 6 := by
      split
      · split <;> omega
      · omega
    constructor <;> exact Nat.mod_eq_of_lt (by omega)
  · simp [BootstrapExample]

/-- C25, evaluated on the call of `main`: `BootstrapExample(SPARSE, 1<<12,
1<<11, 10)` in a 64-bit build asks for depth `10 + 9 + 4 + 4`, and so does
`BootstrapExampleClean`. -/
theorem BootstrapExample_eq_Clean_witness :
    (BootstrapExample 64 MODE.SPARSE (2 ^ 12) (2 ^ 11) 10).depth
      = 10 + (9 + (if MODE.SPARSE = MODE.OPTIMIZED then (if 64 = 128 then 5 else 6) else 0))
          + 4 + 4
    ∧ (BootstrapExampleClean 64 MODE.SPARSE (2 ^ 12) (2 ^ 11) 10).depth
      = 10 + (9 + (if MODE.SPARSE = MODE.OPTIMIZED then (if 64 = 128 then 5 else 6) else 0))
          + 4 + 4 :=
  (BootstrapExample_eq_Clean 64 MODE.SPARSE (2 ^ 12) (2 ^ 11) 10).2.2.2.2.1 (by decide)

theorem Nat.lor_eq_zero (a b : Nat) : a ||| b = 0 ↔ a = 0 ∧ b = 0 := by
  constructor
  · intro h
    have h' : ∀ i, (a ||| b).testBit i = false := by
      intro i
      rw [h]
      exact Nat.zero_testBit i
    constructor
    · apply Nat.eq_of_testBit_eq
      intro i
      have hi := h' i
      rw [Nat.testBit_or, Bool.or_eq_false_iff] at hi
      rw [hi.1, Nat.zero_testBit]
    · apply Nat.eq_of_testBit_eq
      intro i
      have hi := h' i
      rw [Nat.testBit_or, Bool.or_eq_false_iff] at hi
      rw [hi.2, Nat.zero_testBit]
  · rintro ⟨rfl, rfl⟩
    rfl

/-- The bit of a feature is set in the mask of a list exactly when the feature
is in the list. -/
theorem PKESchemeFeature.mask_and_ne_zero (fs : List PKESchemeFeature) (f : PKESchemeFeature) :
    PKESchemeFeature.mask fs &&& f.toNat ≠ 0 ↔ f ∈ fs := by
  induction fs with
  | nil => simp [PKESchemeFeature.mask]
  | cons g gs ih =>
    rw [PKESchemeFeature.mask, Nat.and_distrib_right, Ne, Nat.lor_eq_zero, not_and_or,
      List.mem_cons]
    constructor
    · rintro (h | h)
      · left
        revert h
        cases g <;> cases f <;> decide
      · right
        exact ih.mp h
    · rintro (h | h)
      · left
        subst h
        cases f <;> decide
      · right
        exact ih.mpr h

/-- C26: the seven `PKESchemeFeature` values are pairwise distinct single-bit
masks: each is a power of two, two different values have bitwise AND 0, the
bitwise OR of all seven is `0x7F`, and a feature belongs to a list of enabled
features exactly when its bit is set in the OR of the list. -/
theorem PKESchemeFeature.single_bit_masks :
    (∀ f : PKESchemeFeature, ∃ k, f.toNat = 2 ^ k)
    ∧ (∀ f g : PKESchemeFeature, f ≠ g → f.toNat ≠ g.toNat ∧ f.toNat &&& g.toNat = 0)
    ∧ PKESchemeFeature.mask PKESchemeFeature.all = 0x7F
    ∧ (∀ (fs : List PKESchemeFeature) (f : PKESchemeFeature),
        f ∈ fs ↔ PKESchemeFeature.mask fs &&& f.toNat ≠ 0)
    ∧ PKESchemeFeature.mask (BootstrapExample 64 MODE.SPARSE (2 ^ 12) (2 ^ 11) 10).enabled
        = 0x5B := by
  refine ⟨?_, ?_, by decide, ?_, by decide⟩
  · intro f
    cases f
    · exact ⟨0, rfl⟩
    · exact ⟨1, rfl⟩
    · exact ⟨2, rfl⟩
    · exact ⟨3, rfl⟩
    · exact ⟨4, rfl⟩
    · exact ⟨5, rfl⟩
    · exact ⟨6, rfl⟩
  · intro f g
    cases f <;> cases g <;> decide
  · intro fs f
    exact (PKESchemeFeature.mask_and_ne_zero fs f).symm

/-- C26, evaluated: `PKE` and `FHE` are different, their values differ and have
no common bit. -/
theorem PKESchemeFeature.single_bit_masks_witness :
    PKESchemeFeature.PKE.toNat ≠ PKESchemeFeature.FHE.toNat
    ∧ PKESchemeFeature.PKE.toNat &&& PKESchemeFeature.FHE.toNat = 0 :=
  PKESchemeFeature.single_bit_masks.2.1 PKESchemeFeature.PKE PKESchemeFeature.FHE (by decide)

/-! ## Additivity of the plaintext embedding -/

theorem mod_add_scaled (q a a' x y c : Nat) :
    ((a + x * c % q) % q + (a' + y * c % q) % q) % q
      = ((a + a') % q + (x + y) % q * c % q) % q := by
  rw [← ZMod.natCast_eq_natCast_iff']
  simp only [Nat.cast_add, Nat.cast_mul, ZMod.natCast_mod]
  ring

theorem mod_add_plain (q a a' x y : Nat) :
    ((a + x) % q + (a' + y) % q) % q = ((a + a') % q + (x + y) % q) % q := by
  rw [← ZMod.natCast_eq_natCast_iff']
  simp only [Nat.cast_add, ZMod.natCast_mod]
  ring

theorem zipWith_add_scaled (q c : Nat) (as xs as' ys : List Nat) :
    List.zipWith (fun u v => (u + v) % q)
        (List.zipWith (fun u v => (u + v) % q) as (xs.map fun x => x * c % q))
        (List.zipWith (fun u v => (u + v) % q) as' (ys.map fun x => x * c % q))
      = List.zipWith (fun u v => (u + v) % q)
          (List.zipWith (fun u v => (u + v) % q) as as')
          ((List.zipWith (fun u v => (u + v) % q) xs ys).map fun x => x * c % q) := by
  induction as generalizing xs as' ys with
  | nil => simp
  | cons a as ih =>
    cases xs with
    | nil => simp
    | cons x xs =>
      cases as' with
      | nil => simp
      | cons a' as' =>
        cases ys with
        | nil => simp
        | cons y ys =>
          simp only [List.map_cons, List.zipWith_cons_cons, ih, mod_add_scaled]

theorem zipWith_add_plain (q : Nat) (as xs as' ys : List Nat) :
    List.zipWith (fun u v => (u + v) % q)
        (List.zipWith (fun u v => (u + v) % q) as xs)
        (List.zipWith (fun u v => (u + v) % q) as' ys)
      = List.zipWith (fun u v => (u + v) % q)
          (List.zipWith (fun u v => (u + v) % q) as as')
          (List.zipWith (fun u v => (u + v) % q) xs ys) := by
  induction as generalizing xs as' ys with
  | nil => simp
  | cons a as ih =>
    cases xs with
    | nil => simp
    | cons x xs =>
      cases as' with
      | nil => simp
      | cons a' as' =>
        cases ys with
        | nil => simp
        | cons y ys =>
          simp only [List.zipWith_cons_cons, ih, mod_add_plain]

theorem Tower.Plus_Times_additive (a a' x y : Tower) (c : Nat)
    (h1 : a.modulus = x.modulus) (h2 : a'.modulus = y.modulus) (h3 : a.modulus = a'.modulus) :
    (a.Plus (x.Times c)).Plus (a'.Plus (y.Times c)) = (a.Plus a').Plus ((x.Plus y).Times c) := by
  simp only [Tower.Plus, Tower.Times, ← h1, ← h2, ← h3]
  rw [zipWith_add_scaled]

theorem Tower.Plus_additive (a a' x y : Tower)
    (h1 : a.modulus = x.modulus) (h3 : a.modulus = a'.modulus) :
    (a.Plus x).Plus (a'.Plus y) = (a.Plus a').Plus (x.Plus y) := by
  simp only [Tower.Plus, ← h1, ← h3]
  rw [zipWith_add_plain]

/-- What the addition returns when it returns. -/
theorem DCRTPoly.PlusEq_inv (a b c : DCRTPoly) (h : a.PlusEq b = Except.ok c) :
    a.format = b.format ∧ a.chain = b.chain
      ∧ c = { format := a.format, towers := List.zipWith Tower.Plus a.towers b.towers } := by
  unfold DCRTPoly.PlusEq at h
  split at h
  · cases h
  · split at h
    · cases h
    · cases h
      rename_i hf hc
      exact ⟨not_not.mp hf, not_not.mp hc, rfl⟩

theorem zipWith_Plus_modulus (as bs : List Tower)
    (h : as.map Tower.modulus = bs.map Tower.modulus) :
    (List.zipWith Tower.Plus as bs).map Tower.modulus = as.map Tower.modulus := by
  induction as generalizing bs with
  | nil => simp
  | cons a as ih =>
    cases bs with
    | nil => simp at h
    | cons b bs =>
      simp only [List.map_cons, List.cons.injEq] at h
      simp only [List.zipWith_cons_cons, List.map_cons, ih bs h.2, Tower.Plus]

/-- The sum of two embedded plaintexts, tower by tower. -/
theorem zipWith_Plus_timesTowers (cs : List Nat) (As As' Xs Ys : List Tower)
    (h1 : As.map Tower.modulus = Xs.map Tower.modulus)
    (h2 : As'.map Tower.modulus = Ys.map Tower.modulus)
    (h3 : As.map Tower.modulus = As'.map Tower.modulus) :
    List.zipWith Tower.Plus (List.zipWith Tower.Plus As (timesTowers Xs cs))
        (List.zipWith Tower.Plus As' (timesTowers Ys cs))
      = List.zipWith Tower.Plus (List.zipWith Tower.Plus As As')
          (timesTowers (List.zipWith Tower.Plus Xs Ys) cs) := by
  induction As generalizing As' Xs Ys cs with
  | nil => simp
  | cons a As ih =>
    cases Xs with
    | nil => simp at h1
    | cons x Xs =>
      cases As' with
      | nil => simp at h3
      | cons a' As' =>
        cases Ys with
        | nil => simp at h2
        | cons y Ys =>
          simp only [List.map_cons, List.cons.injEq] at h1 h2 h3
          cases cs with
          | nil =>
            have hrec := ih [] As' Xs Ys h1.2 h2.2 h3.2
            simp only [timesTowers, List.zipWith_cons_cons, List.cons.injEq]
            refine ⟨Tower.Plus_additive a a' x y h1.1 h3.1, ?_⟩
            have e : ∀ l : List Tower, timesTowers l [] = l := by
              intro l; cases l <;> rfl
            rw [e, e] at hrec
            rw [hrec, e]
          | cons c cs =>
            simp only [timesTowers, List.zipWith_cons_cons, List.cons.injEq]
            exact ⟨Tower.Plus_Times_additive a a' x y c h1.1 h2.1 h3.1,
              ih cs As' Xs Ys h1.2 h2.2 h3.2⟩

/-- The conversion to EVALUATION format of a sum is the sum of the
conversions. -/
theorem SetFormat_PlusEq (L : LatticeLayer) (p1 p2 p12 : DCRTPoly)
    (hT : p1.format = Format.EVALUATION ∨ (L.TransformAdditive ∧ p1.SameDimension p2))
    (hp : p1.PlusEq p2 = Except.ok p12) :
    (p12.SetFormat L Format.EVALUATION).towers
      = List.zipWith Tower.Plus (p1.SetFormat L Format.EVALUATION).towers
          (p2.SetFormat L Format.EVALUATION).towers := by
  obtain ⟨hf, hc, rfl⟩ := DCRTPoly.PlusEq_inv p1 p2 p12 hp
  by_cases he : p1.format = Format.EVALUATION
  · have he2 : p2.format = Format.EVALUATION := by rw [← hf, he]
    simp [DCRTPoly.SetFormat, he, he2]
  · have hadd : L.TransformAdditive ∧ p1.SameDimension p2 := by
      rcases hT with h | h
      · exact absurd h he
      · exact h
    have he2 : ¬ p2.format = Format.EVALUATION := by rw [← hf]; exact he
    simp only [DCRTPoly.SetFormat, he, he2, if_false]
    have hd := hadd.2
    unfold DCRTPoly.SameDimension at hd
    unfold DCRTPoly.chain at hc
    generalize p1.towers = T1 at hd hc
    generalize p2.towers = T2 at hd hc
    induction hd with
    | nil => simp
    | @cons t1 t2 l1 l2 hlen _ ih =>
      simp only [List.map_cons, List.cons.injEq] at hc
      simp only [List.zipWith_cons_cons, List.map_cons, List.cons.injEq]
      refine ⟨?_, ih hc.2⟩
      simp only [Tower.Plus, Tower.mk.injEq, true_and]
      rw [hadd.1 t1.modulus Format.EVALUATION t1.values t2.values hlen, hc.1]

/-- The first components: with `z0 + z0'` and `p1 + p2` defined, the sum of the
two embedded elements is the embedding of the sums. -/
theorem embed_additive (L : LatticeLayer) (cs : List Nat)
    (p1 p2 p12 z0 z0' zz0 a1 a2 : DCRTPoly)
    (hT : p1.format = Format.EVALUATION ∨ (L.TransformAdditive ∧ p1.SameDimension p2))
    (hp : p1.PlusEq p2 = Except.ok p12)
    (hz : z0.PlusEq z0' = Except.ok zz0)
    (h1 : z0.PlusEq ((p1.SetFormat L Format.EVALUATION).Times cs) = Except.ok a1)
    (h2 : z0'.PlusEq ((p2.SetFormat L Format.EVALUATION).Times cs) = Except.ok a2) :
    ∃ a12, zz0.PlusEq ((p12.SetFormat L Format.EVALUATION).Times cs) = Except.ok a12
      ∧ a1.PlusEq a2 = Except.ok a12 := by
  have hsum := SetFormat_PlusEq L p1 p2 p12 hT hp
  obtain ⟨hpf, hpc, hp12⟩ := DCRTPoly.PlusEq_inv p1 p2 p12 hp
  obtain ⟨hzf, hzc, rfl⟩ := DCRTPoly.PlusEq_inv z0 z0' zz0 hz
  obtain ⟨h1f, h1c, rfl⟩ := DCRTPoly.PlusEq_inv _ _ a1 h1
  obtain ⟨h2f, h2c, rfl⟩ := DCRTPoly.PlusEq_inv _ _ a2 h2
  rw [DCRTPoly.Times_format, DCRTPoly.SetFormat_format] at h1f h2f
  rw [DCRTPoly.Times_chain, DCRTPoly.SetFormat_chain] at h1c h2c
  have c1 : z0.towers.map Tower.modulus
      = (p1.SetFormat L Format.EVALUATION).towers.map Tower.modulus := by
    have := DCRTPoly.SetFormat_chain L p1 Format.EVALUATION
    unfold DCRTPoly.chain at this h1c
    rw [this, h1c]
  have c2 : z0'.towers.map Tower.modulus
      = (p2.SetFormat L Format.EVALUATION).towers.map Tower.modulus := by
    have := DCRTPoly.SetFormat_chain L p2 Format.EVALUATION
    unfold DCRTPoly.chain at this h2c
    rw [this, h2c]
  have c3 : z0.towers.map Tower.modulus = z0'.towers.map Tower.modulus := hzc
  have c12 : (p12.SetFormat L Format.EVALUATION).towers.map Tower.modulus
      = z0.towers.map Tower.modulus := by
    rw [hsum, zipWith_Plus_modulus _ _ (by rw [← c1, ← c2, c3]), ← c1]
  have ht : timesTowers (p12.SetFormat L Format.EVALUATION).towers cs
      = timesTowers (List.zipWith Tower.Plus (p1.SetFormat L Format.EVALUATION).towers
          (p2.SetFormat L Format.EVALUATION).towers) cs := by
    rw [hsum]
  refine ⟨_, DCRTPoly.PlusEq_ok _ _ ?_ ?_, ?_⟩
  · rw [DCRTPoly.Times_format, DCRTPoly.SetFormat_format]
    exact h1f
  · rw [DCRTPoly.Times_chain]
    show (List.zipWith Tower.Plus z0.towers z0'.towers).map Tower.modulus
      = (p12.SetFormat L Format.EVALUATION).towers.map Tower.modulus
    rw [zipWith_Plus_modulus _ _ c3, c12]
  · rw [DCRTPoly.PlusEq_ok _ _ (by show z0.format = z0'.format; exact hzf) (by
      show (List.zipWith Tower.Plus z0.towers _).map Tower.modulus
        = (List.zipWith Tower.Plus z0'.towers _).map Tower.modulus
      rw [zipWith_Plus_modulus _ _ (by
          show _ = (timesTowers _ cs).map Tower.modulus
          rw [timesTowers_modulus]; exact c1),
        zipWith_Plus_modulus _ _ (by
          show _ = (timesTowers _ cs).map Tower.modulus
          rw [timesTowers_modulus]; exact c2), c3])]
    show Except.ok _ = Except.ok _
    congr 2
    show List.zipWith Tower.Plus (List.zipWith Tower.Plus z0.towers (timesTowers _ cs))
        (List.zipWith Tower.Plus z0'.towers (timesTowers _ cs))
      = List.zipWith Tower.Plus (List.zipWith Tower.Plus z0.towers z0'.towers)
          (timesTowers (p12.SetFormat L Format.EVALUATION).towers cs)
    rw [ht]
    exact zipWith_Plus_timesTowers cs _ _ _ _ c1 c2 c3

/-- C24: the plaintext embedding of `PKEBFVRNS::Encrypt` is additive.  For
plaintexts `p1`, `p2` with sum `p1 + p2` and zero-encryption pairs `z`, `z'`
with component-wise sum `z + z'` (the transform being additive when the
plaintexts arrive in COEFFICIENT format), whenever `Encrypt` returns on
`(z, p1)` and on `(z', p2)` it returns on `(z + z', p1 + p2)`, and that
ciphertext has depth 1 and is the component-wise sum of the two, residue by
residue; under a private key and under a public key. -/
theorem PKEBFVRNS.Encrypt_additive (L : LatticeLayer) (p1 p2 p12 : DCRTPoly)
    (z z' zz : DCRTPoly × DCRTPoly) (privateKey : PrivateKey) (publicKey : PublicKey)
    (hT : p1.format = Format.EVALUATION ∨ (L.TransformAdditive ∧ p1.SameDimension p2))
    (hp : p1.PlusEq p2 = Except.ok p12)
    (hz1 : z.1.PlusEq z'.1 = Except.ok zz.1)
    (hz2 : z.2.PlusEq z'.2 = Except.ok zz.2) :
    (∀ ct1 ct2,
      PKEBFVRNS.Encrypt_PrivateKey (L.withZeroEncryption z) p1 privateKey = Except.ok ct1 →
      PKEBFVRNS.Encrypt_PrivateKey (L.withZeroEncryption z') p2 privateKey = Except.ok ct2 →
      ∃ ct12,
        PKEBFVRNS.Encrypt_PrivateKey (L.withZeroEncryption zz) p12 privateKey = Except.ok ct12
        ∧ sumElements ct1.elements ct2.elements = Except.ok ct12.elements
        ∧ ct12.depth = 1)
    ∧ (∀ ct1 ct2,
      PKEBFVRNS.Encrypt_PublicKey (L.withZeroEncryption z) p1 publicKey = Except.ok ct1 →
      PKEBFVRNS.Encrypt_PublicKey (L.withZeroEncryption z') p2 publicKey = Except.ok ct2 →
      ∃ ct12,
        PKEBFVRNS.Encrypt_PublicKey (L.withZeroEncryption zz) p12 publicKey = Except.ok ct12
        ∧ sumElements ct1.elements ct2.elements = Except.ok ct12.elements
        ∧ ct12.depth = 1) := by
  have core : ∀ (cs : List Nat) (a1 a2 : DCRTPoly),
      z.1.PlusEq ((p1.SetFormat L Format.EVALUATION).Times cs) = Except.ok a1 →
      z'.1.PlusEq ((p2.SetFormat L Format.EVALUATION).Times cs) = Except.ok a2 →
      ∃ a12, zz.1.PlusEq ((p12.SetFormat L Format.EVALUATION).Times cs) = Except.ok a12
        ∧ sumElements [a1, z.2] [a2, z'.2] = Except.ok [a12, zz.2] := by
    intro cs a1 a2 h1 h2
    obtain ⟨a12, e1, e2⟩ := embed_additive L cs p1 p2 p12 z.1 z'.1 zz.1 a1 a2 hT hp hz1 h1 h2
    refine ⟨a12, e1, ?_⟩
    simp only [sumElements, e2, hz2]
  constructor
  · intro ct1 ct2 h1 h2
    simp only [PKEBFVRNS.Encrypt_PrivateKey, LatticeLayer.withZeroEncryption] at h1 h2 ⊢
    split at h1
    · cases h1
    · rename_i a1 ha1
      cases h1
      split at h2
      · cases h2
      · rename_i a2 ha2
        cases h2
        obtain ⟨a12, e1, e2⟩ := core _ a1 a2 ha1 ha2
        have e1' : zz.1.PlusEq ((DCRTPoly.SetFormat
            { SwitchFormat := L.SwitchFormat, EncryptZeroCorePrivate := fun _ _ => zz,
              EncryptZeroCorePublic := fun _ _ => zz, DecryptCore := L.DecryptCore,
              ScaleAndRoundBEHZ := L.ScaleAndRoundBEHZ } p12 Format.EVALUATION).Times
            privateKey.GetCryptoParameters.GetQDivtModq) = Except.ok a12 := e1
        rw [e1']
        exact ⟨_, rfl, e2, rfl⟩
  · intro ct1 ct2 h1 h2
    simp only [PKEBFVRNS.Encrypt_PublicKey, LatticeLayer.withZeroEncryption] at h1 h2 ⊢
    split at h1
    · cases h1
    · rename_i a1 ha1
      cases h1
      split at h2
      · cases h2
      · rename_i a2 ha2
        cases h2
        obtain ⟨a12, e1, e2⟩ := core _ a1 a2 ha1 ha2
        have e1' : zz.1.PlusEq ((DCRTPoly.SetFormat
            { SwitchFormat := L.SwitchFormat, EncryptZeroCorePrivate := fun _ _ => zz,
              EncryptZeroCorePublic := fun _ _ => zz, DecryptCore := L.DecryptCore,
              ScaleAndRoundBEHZ := L.ScaleAndRoundBEHZ } p12 Format.EVALUATION).Times
            publicKey.GetCryptoParameters.GetQDivtModq) = Except.ok a12 := e1
        rw [e1']
        exact ⟨_, rfl, e2, rfl⟩

/-- C24, evaluated over the chain `[5, 7]`: the plaintext `1` encrypted twice
with the zero encryption `([4, 5], [3, 4])` sums to the encryption of the
plaintext `2` with the zero encryption `([3, 3], [1, 1])`. -/
theorem PKEBFVRNS.Encrypt_additive_witness :
    ∃ ct12,
      PKEBFVRNS.Encrypt_PrivateKey
          (exampleLayer.withZeroEncryption
            (⟨Format.EVALUATION, [⟨5, [3]⟩, ⟨7, [3]⟩]⟩, ⟨Format.EVALUATION, [⟨5, [1]⟩, ⟨7, [1]⟩]⟩))
          ⟨Format.COEFFICIENT, [⟨5, [2]⟩, ⟨7, [2]⟩]⟩ examplePrivateKey = Except.ok ct12
      ∧ sumElements
          [⟨Format.EVALUATION, [⟨5, [1]⟩, ⟨7, [1]⟩]⟩, ⟨Format.EVALUATION, [⟨5, [3]⟩, ⟨7, [4]⟩]⟩]
          [⟨Format.EVALUATION, [⟨5, [1]⟩, ⟨7, [1]⟩]⟩, ⟨Format.EVALUATION, [⟨5, [3]⟩, ⟨7, [4]⟩]⟩]
        = Except.ok ct12.elements
      ∧ ct12.depth = 1 :=
  (PKEBFVRNS.Encrypt_additive exampleLayer examplePlaintext examplePlaintext
    ⟨Format.COEFFICIENT, [⟨5, [2]⟩, ⟨7, [2]⟩]⟩
    (⟨Format.EVALUATION, [⟨5, [4]⟩, ⟨7, [5]⟩]⟩, ⟨Format.EVALUATION, [⟨5, [3]⟩, ⟨7, [4]⟩]⟩)
    (⟨Format.EVALUATION, [⟨5, [4]⟩, ⟨7, [5]⟩]⟩, ⟨Format.EVALUATION, [⟨5, [3]⟩, ⟨7, [4]⟩]⟩)
    (⟨Format.EVALUATION, [⟨5, [3]⟩, ⟨7, [3]⟩]⟩, ⟨Format.EVALUATION, [⟨5, [1]⟩, ⟨7, [1]⟩]⟩)
    examplePrivateKey examplePublicKey
    (Or.inr ⟨fun _ _ _ _ _ => rfl,
      List.Forall₂.cons rfl (List.Forall₂.cons rfl List.Forall₂.nil)⟩)
    rfl rfl rfl).1
    { elements := [⟨Format.EVALUATION, [⟨5, [1]⟩, ⟨7, [1]⟩]⟩,
                   ⟨Format.EVALUATION, [⟨5, [3]⟩, ⟨7, [4]⟩]⟩], depth := 1 }
    { elements := [⟨Format.EVALUATION, [⟨5, [1]⟩, ⟨7, [1]⟩]⟩,
                   ⟨Format.EVALUATION, [⟨5, [3]⟩, ⟨7, [4]⟩]⟩], depth := 1 }
    rfl rfl

end lbcrypto
